import Mathlib

/-! # luapsql : binary value codec and resource graph

A shallow embedding of `psql.c` and `lpqtype.c` (a Lua binding of libpq).

* C functions become Lean functions of the same name.  The Lua stack is not
  simulated push by push: a function gets the stack it is entered with as the
  list `args` (`args[0]` is stack index 1) and returns the values it leaves
  for Lua.  Where the C code addresses the stack by an absolute index (2 or 3)
  after pushing, the value found there depends on the number of arguments and
  is modelled so (`tableAt2`, `lpq_rset__index`, `lpq_rset_rows`).
* The Lua API is the one of Lua 5.2 and later (the `#else` branch of the
  version switch of psql.c): a userdata has a uservalue, nil until it is set;
  `lua_Integer` holds every integer the code converts.
* Byte strings are lists of naturals below 256.
* Machine integers are `Int` / `Nat`; conversions between C integer types are
  the explicit functions `to_uint32`, `to_int32`, `to_int64`.
* Full userdata created by the library (connection, plan, result set, tuple)
  live in typed stores of `lua_State` and are referred to by index; the
  library removes nothing from a store, the collector is seen only through the
  two finalisers.  A tuple whose result set index is outside the store of
  result sets stands for a tuple whose result set userdata has been collected:
  the pointer `T->rset` of such a tuple dangles.  Tables and other userdata
  are values: a table carries its identity, its metatable and its entries.
* What the repository calls but does not define (number formatting, floating
  point conversions, calls into Lua functions, the replies of libpq) is a
  parameter: the record `Host`, or an explicit argument of an operation.
* A function the library calls (the `__recv` or `__send` function of a
  registered type, a metamethod) is given by its result (`Host.call`).  Of
  what it can do by calling back into the library, the model has the stores
  into the length table of the plan whose parameters are being bound
  (`Host.reenter`); elsewhere the state of the library is taken to be the same
  after the call.
* A `luaL_Buffer` has two sides.  Its bytes are the list `lpq_tovalue` appends
  to.  Its use of the Lua stack is the record `luaL_Buffer`, after lauxlib.c
  of Lua 5.3.3 to 5.3.6: once the bytes outgrow the array inside the struct
  they live in a box on the stack, which the buffer functions look for at the
  top of the stack; `tovalue_stack` follows `lpq_tovalue` on that side, and
  `lpq_setparams` puts the two sides together.
* A table of a plan (`type`, `value`, `length`, `format`) is a list with one
  element per slot.  The stores `lpq_setparams` makes into these tables are
  written down, in order, by `setparams_trace`; a store to a slot the table
  does not have leaves the list as it is.
-/

namespace Luapsql

abbrev Bytes := List Nat
abbrev Addr := Nat

/-! ## C integer conversions -/

/-- C conversion to `uint32` (`unsigned int`). -/
def to_uint32 (x : Int) : Nat := (x % 4294967296).toNat

/-- C conversion to `int` (32 bit, two's complement). -/
def to_int32 (x : Int) : Int := (x + 2147483648) % 4294967296 - 2147483648

/-- C conversion to `int64` (`long long`, two's complement). -/
def to_int64 (x : Int) : Int :=
  (x + 9223372036854775808) % 18446744073709551616 - 9223372036854775808

/-! ## lpqtype.c : wire primitives -/

/-- C `lpq_getuint32`: `ntohl` of the four bytes at `v`; `none` when fewer than
four bytes are readable there. -/
def lpq_getuint32 (v : Bytes) : Option Nat :=
  match v with
  | b0 :: b1 :: b2 :: b3 :: _ => some (((b0 * 256 + b1) * 256 + b2) * 256 + b3)
  | _ => none

/-- C `lpq_getint64`: high word from `v[0..4)`, shifted left by 32, or-ed with
the low word from `v[4..8)`. -/
def lpq_getint64 (v : Bytes) : Option Int :=
  match lpq_getuint32 v, lpq_getuint32 (v.drop 4) with
  | some hi, some lo => some (to_int64 (Int.ofNat ((hi <<< 32) ||| lo)))
  | _, _ => none

/-- C `lpq_getfloat4`: the float whose bit pattern is `lpq_getuint32 v`.  Floats
are represented by their IEEE-754 bit pattern. -/
def lpq_getfloat4 (v : Bytes) : Option Nat := lpq_getuint32 v

/-- C `lpq_getfloat8`: the double whose bit pattern is `lpq_getint64 v`. -/
def lpq_getfloat8 (v : Bytes) : Option Nat :=
  (lpq_getint64 v).map (fun i => (i % 18446744073709551616).toNat)

/-- C `lpq_senduint32`: append `htonl n32`, most significant byte first. -/
def lpq_senduint32 (b : Bytes) (n32 : Nat) : Bytes :=
  b ++ [n32 / 16777216 % 256, n32 / 65536 % 256, n32 / 256 % 256, n32 % 256]

/-- C `lpq_sendint64`: higher order word first, lower order word next. -/
def lpq_sendint64 (b : Bytes) (i : Int) : Bytes :=
  lpq_senduint32 (lpq_senduint32 b (to_uint32 (i >>> (32 : Nat)))) (to_uint32 i)

/-- C `lpq_sendfloat4` of the float with bit pattern `f`. -/
def lpq_sendfloat4 (b : Bytes) (f : Nat) : Bytes := lpq_senduint32 b (f % 4294967296)

/-- C `lpq_sendfloat8` of the double with bit pattern `f`. -/
def lpq_sendfloat8 (b : Bytes) (f : Nat) : Bytes := lpq_sendint64 b (to_int64 (Int.ofNat f))

/-- C `VARHDRSZ` is `(int) sizeof(int)`. -/
def VARHDRSZ : Int := 4

/-! ## Lua values -/

/-- The four kinds of full userdata the library creates; each kind has its own
metatable, set at creation. -/
inductive Kind where
  | conn
  | plan
  | rset
  | tuple
deriving DecidableEq, Repr

/-- Lua values as the C API shows them.  A number is `integer i` when it is a
Lua integer (pushed by `lua_pushinteger`), and `float bits` when it is a Lua
float (pushed by `lua_pushnumber` from the C double with that bit pattern).
Tables carry their identity `id`, their metatable (by identity) and their raw
entries; `function f` is a Lua function or a C function, `closure f up` one of
the two iterator closures of the library with its upvalues. -/
inductive LuaValue where
  | nil : LuaValue
  | boolean (b : Bool) : LuaValue
  | integer (i : Int) : LuaValue
  | float (bits : Nat) : LuaValue
  | string (s : Bytes) : LuaValue
  | lightuserdata (p : Addr) : LuaValue
  | handle (k : Kind) (p : Addr) : LuaValue
  | userdata (mt : Option Addr) (block : Bytes) : LuaValue
  | table (id : Addr) (mt : Option Addr) (entries : List (LuaValue × LuaValue)) : LuaValue
  | function (f : Nat) : LuaValue
  | closure (f : Nat) (up : List LuaValue) : LuaValue
deriving Repr

/-- How a C function of the library ends short of returning: a Lua error
(`luaL_error`, `luaL_argerror`, an error inside a called Lua function), or C
undefined behaviour (a read or write outside an object, a null dereference). -/
inductive Fault where
  | error (msg : String)
  | undefined
deriving DecidableEq, Repr

/-- Services of the Lua runtime and the C library that psql.c uses and does
not define. -/
structure Host where
  /-- String to number coercion (`luaV_tonumber`) of a string that starts like
  a numeral; the result is a number or `none`. -/
  str2number : Bytes → Option LuaValue
  /-- Conversion of a double (by bit pattern) to `lua_Integer`; `none` when
  the double has no integer representation. -/
  float2int : Nat → Option Int
  /-- Bit pattern of `(double) i`. -/
  int2float : Int → Nat
  /-- Bit pattern of `(float4) d` for the double with bit pattern `d`. -/
  float8to4 : Nat → Nat
  /-- Bit pattern of `(double) f` for the float with bit pattern `f`. -/
  float4to8 : Nat → Nat
  /-- Result of `(uint32) d` for the double with bit pattern `d`. -/
  float2uint32 : Nat → Nat
  /-- Number formatting of `lua_tolstring`. -/
  num2str : LuaValue → Bytes
  /-- Metatable shared by all values of a basic type (strings, numbers, ...). -/
  basemt : LuaValue → Option Addr
  /-- Result of `lua_getfield` where it is not a raw access to a table without
  metatable; `none` when the access raises an error. -/
  index : LuaValue → Bytes → Option LuaValue
  /-- Entries of a table with a metatable after `lua_setfield` of a key it
  does not hold; `none` when the assignment raises an error. -/
  newindex : LuaValue → Bytes → LuaValue → Option (List (LuaValue × LuaValue))
  /-- Result of calling the function `f` for one result; `none` when the call
  raises an error.  What the function does to the state of the library by
  calling back into it is not part of the result: see `reenter` for the one
  place where the library goes on with data such a call can overwrite. -/
  call : Nat → List LuaValue → Option LuaValue
  /-- Memory block of a full userdata of the library. -/
  block : Kind → Addr → Bytes
  /-- `LUAL_BUFFERSIZE` of the Lua build: the size of the array inside a
  `luaL_Buffer` (8192 for Lua 5.3 on a 64 bit machine). -/
  buffersize : Nat := 8192
  /-- The stores into the length table of a plan (slot and value, in order)
  that a call of the function `f` makes by calling back into the library
  while `lpq_setparams` binds the parameters of that plan, for instance by
  executing the same plan with other arguments.  A function that does not
  call back makes none. -/
  reenter : Nat → List LuaValue → List (Nat × Int) := fun _ _ => []

/-- Addresses of the metatables created by `luaopen_psql`. -/
def libmt : Kind → Addr
  | .conn => 1
  | .plan => 2
  | .rset => 3
  | .tuple => 4

/-- C `lua_getmetatable`: the metatable of a value, by identity. -/
def lua_getmetatable (H : Host) : LuaValue → Option Addr
  | .handle k _ => some (libmt k)
  | .userdata mt _ => mt
  | .table _ mt _ => mt
  | v => H.basemt v

/-- C `lua_toboolean`: everything but `nil` and `false` is true. -/
def lua_toboolean : LuaValue → Bool
  | .nil => false
  | .boolean b => b
  | _ => true

/-- First byte of a C numeral as `strtod` accepts it: white space, a sign, a
digit, a dot, or the first letter of `inf` / `nan`. -/
def numeralStart (c : Nat) : Bool :=
  c = 32 || (9 ≤ c && c ≤ 13) || c = 43 || c = 45 || c = 46 || (48 ≤ c && c ≤ 57)
    || c = 73 || c = 105 || c = 78 || c = 110

/-- The number a value converts to (`luaV_tonumber`), if any. -/
def lua_cvt2num (H : Host) : LuaValue → Option LuaValue
  | .integer i => some (.integer i)
  | .float b => some (.float b)
  | .string (c :: s) =>
    if numeralStart c then
      match H.str2number (c :: s) with
      | some (.integer i) => some (.integer i)
      | some (.float b) => some (.float b)
      | _ => none
    else none
  | _ => none

/-- C `lua_isnumber`: a number or a string convertible to a number. -/
def lua_isnumber (H : Host) (v : LuaValue) : Bool := (lua_cvt2num H v).isSome

/-- C `lua_tointeger`: 0 when the value is not convertible to a number. -/
def lua_tointeger (H : Host) (v : LuaValue) : Int :=
  match lua_cvt2num H v with
  | some (.integer i) => i
  | some (.float b) => (H.float2int b).getD 0
  | _ => 0

/-- Bit pattern of the double `lua_tonumber` returns (0.0 when the value is
not convertible). -/
def lua_tonumber (H : Host) (v : LuaValue) : Nat :=
  match lua_cvt2num H v with
  | some (.integer i) => H.int2float i
  | some (.float b) => b
  | _ => 0

/-- C `lua_tolstring`: the bytes of a string, the formatted number, or NULL. -/
def lua_tolstring (H : Host) : LuaValue → Option Bytes
  | .string s => some s
  | .integer i => some (H.num2str (.integer i))
  | .float b => some (H.num2str (.float b))
  | _ => none

/-- C `lua_touserdata` with `lua_rawlen`: the block of a full userdata, an empty
view for a light userdata, NULL otherwise. -/
def lua_touserdata (H : Host) : LuaValue → Option Bytes
  | .userdata _ block => some block
  | .handle k p => some (H.block k p)
  | .lightuserdata _ => some []
  | _ => none

/-- The function a value is, by identity, when `lua_type` of the value is
`LUA_TFUNCTION`. -/
def funcid : LuaValue → Option Nat
  | .function f => some f
  | .closure f _ => some f
  | _ => none

/-- Raw equality of table keys.  The library itself uses integers, strings
and light userdata as keys; tables and functions are equal by identity, and
the remaining kinds (a float, a userdata given by its block) are taken as
never equal. -/
def keyeq : LuaValue → LuaValue → Bool
  | .integer i, .integer j => i == j
  | .string s, .string t => s == t
  | .lightuserdata p, .lightuserdata q => p == q
  | .boolean a, .boolean b => a == b
  | .handle k p, .handle j q => k == j && p == q
  | .table a _ _, .table b _ _ => a == b
  | .function f, .function g => f == g
  | _, _ => false

/-- C `lua_rawget` on the entries of a table. -/
def rawget (t : List (LuaValue × LuaValue)) (k : LuaValue) : LuaValue :=
  match t.find? (fun e => keyeq e.1 k) with
  | some e => e.2
  | none => .nil

/-- C `lua_rawset` on the entries of a table: overwrite the entry of an existing
key, else add one. -/
def rawset (t : List (LuaValue × LuaValue)) (k v : LuaValue) : List (LuaValue × LuaValue) :=
  if t.any (fun e => keyeq e.1 k) then
    t.map (fun e => if keyeq e.1 k then (e.1, v) else e)
  else t ++ [(k, v)]

/-- C `lua_getfield`: raw for a table without metatable, the host's answer
otherwise (an error raised there is a fault). -/
def lua_getfield (H : Host) (v : LuaValue) (k : Bytes) : Except Fault LuaValue :=
  match v with
  | .table _ none es => .ok (rawget es (.string k))
  | .table _ (some _) es =>
    match rawget es (.string k) with
    | .nil =>
      match H.index v k with
      | some r => .ok r
      | none => .error (.error "attempt to index")
    | r => .ok r
  | _ =>
    match H.index v k with
    | some r => .ok r
    | none => .error (.error "attempt to index")

/-- C `lua_setfield` on a table: raw when the table has no metatable or holds
the key, the host's answer otherwise.  The result is the table afterwards. -/
def lua_setfield (H : Host) (t : LuaValue) (k : Bytes) (v : LuaValue) : Except Fault LuaValue :=
  match t with
  | .table id none es => .ok (.table id none (rawset es (.string k) v))
  | .table id (some m) es =>
    match rawget es (.string k) with
    | .nil =>
      match H.newindex t k v with
      | some es1 => .ok (.table id (some m) es1)
      | none => .error (.error "error in __newindex")
    | _ => .ok (.table id (some m) (rawset es (.string k) v))
  | _ => .error .undefined

/-- Bytes of a C string literal. -/
def cstr (s : String) : Bytes := s.toList.map Char.toNat

/-! ## libpq results (transport collaborator) -/

inductive ExecStatusType where
  | PGRES_EMPTY_QUERY
  | PGRES_COMMAND_OK
  | PGRES_TUPLES_OK
  | PGRES_COPY_OUT
  | PGRES_COPY_IN
  | PGRES_BAD_RESPONSE
  | PGRES_NONFATAL_ERROR
  | PGRES_FATAL_ERROR
deriving DecidableEq, Repr

/-- One element of an array as libpqtypes hands it out (a row of `arr.res`). -/
inductive PGelem where
  | int (v : Int)
  | text (s : Bytes)
  | epoch (e : Int)
  | float (bits : Nat)
deriving DecidableEq, Repr

/-- One field of one row.  `value` is the memory readable at the pointer
`PQgetvalue` returns (the payload comes first), `length` is `PQgetlength`;
`epoch` and `arr` are what `PQgetf` reads from the field as a timestamp and as
an array (`none` when `PQgetf` fails). -/
structure PGcell where
  isnull : Bool
  value : Bytes
  length : Nat
  epoch : Option Int
  arr : Option (List PGelem)
deriving DecidableEq, Repr

structure PGfield where
  name : Bytes
  ftype : Nat
  fmod : Int
deriving DecidableEq, Repr

structure PGresult where
  status : ExecStatusType
  fields : List PGfield
  rows : List (List PGcell)
  params : List Nat
  cmdTuples : Int
deriving DecidableEq, Repr

def PQntuples (r : PGresult) : Int := r.rows.length

def PQnfields (r : PGresult) : Int := r.fields.length

/-- The cell at (row, field), when both numbers are in range. -/
def PGresult.cell (r : PGresult) (row f : Int) : Option PGcell :=
  if 0 ≤ row ∧ 0 ≤ f then (r.rows[row.toNat]?).bind (fun cs => cs[f.toNat]?) else none

/-- C `PQgetisnull`: out of range counts as null. -/
def PQgetisnull (r : PGresult) (row f : Int) : Bool :=
  match r.cell row f with
  | some c => c.isnull
  | none => true

/-- C `PQftype`: `InvalidOid` (0) out of range. -/
def PQftype (r : PGresult) (f : Int) : Nat :=
  if 0 ≤ f then ((r.fields[f.toNat]?).map PGfield.ftype).getD 0 else 0

/-- C `PQfmod`: 0 out of range. -/
def PQfmod (r : PGresult) (f : Int) : Int :=
  if 0 ≤ f then ((r.fields[f.toNat]?).map PGfield.fmod).getD 0 else 0

/-- C `PQgetvalue`: the memory at the returned pointer (nothing readable when
the pointer is NULL). -/
def PQgetvalue (r : PGresult) (row f : Int) : Bytes :=
  match r.cell row f with
  | some c => c.value
  | none => []

/-- C `PQgetlength`: 0 out of range. -/
def PQgetlength (r : PGresult) (row f : Int) : Int :=
  match r.cell row f with
  | some c => c.length
  | none => 0

/-! ## The state -/

/-- Calls into libpq, in the order made. -/
inductive PQcall where
  | PQconnectdb (conninfo : Bytes)
  | PQconnectStart (conninfo : Bytes)
  | PQinitTypes (conn : Addr)
  | PQfinish (conn : Addr)
  | PQclear (result : Addr)
  | PQexecParams (conn : Addr) (cmd : Bytes)
  | PQsendQueryParams (conn : Addr) (cmd : Bytes)
  | PQgetResult (conn : Addr)
  | PQprepare (conn : Addr) (name query : Bytes)
  | PQdescribePrepared (conn : Addr) (name : Bytes)
  | PQexecPrepared (conn : Addr) (name : Bytes) (n : Int) (buf : Bytes)
      (value length format : List Int)
  | PQsendQueryPrepared (conn : Addr) (name : Bytes) (n : Int) (buf : Bytes)
      (value length format : List Int)
  | PQerrorMessage (conn : Addr)
  | PQother (fn : String) (conn : Addr)
deriving DecidableEq, Repr

/-- Userdata `lpq_Conn`, with its uservalue table `env`. -/
structure lpq_Conn where
  conn : Addr
  done : Bool
  env : List (LuaValue × LuaValue)

/-- Userdata `lpq_Plan`.  `value[i]` is kept as an offset into the parameter
buffer the pointers point into. -/
structure lpq_Plan where
  conn : Addr
  name : Bytes
  n : Int
  type : List Nat
  value : List Int
  length : List Int
  format : List Int
  valid : Bool

/-- Userdata `lpq_Rset`, with its uservalue (`none`: never set). -/
structure lpq_Rset where
  result : Addr
  env : Option (List (LuaValue × LuaValue))

/-- Userdata `lpq_Tuple`, with its uservalue. -/
structure lpq_Tuple where
  rset : Addr
  row : Int
  valid : Bool
  env : LuaValue

/-- The part of the Lua state and of libpq the library works on: the type
metatable table of the registry, the library's userdata by kind (a userdata's
address is its index), the results libpq has handed out, and the log of calls
into libpq. -/
structure lua_State where
  typemt : List (LuaValue × LuaValue)
  conns : List lpq_Conn
  plans : List lpq_Plan
  rsets : List lpq_Rset
  tuples : List lpq_Tuple
  results : List PGresult
  pq : List PQcall

/-! ## psql.c : value codec -/

def BOOLOID : Nat := 16
def BYTEAOID : Nat := 17
def CHAROID : Nat := 18
def NAMEOID : Nat := 19
def INT8OID : Nat := 20
def INT4OID : Nat := 23
def TEXTOID : Nat := 25
def OIDOID : Nat := 26
def FLOAT4OID : Nat := 700
def FLOAT8OID : Nat := 701
def BPCHAROID : Nat := 1042
def VARCHAROID : Nat := 1043
def REGCLASSOID : Nat := 2205
def TIMESTAMPOID : Nat := 1114
def INTERVALOID : Nat := 1184
def TIMESTAMPTZOID : Nat := 1184
def JSONOID : Nat := 114
def VARCHARARRAYOID : Nat := 1015
def INTEGERARRAYOID : Nat := 1007
def BIGINTEGERARRAYOID : Nat := 1016
def TIMESTAMPARRAYOID : Nat := 1115
def TIMESTAMPTZARRAYOID : Nat := 1185
def FLOAT4ARRAYOID : Nat := 1021
def FLOAT8ARRAYOID : Nat := 1022

def LPQ_REGMT_RECV : Bytes := cstr "__recv"
def LPQ_REGMT_SEND : Bytes := cstr "__send"
def LPQ_REGMT_OID : Bytes := cstr "__oid"
def LPQ_RSET_FIELDS : Bytes := cstr "fields"

/-- C `lpq_gettypemt`: the entry of the type metatable table at key `(int) type`,
if it is not nil. -/
def lpq_gettypemt (L : lua_State) (type : Nat) : Option LuaValue :=
  match rawget L.typemt (.integer (to_int32 type)) with
  | .nil => none
  | e => some e

/-- C `lua_rawequal` of a metatable (by identity) with a registry entry. -/
def mtIs (m : Option Addr) (entry : LuaValue) : Bool :=
  match m, entry with
  | some a, .table id _ _ => a == id
  | _, _ => false

/-- The opaque blob of the last resort: a new userdata without metatable
holding a copy of `length` bytes of `value`. -/
def pushblob (value : Bytes) (length : Int) : Except Fault LuaValue :=
  if length.toNat ≤ value.length then .ok (.userdata none (value.take length.toNat))
  else .error .undefined

/-- C `lua_pushlstring(L, value, l)`: undefined when fewer than `l` bytes are
readable at `value`. -/
def pushlstring (value : Bytes) (l : Int) : Except Fault Bytes :=
  if l.toNat ≤ value.length then .ok (value.take l.toNat) else .error .undefined

/-- The loop of the array cases: the table with the value pushed for `e_i` at
key `i + 1` (the key is pushed as the double `i + 1`, which as a table key is
the integer). -/
def pusharray (fresh : Addr) (conv : PGelem → Except Fault LuaValue) (es : List PGelem) :
    Except Fault LuaValue :=
  (es.mapM conv).map (fun vs =>
    .table fresh none (vs.enum.map (fun p => (.integer ((p.1 : Int) + 1), p.2))))

/-- C `strlen`: the bytes before the first zero byte. -/
def strlen (s : Bytes) : Nat := (s.takeWhile (fun c => c != 0)).length

/-- The body of the loop of the cases `int4[]` and `int8[]`: the element read
by `PQgetf` as an integer and pushed with `lua_pushnumber`.  An element of
another kind leaves `val` unset. -/
def pushelem_int (H : Host) : PGelem → Except Fault LuaValue
  | .int v => .ok (.float (H.int2float v))
  | _ => .error .undefined

/-- The body of the loop of the case `varchar[]`: the element read as a C
string and pushed with `lua_pushlstring(L, val, strlen(val))`. -/
def pushelem_varchar : PGelem → Except Fault LuaValue
  | .text s => .ok (.string (s.take (strlen s)))
  | _ => .error .undefined

/-- The body of the loop of the cases `timestamp[]` and `timestamptz[]`: the
epoch of the element pushed with `lua_pushnumber`. -/
def pushelem_timestamp (H : Host) : PGelem → Except Fault LuaValue
  | .epoch v => .ok (.float (H.int2float v))
  | _ => .error .undefined

/-- The body of the loop of the cases `float4[]` and `float8[]`: the element
read with the width of the type and pushed as a double. -/
def pushelem_float (H : Host) (type : Nat) : PGelem → Except Fault LuaValue
  | .float f => .ok (.float (if type = FLOAT8ARRAYOID then f else H.float4to8 f))
  | _ => .error .undefined

/-- C `lpq_pushvalue`, case BPCHAROID.  The subtraction `int l = mod - VARHDRSZ`
is made in `int`: for a modifier below `INT_MIN + 4` it overflows, which C
leaves undefined. -/
def pushvalue_bpchar (mod : Int) (value : Bytes) (length : Int) : Except Fault LuaValue :=
  if mod - VARHDRSZ < -2147483648 then .error .undefined
  else
    let l := mod - VARHDRSZ
    let l := if l < 0 then length else l
    match pushlstring value l with
    | .error e => .error e
    | .ok s =>
      if length > l then
        -- pad?  `while (l-- > 0) luaL_addchar(&b, ' ')`, then `lua_concat`
        .ok (.string (s ++ List.replicate l.toNat 32))
      else .ok (.string s)

/-- C `lpq_pushvalue`, default case. -/
def pushvalue_default (H : Host) (L : lua_State) (type : Nat) (mod : Int) (value : Bytes)
    (length : Int) : Except Fault LuaValue :=
  match lpq_gettypemt L type with
  | some entry =>
    match lua_getfield H entry LPQ_REGMT_RECV with
    | .error e => .error e
    | .ok recv =>
      match funcid recv with
      | some f =>
        match pushlstring value length with
        | .error e => .error e
        | .ok s =>
          match H.call f [.string s, .integer mod] with
          | none => .error (.error "error in __recv")
          | some r =>
            -- check returned value
            if mtIs (lua_getmetatable H r) entry then .ok r
            else pushblob value length
      | none => pushblob value length
  | none => pushblob value length

/-- C `lpq_pushvalue`: the value pushed for a field of type `type` and modifier
`mod` whose payload is the first `length` bytes at `value`.  `fresh` is the
identity of the table `lua_newtable` creates in the array cases.  An epoch
and an integer element of an array are pushed with `lua_pushnumber`, that is
converted to a double. -/
def lpq_pushvalue (H : Host) (L : lua_State) (type : Nat) (mod : Int) (value : Bytes)
    (length : Int) (result : PGresult) (field_number : Int) (rowindex : Int) (fresh : Addr) :
    Except Fault LuaValue :=
  let getf_arr : Except Fault (List PGelem) :=
    match (result.cell rowindex field_number).bind PGcell.arr with
    | some es => .ok es
    | none => .error .undefined
  if type = BOOLOID then
    match value with
    | c :: _ => .ok (.boolean (c != 0))
    | [] => .error .undefined
  else if type = CHAROID then
    (pushlstring value 1).map .string
  else if type = INT4OID ∨ type = REGCLASSOID ∨ type = OIDOID then
    match lpq_getuint32 value with
    | some u => .ok (.integer (to_int32 u))
    | none => .error .undefined
  else if type = INT8OID then
    match lpq_getint64 value with
    | some i => .ok (.integer i)
    | none => .error .undefined
  else if type = FLOAT4OID then
    match lpq_getfloat4 value with
    | some f => .ok (.float (H.float4to8 f))
    | none => .error .undefined
  else if type = FLOAT8OID then
    match lpq_getfloat8 value with
    | some f => .ok (.float f)
    | none => .error .undefined
  else if type = TIMESTAMPOID ∨ type = TIMESTAMPTZOID then
    match (result.cell rowindex field_number).bind PGcell.epoch with
    | some e => .ok (.float (H.int2float e))
    | none => .error .undefined
  else if type = BYTEAOID ∨ type = TEXTOID ∨ type = VARCHAROID ∨ type = JSONOID
      ∨ type = NAMEOID then
    (pushlstring value length).map .string
  else if type = INTEGERARRAYOID ∨ type = BIGINTEGERARRAYOID then
    getf_arr.bind (pusharray fresh (pushelem_int H))
  else if type = VARCHARARRAYOID then
    getf_arr.bind (pusharray fresh pushelem_varchar)
  else if type = TIMESTAMPARRAYOID ∨ type = TIMESTAMPTZARRAYOID then
    getf_arr.bind (pusharray fresh (pushelem_timestamp H))
  else if type = FLOAT8ARRAYOID ∨ type = FLOAT4ARRAYOID then
    getf_arr.bind (pusharray fresh (pushelem_float H type))
  else if type = BPCHAROID then
    pushvalue_bpchar mod value length
  else
    pushvalue_default H L type mod value length

/-- The last resort of `lpq_tovalue`: the block of a userdata copied verbatim,
nothing for a value that is no userdata. -/
def tovalue_raw (H : Host) (narg : LuaValue) (b : Bytes) : Int × Bytes :=
  match lua_touserdata H narg with
  | some s => ((s.length : Int), b ++ s)
  | none => (0, b)

/-- C `lpq_tovalue`, default case. -/
def tovalue_default (H : Host) (L : lua_State) (narg : LuaValue) (type : Nat) (b : Bytes) :
    Except Fault (Int × Bytes) :=
  match lpq_gettypemt L type with
  | some entry =>
    match lua_getfield H entry LPQ_REGMT_SEND with
    | .error e => .error e
    | .ok send =>
      match funcid send with
      | some f =>
        -- check input
        if mtIs (lua_getmetatable H narg) entry then
          match H.call f [narg] with
          | none => .error (.error "error in __send")
          | some r =>
            match lua_tolstring H r with
            | some s => .ok ((s.length : Int), b ++ s)
            | none => .ok (0, b)
        else .ok (tovalue_raw H narg b)
      | none => .ok (tovalue_raw H narg b)
  | none => .ok (tovalue_raw H narg b)

/-- C `lpq_tovalue`: serialise the argument `narg` under the type id `type` at
the end of the buffer `b`; the result is the returned length and the buffer.
This is the function on the bytes of the buffer; what it pushes on the Lua
stack, which the buffer shares, is in `tovalue_stack`.  The length is the
value of the `size_t` the `return` statement converts to `int`; the
conversion is made where `lpq_setparams` stores the length. -/
def lpq_tovalue (H : Host) (L : lua_State) (narg : LuaValue) (type : Nat) (b : Bytes) :
    Except Fault (Int × Bytes) :=
  if type = INTERVALOID then
    match lua_getfield H narg (cstr "time") with
    | .error e => .error e
    | .ok time =>
      let b := lpq_sendfloat8 b (lua_tonumber H time)
      match lua_getfield H narg (cstr "day") with
      | .error e => .error e
      | .ok day =>
        let b := lpq_senduint32 b (H.float2uint32 (lua_tonumber H day))
        match lua_getfield H narg (cstr "month") with
        | .error e => .error e
        | .ok month =>
          .ok (16, lpq_senduint32 b (H.float2uint32 (lua_tonumber H month)))
  else if type = BOOLOID then
    .ok (1, b ++ [if lua_toboolean narg then 1 else 0])
  else if type = CHAROID then
    match lua_tolstring H narg with
    | some s => .ok (1, b ++ [s.headD 0])
    | none => .error .undefined
  else if type = INT4OID ∨ type = OIDOID then
    .ok (4, lpq_senduint32 b (to_uint32 (lua_tointeger H narg)))
  else if type = FLOAT4OID then
    .ok (4, lpq_sendfloat4 b (H.float8to4 (lua_tonumber H narg)))
  else if type = FLOAT8OID then
    .ok (8, lpq_sendfloat8 b (lua_tonumber H narg))
  else if type = BYTEAOID ∨ type = TEXTOID ∨ type = BPCHAROID ∨ type = NAMEOID
      ∨ type = VARCHAROID then
    match lua_tolstring H narg with
    | some s => .ok ((s.length : Int), b ++ s)
    | none => .ok (0, b)
  else
    tovalue_default H L narg type b

/-! ## lauxlib.c : the string buffer on the Lua stack -/

/-- Where the bytes of a `luaL_Buffer` are kept (lauxlib.c of Lua 5.3.3 to
5.3.6): in the array inside the struct (`initb`); or in a box, a userdata
that `luaL_prepbuffsize` pushes on the Lua stack when the array is too small,
here with the number of values that lie above it on the stack; or in a box
that has been popped off the stack, which the collector may free. -/
inductive Box where
  | initb
  | onstack (above : Nat)
  | popped
deriving DecidableEq, Repr

/-- A `luaL_Buffer` as the Lua stack sees it: the number of bytes in it
(`B->n`), its capacity (`B->size`) and where its memory is. -/
structure luaL_Buffer where
  n : Nat
  size : Nat
  box : Box
deriving DecidableEq, Repr

/-- C `luaL_buffinit`. -/
def luaL_buffinit (H : Host) : luaL_Buffer := { n := 0, size := H.buffersize, box := .initb }

/-- The buffer after `k` values were pushed on the Lua stack: they lie above
a box that is on the stack. -/
def luaL_Buffer.push (B : luaL_Buffer) (k : Nat) : luaL_Buffer :=
  match B.box with
  | .onstack a => { B with box := .onstack (a + k) }
  | _ => B

/-- The buffer after `lua_pop(L, k)`: a box with fewer than `k` values above
it goes with them. -/
def luaL_Buffer.pop (B : luaL_Buffer) (k : Nat) : luaL_Buffer :=
  match B.box with
  | .onstack a => { B with box := if k ≤ a then .onstack (a - k) else .popped }
  | _ => B

/-- C `luaL_prepbuffsize`: room for `sz` more bytes.  When there is not enough
(`B->size - B->n < sz`) the size is doubled, or made `B->n + sz` if that is
more; a buffer still in its array gets a new box, pushed on the stack; a
buffer in a box has the box resized by `resizebox(L, -1, newsize)`, which
takes the value at the top of the stack for the box. -/
def luaL_prepbuffsize (B : luaL_Buffer) (sz : Nat) : Except Fault luaL_Buffer :=
  if B.size - B.n < sz then
    let newsize := if B.size * 2 - B.n < sz then B.n + sz else B.size * 2
    match B.box with
    | .initb => .ok { B with size := newsize, box := .onstack 0 }
    | .onstack 0 => .ok { B with size := newsize }
    | .onstack (_ + 1) => .error .undefined
    | .popped => .error .undefined
  else .ok B

/-- C `luaL_addlstring` of `l` bytes: nothing for `l = 0`, else
`luaL_prepbuffsize` and a copy to the memory of the buffer. -/
def luaL_addlstring (B : luaL_Buffer) (l : Nat) : Except Fault luaL_Buffer :=
  if l = 0 then .ok B
  else if B.box = .popped then .error .undefined
  else (luaL_prepbuffsize B l).map (fun B1 => { B1 with n := B1.n + l })

/-- C `luaL_addchar`: `luaL_prepbuffsize(B, 1)` unless `B->n < B->size`, and
one byte stored. -/
def luaL_addchar (B : luaL_Buffer) : Except Fault luaL_Buffer := luaL_addlstring B 1

/-- C `luaL_pushresult`: the string is pushed; for a buffer in a box,
`resizebox(L, -2, 0)` and `lua_remove(L, -2)` then take the value right below
the string for the box. -/
def luaL_pushresult (B : luaL_Buffer) : Except Fault Unit :=
  match B.box with
  | .initb => .ok ()
  | .onstack 0 => .ok ()
  | .onstack (_ + 1) => .error .undefined
  | .popped => .error .undefined

/-- C `lpq_tovalue`, default case, on the side of the Lua stack.  On the path
of a registered `__send` function the entry and the result of the call are on
the stack when the bytes are added, and `lua_pop(L, 2)` follows. -/
def tovalue_default_stack (H : Host) (L : lua_State) (narg : LuaValue) (type : Nat)
    (B : luaL_Buffer) : Except Fault (luaL_Buffer × List (Nat × Int)) :=
  let raw : Except Fault (luaL_Buffer × List (Nat × Int)) :=
    match lua_touserdata H narg with
    | some s => (luaL_addlstring B s.length).map (fun B1 => (B1, []))
    | none => .ok (B, [])
  match lpq_gettypemt L type with
  | some entry =>
    match lua_getfield H entry LPQ_REGMT_SEND with
    | .error e => .error e
    | .ok send =>
      match funcid send with
      | some f =>
        -- check input
        if mtIs (lua_getmetatable H narg) entry then
          match H.call f [narg] with
          | none => .error (.error "error in __send")
          | some r =>
            match lua_tolstring H r with
            | some s =>
              (luaL_addlstring (B.push 2) s.length).map
                (fun B1 => (B1.pop 2, H.reenter f [narg]))
            | none => .ok (B, H.reenter f [narg])
        else raw
      | none => raw
  | none => raw

/-- C `lpq_tovalue` on the side of the Lua stack: the buffer functions it
calls, with the sizes, between the values it pushes and pops; the result is
the buffer afterwards and the stores a called `__send` function made into the
length table of the plan.  The interval case pushes the three fields with
`lua_getfield` and pops none of them.  An error raised is the same as in
`lpq_tovalue`, at the same place. -/
def tovalue_stack (H : Host) (L : lua_State) (narg : LuaValue) (type : Nat) (B : luaL_Buffer) :
    Except Fault (luaL_Buffer × List (Nat × Int)) :=
  if type = INTERVALOID then
    match lua_getfield H narg (cstr "time") with
    | .error e => .error e
    | .ok _ =>
      -- `lpq_sendfloat8` is two `lpq_senduint32`, each a `luaL_addlstring` of 4 bytes
      match (luaL_addlstring (B.push 1) 4).bind (fun B1 => luaL_addlstring B1 4) with
      | .error e => .error e
      | .ok B2 =>
        match lua_getfield H narg (cstr "day") with
        | .error e => .error e
        | .ok _ =>
          match luaL_addlstring (B2.push 1) 4 with
          | .error e => .error e
          | .ok B3 =>
            match lua_getfield H narg (cstr "month") with
            | .error e => .error e
            | .ok _ => (luaL_addlstring (B3.push 1) 4).map (fun B4 => (B4, []))
  else if type = BOOLOID then
    (luaL_addchar B).map (fun B1 => (B1, []))
  else if type = CHAROID then
    match lua_tolstring H narg with
    | some _ => (luaL_addchar B).map (fun B1 => (B1, []))
    | none => .error .undefined
  else if type = INT4OID ∨ type = OIDOID then
    (luaL_addlstring B 4).map (fun B1 => (B1, []))
  else if type = FLOAT4OID then
    (luaL_addlstring B 4).map (fun B1 => (B1, []))
  else if type = FLOAT8OID then
    ((luaL_addlstring B 4).bind (fun B1 => luaL_addlstring B1 4)).map (fun B1 => (B1, []))
  else if type = BYTEAOID ∨ type = TEXTOID ∨ type = BPCHAROID ∨ type = NAMEOID
      ∨ type = VARCHAROID then
    match lua_tolstring H narg with
    | some s => (luaL_addlstring B s.length).map (fun B1 => (B1, []))
    | none => .ok (B, [])
  else
    tovalue_default_stack H L narg type B

/-! ## psql.c : auxiliaries -/

/-- What a C function of the library leaves behind: the values it returns to
Lua or the fault that ended it, and the state. -/
abbrev Ret := Except Fault (List LuaValue) × lua_State

/-- The value at stack index `i` on entry (nil above the top). -/
def arg (args : List LuaValue) (i : Nat) : LuaValue := args.getD (i - 1) .nil

def luaL_typename : LuaValue → String
  | .nil => "nil"
  | .boolean _ => "boolean"
  | .integer _ => "number"
  | .float _ => "number"
  | .string _ => "string"
  | .lightuserdata _ => "userdata"
  | .handle _ _ => "userdata"
  | .userdata _ _ => "userdata"
  | .table _ _ _ => "table"
  | .function _ => "function"
  | .closure _ _ => "function"

/-- C `lpq_typeerror`: the argument error "tname expected, got typename". -/
def lpq_typeerror (narg : LuaValue) (tname : String) : Fault :=
  .error (tname ++ " expected, got " ++ luaL_typename narg)

/-- C `luaL_checkstring` / `luaL_checklstring`. -/
def luaL_checkstring (H : Host) (v : LuaValue) : Except Fault Bytes :=
  match lua_tolstring H v with
  | some s => .ok s
  | none => .error (lpq_typeerror v "string")

/-- C `luaL_optstring` with default `d`. -/
def luaL_optstring (H : Host) (v : LuaValue) (d : Bytes) : Except Fault Bytes :=
  match v with
  | .nil => .ok d
  | _ => luaL_checkstring H v

/-- C `PQresultStatus` of the result at address `r`. -/
def PQresultStatus (L : lua_State) (r : Addr) : ExecStatusType :=
  match L.results[r]? with
  | some res => res.status
  | none => .PGRES_FATAL_ERROR

/-- C `lpq_pushstatus`: the status as a boolean, and the error message of the
connection when the status is 0 (`errmsg` is what `PQerrorMessage` answers). -/
def lpq_pushstatus (L : lua_State) (status : Int) (conn : Addr) (errmsg : Bytes) : Ret :=
  if status = 0 then
    (.ok [.boolean false, .string errmsg], { L with pq := L.pq ++ [.PQerrorMessage conn] })
  else (.ok [.boolean true], L)

/-! ## psql.c : PSQL -/

/-- C `lpq_pushconnection`: a new connection userdata, not done, with an empty
table as uservalue. -/
def lpq_pushconnection (L : lua_State) (conn : Option Addr) : Ret :=
  match conn with
  | none => (.error (.error "libpq unable to alloc connection"), L)
  | some c =>
    (.ok [.handle .conn L.conns.length],
      { L with conns := L.conns ++ [{ conn := c, done := false, env := [] }],
               pq := L.pq ++ [.PQinitTypes c] })

/-- C `lpq_connect`; `reply` is what `PQconnectdb` returns. -/
def lpq_connect (H : Host) (L : lua_State) (args : List LuaValue) (reply : Option Addr) : Ret :=
  match luaL_checkstring H (arg args 1) with
  | .error e => (.error e, L)
  | .ok conninfo => lpq_pushconnection { L with pq := L.pq ++ [.PQconnectdb conninfo] } reply

/-- C `lpq_start`; `reply` is what `PQconnectStart` returns. -/
def lpq_start (H : Host) (L : lua_State) (args : List LuaValue) (reply : Option Addr) : Ret :=
  match luaL_checkstring H (arg args 1) with
  | .error e => (.error e, L)
  | .ok conninfo => lpq_pushconnection { L with pq := L.pq ++ [.PQconnectStart conninfo] } reply

/-- C `luaL_checkinteger`: the integer the argument converts to, or an
argument error. -/
def luaL_checkinteger (H : Host) (v : LuaValue) : Except Fault Int :=
  match lua_cvt2num H v with
  | some (.integer i) => .ok i
  | some (.float b) =>
    match H.float2int b with
    | some i => .ok i
    | none => .error (.error "number has no integer representation")
  | _ => .error (lpq_typeerror v "number")

/-- C `lpq_register`, `register(oid [, metatable])`: the second argument when
it is a table, else a new table (of identity `fresh`), gets the field `__oid`
and becomes the entry of the type metatable table at key `(int) type`. -/
def lpq_register (H : Host) (L : lua_State) (args : List LuaValue) (fresh : Addr) : Ret :=
  match luaL_checkinteger H (arg args 1) with
  | .error e => (.error e, L)
  | .ok i =>
    let type := to_uint32 i
    let mt : LuaValue :=
      match arg args 2 with
      | .table id m es => .table id m es
      | _ => .table fresh none []
    match lua_setfield H mt LPQ_REGMT_OID (.integer (to_int32 type)) with
    | .error e => (.error e, L)
    | .ok mt1 => (.ok [], { L with typemt := rawset L.typemt (.integer (to_int32 type)) mt1 })

/-- The `__tostring` metamethods: the name of the kind and the address of the
userdata, formatted by the host as `reply`. -/
def lpq__tostring (L : lua_State) (reply : Bytes) : Ret := (.ok [.string reply], L)

/-! ## psql.c : lpq_Conn -/

/-- C `lpq_checkconn`: the argument must be a connection userdata (the library's
metatables are carried by the userdata the library creates, and by nothing
else), and the connection must not be done. -/
def lpq_checkconn (L : lua_State) (narg : LuaValue) : Except Fault (Addr × lpq_Conn) :=
  match narg with
  | .handle .conn p =>
    match L.conns[p]? with
    | some C => if C.done then .error (.error "connection is finished") else .ok (p, C)
    | none => .error .undefined
  | v => .error (lpq_typeerror v "connection")

/-- The loop of `lpq_finishconn` over the entries of the table at index 2.
`lua_next` leaves the key at index -2 and the value at index -1; the body
takes `P = lua_touserdata(L, -1)`, the value, and stores `P->valid = 0` when
`P` is not NULL.  A non-NULL `P` that is not a plan is a store into a foreign
object. -/
def finishconn_loop (L : lua_State) : List (LuaValue × LuaValue) → Except Fault lua_State
  | [] => .ok L
  | (_, v) :: es =>
    let mark (q : Addr) : Except Fault lua_State :=
      match L.plans[q]? with
      | some P => finishconn_loop { L with plans := L.plans.set q { P with valid := false } } es
      | none => .error .undefined
    match v with
    | .handle .plan q => mark q
    | .lightuserdata q => mark q
    | .handle _ _ => .error .undefined
    | .userdata _ _ => .error .undefined
    | _ => finishconn_loop L es

/-- The entries of the table at stack index 2, after the uservalue of the
receiver was pushed on a stack that held `args`: the uservalue when the
receiver was alone on the stack, else the second argument, which has to be a
table (`lua_next` on another value is undefined). -/
def tableAt2 (args : List LuaValue) (uservalue : Option (List (LuaValue × LuaValue))) :
    Option (List (LuaValue × LuaValue)) :=
  match args with
  | _ :: v :: _ =>
    match v with
    | .table _ _ es => some es
    | _ => none
  | _ => uservalue

/-- C `lpq_finishconn` on the connection userdata at address `p`, which is at
stack index 1 of the stack `args`: `lua_getuservalue(L, 1)`, then the loop
`while (lua_next(L, 2))`. -/
def lpq_finishconn (L : lua_State) (p : Addr) (args : List LuaValue) : Except Fault lua_State :=
  match L.conns[p]? with
  | none => .error .undefined
  | some C =>
    if !C.done then
      let L1 := { L with pq := L.pq ++ [.PQfinish C.conn] }
      -- mark plans that reference conn as invalid
      match tableAt2 args (some C.env) with
      | none => .error .undefined
      | some es =>
        match finishconn_loop L1 es with
        | .error e => .error e
        | .ok L2 => .ok { L2 with conns := L2.conns.set p { C with done := true } }
    else .ok L

/-- C `lpq_conn__gc`: the finaliser, `lpq_finishconn` on `lua_touserdata(L, 1)`. -/
def lpq_conn__gc (L : lua_State) (args : List LuaValue) : Ret :=
  match arg args 1 with
  | .handle .conn p =>
    match lpq_finishconn L p args with
    | .ok L1 => (.ok [], L1)
    | .error e => (.error e, L)
  | _ => (.error .undefined, L)

/-- C `lpq_conn_finish`: `lpq_finishconn` on `lpq_checkconn(L, 1)`. -/
def lpq_conn_finish (L : lua_State) (args : List LuaValue) : Ret :=
  match lpq_checkconn L (arg args 1) with
  | .error e => (.error e, L)
  | .ok (p, _) =>
    match lpq_finishconn L p args with
    | .ok L1 => (.ok [], L1)
    | .error e => (.error e, L)

/-- The connection methods that check the connection, make the one libpq call
`fn` on it and push values computed from its reply: `notifies`, `poll`,
`status`, `reset`, `resetstart`, `resetpoll`, `socket`, `error`, `db`, `user`,
`pass`, `host`, `port`, `tty`, `options`, `isbusy`.  `reply` is the values
pushed. -/
def lpq_conn_method (fn : String) (L : lua_State) (args : List LuaValue)
    (reply : List LuaValue) : Ret :=
  match lpq_checkconn L (arg args 1) with
  | .error e => (.error e, L)
  | .ok (_, C) => (.ok reply, { L with pq := L.pq ++ [.PQother fn C.conn] })

def lpq_conn_poll (L : lua_State) (args : List LuaValue) (reply : List LuaValue) : Ret :=
  lpq_conn_method "PQconnectPoll" L args reply

def lpq_conn_status (L : lua_State) (args : List LuaValue) (reply : List LuaValue) : Ret :=
  lpq_conn_method "PQstatus" L args reply

/-- C `lpq_conn_escape`; `reply` is the escaped string, `none` on error. -/
def lpq_conn_escape (H : Host) (L : lua_State) (args : List LuaValue)
    (reply : Option Bytes) : Ret :=
  match lpq_checkconn L (arg args 1) with
  | .error e => (.error e, L)
  | .ok (_, C) =>
    match luaL_checkstring H (arg args 2) with
    | .error e => (.error e, L)
    | .ok _ =>
      (.ok [match reply with
            | some esc => .string esc
            | none => .nil],
        { L with pq := L.pq ++ [.PQother "PQescapeStringConn" C.conn] })

/-- C `lpq_conn_consume`; `status` is what `PQconsumeInput` returns. -/
def lpq_conn_consume (L : lua_State) (args : List LuaValue) (status : Int)
    (errmsg : Bytes) : Ret :=
  match lpq_checkconn L (arg args 1) with
  | .error e => (.error e, L)
  | .ok (_, C) =>
    lpq_pushstatus { L with pq := L.pq ++ [.PQother "PQconsumeInput" C.conn] } status C.conn errmsg

/-- C `lpq_conn_query`; `status` is what `PQsendQueryParams` returns. -/
def lpq_conn_query (H : Host) (L : lua_State) (args : List LuaValue) (status : Int)
    (errmsg : Bytes) : Ret :=
  match lpq_checkconn L (arg args 1) with
  | .error e => (.error e, L)
  | .ok (_, C) =>
    match luaL_checkstring H (arg args 2) with
    | .error e => (.error e, L)
    | .ok cmd =>
      lpq_pushstatus { L with pq := L.pq ++ [.PQsendQueryParams C.conn cmd] } status C.conn errmsg

/-- The field name table `lpq_pushresult` builds: `PQfname(i)` maps to `i`. -/
def fieldtable : List PGfield → Nat → List (LuaValue × LuaValue) → List (LuaValue × LuaValue)
  | [], _, t => t
  | f :: fs, i, t => fieldtable fs (i + 1) (rawset t (.string f.name) (.integer i))

/-- C `lpq_pushresult`: nil for a NULL result; else a new result set userdata
that owns the result, with, for a result with status `PGRES_TUPLES_OK`, a
uservalue table holding the field name table at key `fields`.  `fresh` is the
identity of that field name table. -/
def lpq_pushresult (L : lua_State) (result : Option PGresult) (fresh : Addr) : Ret :=
  match result with
  | none => (.ok [.nil], L)
  | some res =>
    let R : lpq_Rset :=
      { result := L.results.length,
        env := if res.status = .PGRES_TUPLES_OK then
            some [(.string LPQ_RSET_FIELDS, .table fresh none (fieldtable res.fields 0 []))]
          else none }
    (.ok [.handle .rset L.rsets.length],
      { L with results := L.results ++ [res], rsets := L.rsets ++ [R] })

/-- C `lpq_conn_getresult`; `reply` is what `PQgetResult` returns. -/
def lpq_conn_getresult (L : lua_State) (args : List LuaValue) (reply : Option PGresult)
    (fresh : Addr) : Ret :=
  match lpq_checkconn L (arg args 1) with
  | .error e => (.error e, L)
  | .ok (_, C) => lpq_pushresult { L with pq := L.pq ++ [.PQgetResult C.conn] } reply fresh

/-- C `lpq_conn_exec`; `reply` is what `PQexecParams` returns. -/
def lpq_conn_exec (H : Host) (L : lua_State) (args : List LuaValue) (reply : Option PGresult)
    (fresh : Addr) : Ret :=
  match lpq_checkconn L (arg args 1) with
  | .error e => (.error e, L)
  | .ok (_, C) =>
    match luaL_checkstring H (arg args 2) with
    | .error e => (.error e, L)
    | .ok cmd => lpq_pushresult { L with pq := L.pq ++ [.PQexecParams C.conn cmd] } reply fresh

/-- A result libpq returned and the library clears at once: it gets an
address, and `PQclear` is called on it (nothing is done for NULL). -/
def clearnow (L : lua_State) (result : Option PGresult) : lua_State :=
  match result with
  | some res => { L with results := L.results ++ [res], pq := L.pq ++ [.PQclear L.results.length] }
  | none => L

/-- C `lpq_getplan` for the connection userdata at address `p` (stack index 1);
`reply` is what `PQdescribePrepared` returns, `junk` the content of the fresh
userdata memory.  The result is the new plan, if one was made. -/
def lpq_getplan (L : lua_State) (p : Addr) (C : lpq_Conn) (name : Bytes)
    (reply : Option PGresult) (junk : Int) : Option Addr × lua_State :=
  let L1 := { L with pq := L.pq ++ [.PQdescribePrepared C.conn name] }
  let status := match reply with
    | some res => res.status
    | none => .PGRES_FATAL_ERROR
  match reply, decide (status = .PGRES_COMMAND_OK) with
  | some res, true =>
    let n := res.params.length
    let q := L1.plans.length
    let P : lpq_Plan :=
      { conn := p, name := name, n := n, type := res.params,
        value := List.replicate n junk, length := List.replicate n junk,
        format := List.replicate n 1, valid := true }
    -- keep reference in conn env: env(conn)[light(P)] = name
    let C1 := { C with env := rawset C.env (.lightuserdata q) (.string name) }
    (some q, clearnow { L1 with plans := L1.plans ++ [P], conns := L1.conns.set p C1 } reply)
  | _, _ => (none, clearnow L1 reply)

/-- C `lpq_conn_prepare`; `reply` is what `PQprepare` returns, `reply2` what
`PQdescribePrepared` returns. -/
def lpq_conn_prepare (H : Host) (L : lua_State) (args : List LuaValue)
    (reply reply2 : Option PGresult) (junk : Int) (errmsg : Bytes) : Ret :=
  match lpq_checkconn L (arg args 1) with
  | .error e => (.error e, L)
  | .ok (p, C) =>
    match luaL_checkstring H (arg args 2) with
    | .error e => (.error e, L)
    | .ok query =>
      match luaL_optstring H (arg args 3) [] with
      | .error e => (.error e, L)
      | .ok name =>
        let status := match reply with
          | some res => res.status
          | none => .PGRES_FATAL_ERROR
        let L1 := clearnow { L with pq := L.pq ++ [.PQprepare C.conn name query] } reply
        let P :=
          if status = .PGRES_COMMAND_OK then lpq_getplan L1 p C name reply2 junk
          else (none, L1)
        match P.1 with
        | none =>
          (.ok [.nil, .string errmsg], { P.2 with pq := P.2.pq ++ [.PQerrorMessage C.conn] })
        | some q => (.ok [.handle .plan q], P.2)

/-- C `lpq_conn_getplan`; `reply` is what `PQdescribePrepared` returns. -/
def lpq_conn_getplan (H : Host) (L : lua_State) (args : List LuaValue)
    (reply : Option PGresult) (junk : Int) (errmsg : Bytes) : Ret :=
  match lpq_checkconn L (arg args 1) with
  | .error e => (.error e, L)
  | .ok (p, C) =>
    match luaL_optstring H (arg args 2) [] with
    | .error e => (.error e, L)
    | .ok name =>
      let P := lpq_getplan L p C name reply junk
      match P.1 with
      | none =>
        (.ok [.nil, .string errmsg], { P.2 with pq := P.2.pq ++ [.PQerrorMessage C.conn] })
      | some q => (.ok [.handle .plan q], P.2)

/-! ## psql.c : lpq_Plan -/

/-- C `lpq_checkplan`: the argument must be a plan userdata whose `valid` flag
is set. -/
def lpq_checkplan (L : lua_State) (narg : LuaValue) : Except Fault (Addr × lpq_Plan) :=
  match narg with
  | .handle .plan q =>
    match L.plans[q]? with
    | some P =>
      if !P.valid then .error (.error "referenced connection is finished") else .ok (q, P)
    | none => .error .undefined
  | v => .error (lpq_typeerror v "plan")

/-- C `lpq_plan__len`. -/
def lpq_plan__len (L : lua_State) (args : List LuaValue) : Ret :=
  match arg args 1 with
  | .handle .plan q =>
    match L.plans[q]? with
    | some P => (.ok [.integer P.n], L)
    | none => (.error .undefined, L)
  | _ => (.error .undefined, L)

/-- A store of `lpq_setparams` into slot `j` of a table of the plan. -/
inductive Store where
  | value (j : Nat)
  | length (j : Nat)
deriving DecidableEq, Repr

/-- First loop of `lpq_setparams`, `k` rounds from index `i`:
`P->length[i] = lpq_tovalue(L, i + 2, P->type[i], &buf)`, with the bytes of
the buffer (`buf`) and its side on the Lua stack (`B`).  The length table has
the stores a `__send` function made into it during the round, and then the
length the round returned, converted to `int`.  The lengths come back also
when a round raises an error. -/
def setparams_lengths (H : Host) (L : lua_State) (args : List LuaValue) (type : List Nat) :
    Nat → Nat → List Int → Bytes → luaL_Buffer → Except Fault (Bytes × luaL_Buffer) × List Int
  | 0, _, length, buf, B => (.ok (buf, B), length)
  | k + 1, i, length, buf, B =>
    match tovalue_stack H L (arg args (i + 2)) (type.getD i 0) B with
    | .error e => (.error e, length)
    | .ok (B1, stores) =>
      match lpq_tovalue H L (arg args (i + 2)) (type.getD i 0) buf with
      | .error e => (.error e, length)
      | .ok (l, buf1) =>
        setparams_lengths H L args type k (i + 1)
          ((stores.foldl (fun t p => t.set p.1 p.2) length).set i (to_int32 l)) buf1 B1

/-- Second loop of `lpq_setparams`, `k` rounds from index `i`:
`P->value[i + 1] = P->value[i] + P->length[i]`. -/
def setparams_values (length : List Int) : Nat → Nat → List Int → List Int
  | 0, _, value => value
  | k + 1, i, value =>
    setparams_values length k (i + 1) (value.set (i + 1) (value.getD i 0 + length.getD i 0))

/-- The stores `lpq_setparams` makes for a plan with `n` parameters, in order:
`length[0 .. n)`, then `value[0]`, then `value[1 .. n)`. -/
def setparams_stores (n : Int) : List Store :=
  (List.range n.toNat).map .length ++ [.value 0]
    ++ (List.range (n - 1).toNat).map (fun i => .value (i + 1))

/-- C `lpq_setparams`: the parameters are the arguments from stack index 2 on
(`lua_settop` cuts or pads them to `P->n`).  The result is the parameter
buffer or the fault, and the plan with its tables as stored into.  A table
has `P->n` slots; a store to a slot outside it is listed by
`setparams_stores` and leaves the table as it is.  Nothing the encoders
pushed is popped before `luaL_pushresult`. -/
def lpq_setparams (H : Host) (L : lua_State) (P : lpq_Plan) (args : List LuaValue) :
    Except Fault Bytes × lpq_Plan :=
  match setparams_lengths H L args P.type P.n.toNat 0 P.length [] (luaL_buffinit H) with
  | (.error e, length) => (.error e, { P with length := length })
  | (.ok (buf, B), length) =>
    match luaL_pushresult B with
    | .error e => (.error e, { P with length := length })
    | .ok _ =>
      let value := setparams_values length (P.n - 1).toNat 0 (P.value.set 0 0)
      (.ok buf, { P with length := length, value := value })

/-- C `lpq_plan_query`; `status` is what `PQsendQueryPrepared` returns. -/
def lpq_plan_query (H : Host) (L : lua_State) (args : List LuaValue) (status : Int)
    (errmsg : Bytes) : Ret :=
  match lpq_checkplan L (arg args 1) with
  | .error e => (.error e, L)
  | .ok (q, P) =>
    match lpq_setparams H L P args with
    | (.error e, P1) => (.error e, { L with plans := L.plans.set q P1 })
    | (.ok buf, P1) =>
      match L.conns[P1.conn]? with
      | none => (.error .undefined, { L with plans := L.plans.set q P1 })
      | some C =>
        lpq_pushstatus
          { L with plans := L.plans.set q P1,
                   pq := L.pq ++ [.PQsendQueryPrepared C.conn P1.name P1.n buf
                     P1.value P1.length P1.format] }
          status C.conn errmsg

/-- C `lpq_plan_exec`; `reply` is what `PQexecPrepared` returns. -/
def lpq_plan_exec (H : Host) (L : lua_State) (args : List LuaValue) (reply : Option PGresult)
    (fresh : Addr) : Ret :=
  match lpq_checkplan L (arg args 1) with
  | .error e => (.error e, L)
  | .ok (q, P) =>
    match lpq_setparams H L P args with
    | (.error e, P1) => (.error e, { L with plans := L.plans.set q P1 })
    | (.ok buf, P1) =>
      match L.conns[P1.conn]? with
      | none => (.error .undefined, { L with plans := L.plans.set q P1 })
      | some C =>
        lpq_pushresult
          { L with plans := L.plans.set q P1,
                   pq := L.pq ++ [.PQexecPrepared C.conn P1.name P1.n buf
                     P1.value P1.length P1.format] }
          reply fresh

/-! ## psql.c : lpq_Rset -/

/-- C `lpq_checkrset`: the argument must be a result set userdata. -/
def lpq_checkrset (L : lua_State) (narg : LuaValue) : Except Fault (Addr × lpq_Rset) :=
  match narg with
  | .handle .rset r =>
    match L.rsets[r]? with
    | some R => .ok (r, R)
    | none => .error .undefined
  | v => .error (lpq_typeerror v "result set")

/-- C `PQntuples` of the result at address `r` (0 for no result). -/
def PQntuples_at (L : lua_State) (r : Addr) : Int :=
  match L.results[r]? with
  | some res => PQntuples res
  | none => 0

/-- The loop of `lpq_rset__gc` over the entries of the table at index 2: for a
key at index -2 with `lua_tointeger > 0`, the value at index -1 is taken as a
tuple userdata and `T->valid = 0` is stored, without a NULL test. -/
def rset__gc_loop (H : Host) (L : lua_State) : List (LuaValue × LuaValue) → Except Fault lua_State
  | [] => .ok L
  | (k, v) :: es =>
    if lua_tointeger H k > 0 then
      match v with
      | .handle .tuple t =>
        match L.tuples[t]? with
        | some T => rset__gc_loop H { L with tuples := L.tuples.set t { T with valid := false } } es
        | none => .error .undefined
      | _ => .error .undefined
    else rset__gc_loop H L es

/-- C `lpq_rset__gc`: the release of the result set at stack index 1:
`lua_getuservalue(L, 1)`, the loop `while (lua_next(L, 2))` when the result
has row data, then `PQclear`. -/
def lpq_rset__gc (H : Host) (L : lua_State) (args : List LuaValue) : Ret :=
  match arg args 1 with
  | .handle .rset r =>
    match L.rsets[r]? with
    | none => (.error .undefined, L)
    | some R =>
      let marked : Except Fault lua_State :=
        if PQresultStatus L R.result = .PGRES_TUPLES_OK then
          -- mark tuples that reference rset as invalid
          match tableAt2 args R.env with
          | some env => rset__gc_loop H L env
          | none => .error .undefined
        else .ok L
      match marked with
      | .error e => (.error e, L)
      | .ok L1 => (.ok [], { L1 with pq := L1.pq ++ [.PQclear R.result] })
  | _ => (.error .undefined, L)

/-- C `lpq_rset__len`. -/
def lpq_rset__len (L : lua_State) (args : List LuaValue) : Ret :=
  match arg args 1 with
  | .handle .rset r =>
    match L.rsets[r]? with
    | none => (.error .undefined, L)
    | some R =>
      match L.results[R.result]? with
      | none => (.ok [.nil], L)
      | some res =>
        if res.status = .PGRES_TUPLES_OK then (.ok [.integer (PQntuples res)], L)
        else if res.status = .PGRES_COMMAND_OK then (.ok [.integer res.cmdTuples], L)
        else (.ok [.nil], L)
  | _ => (.error .undefined, L)

/-- The class table of result sets (first upvalue of `lpq_rset__index`): the
methods by name. -/
def rset_class : LuaValue → LuaValue
  | .string s =>
    if s = cstr "fields" then .function 1
    else if s = cstr "status" then .function 2
    else if s = cstr "error" then .function 3
    else if s = cstr "cmdstatus" then .function 4
    else if s = cstr "fetch" then .function 5
    else if s = cstr "rows" then .function 6
    else .nil
  | _ => .nil

/-- C `lpq_rset__index`: for a number key `n` the tuple of row `n`, made on the
first access and kept at key `n` of the table at stack index 3; for another
key the method of that name.  Index 3 holds the uservalue table when the
function is called with (result set, key), as the `__index` event calls it;
with more arguments it holds the third argument. -/
def lpq_rset__index (H : Host) (L : lua_State) (args : List LuaValue) : Ret :=
  match arg args 1 with
  | .handle .rset r =>
    match L.rsets[r]? with
    | none => (.error .undefined, L)
    | some R =>
      if lua_isnumber H (arg args 2) then
        let n := to_int32 (lua_tointeger H (arg args 2))
        if PQresultStatus L R.result ≠ .PGRES_TUPLES_OK ∨ n < 1 ∨ n > PQntuples_at L R.result then
          (.ok [.nil], L)
        else
          match R.env with
          | none => (.error .undefined, L)
          | some env =>
            match rawget env (.integer n) with
            | .nil =>
              let t := L.tuples.length
              let T : lpq_Tuple := { rset := r, row := n - 1, valid := true, env := .nil }
              if args.length ≤ 2 then
                -- stack index 3 is the uservalue table
                let T1 := { T with env := rawget env (.string LPQ_RSET_FIELDS) }
                let R1 := { R with env := some (rawset env (.integer n) (.handle .tuple t)) }
                (.ok [.handle .tuple t],
                  { L with tuples := L.tuples ++ [T1], rsets := L.rsets.set r R1 })
              else
                -- stack index 3 is the third argument
                match lua_getfield H (arg args 3) LPQ_RSET_FIELDS with
                | .error e => (.error e, { L with tuples := L.tuples ++ [T] })
                | .ok fields =>
                  match arg args 3 with
                  | .table _ _ _ =>
                    (.ok [.handle .tuple t],
                      { L with tuples := L.tuples ++ [{ T with env := fields }] })
                  | _ => (.error .undefined, { L with tuples := L.tuples ++ [T] })
            | v => (.ok [v], L)
      else (.ok [rset_class (arg args 2)], L)
  | _ => (.error .undefined, L)

/-- C `lpq_rset_fields`. -/
def lpq_rset_fields (L : lua_State) (args : List LuaValue) : Ret :=
  match lpq_checkrset L (arg args 1) with
  | .error e => (.error e, L)
  | .ok (_, R) =>
    if PQresultStatus L R.result ≠ .PGRES_TUPLES_OK then (.ok [.nil], L)
    else
      match R.env with
      | some env => (.ok [rawget env (.string LPQ_RSET_FIELDS)], L)
      | none => (.error (.error "attempt to index a nil value"), L)

/-- The result set methods that check the result set and push a value read
from the result: `status`, `error`, `cmdstatus`.  `reply` is the value. -/
def lpq_rset_method (L : lua_State) (args : List LuaValue) (reply : LuaValue) : Ret :=
  match lpq_checkrset L (arg args 1) with
  | .error e => (.error e, L)
  | .ok _ => (.ok [reply], L)

/-- Identities of the two auxiliary C functions closures are made of. -/
def FETCHAUX : Nat := 101
def ROWSAUX : Nat := 102

/-- The fields loop of `lpq_rset_fetchaux` for row `i`, from field `f`, `k`
rounds: nil for a null field, else `lpq_pushvalue` with the arguments
`R->result, f, rowindex`, where `rowindex` is the flag of the iterator. -/
def fetch_fields (H : Host) (L : lua_State) (res : PGresult) (i : Int) (rowindex : Int)
    (fresh : Addr) : Nat → Int → Except Fault (List LuaValue)
  | 0, _ => .ok []
  | k + 1, f =>
    let v : Except Fault LuaValue :=
      if PQgetisnull res i f then .ok .nil
      else lpq_pushvalue H L (PQftype res f) (PQfmod res f) (PQgetvalue res i f)
        (PQgetlength res i f) res f rowindex (fresh + f.toNat)
    match v with
    | .error e => .error e
    | .ok x =>
      match fetch_fields H L res i rowindex fresh k (f + 1) with
      | .error e => .error e
      | .ok xs => .ok (x :: xs)

/-- C `lpq_rset_fetchaux` with the upvalues `up` (result set, rowindex flag,
current row): the values returned and the upvalues afterwards. -/
def lpq_rset_fetchaux (H : Host) (L : lua_State) (up : List LuaValue) (fresh : Addr) :
    Except Fault (List LuaValue × List LuaValue) :=
  match arg up 1 with
  | .handle .rset r =>
    match L.rsets[r]? with
    | none => .error .undefined
    | some R =>
      let rowindex : Int := if lua_toboolean (arg up 2) then 1 else 0
      let i := to_int32 (lua_tointeger H (arg up 3))
      match L.results[R.result]? with
      | none => .ok ([], up)
      | some res =>
        if i < PQntuples res then
          match fetch_fields H L res i rowindex fresh res.fields.length 0 with
          | .error e => .error e
          | .ok vs =>
            .ok ((if rowindex ≠ 0 then [.integer (i + 1)] else []) ++ vs,
              [arg up 1, arg up 2, .integer (i + 1)])
        else .ok ([], up)
  | _ => .error .undefined

/-- C `lpq_rset_fetch`: the iterator closure, current row 0. -/
def lpq_rset_fetch (L : lua_State) (args : List LuaValue) : Ret :=
  match lpq_checkrset L (arg args 1) with
  | .error e => (.error e, L)
  | .ok _ => (.ok [.closure FETCHAUX [arg args 1, arg args 2, .integer 0]], L)

/-- C `lpq_rset_rowsaux` with the tuple `up` as upvalue and the arguments
(result set, control value). -/
def lpq_rset_rowsaux (H : Host) (L : lua_State) (up : List LuaValue)
    (args : List LuaValue) : Ret :=
  match arg args 1, arg up 1 with
  | .handle .rset r, .handle .tuple t =>
    match L.rsets[r]?, L.tuples[t]? with
    | some R, some T =>
      let n := to_int32 (lua_tointeger H (arg args 2))
      if PQresultStatus L R.result ≠ .PGRES_TUPLES_OK ∨ n = PQntuples_at L R.result then
        (.ok [.nil], { L with tuples := L.tuples.set t { T with valid := false } })
      else
        (.ok [.integer (n + 1), .handle .tuple t],
          { L with tuples := L.tuples.set t { T with row := n } })
    | _, _ => (.error .undefined, L)
  | _, _ => (.error .undefined, L)

/-- C `lpq_rset_rows`: a new tuple, valid, inside the iterator closure; also
the result set and the control value 0.  The uservalue of the tuple is the
field `fields` of the value at stack index 2: the uservalue of the result set
when the result set is the only argument (indexing nil raises an error), else
the second argument.  `junk` is the content of the fresh userdata memory
(`T->row` is not set here). -/
def lpq_rset_rows (H : Host) (L : lua_State) (args : List LuaValue) (junk : Int) : Ret :=
  match lpq_checkrset L (arg args 1) with
  | .error e => (.error e, L)
  | .ok (r, R) =>
    let t := L.tuples.length
    let T : lpq_Tuple := { rset := r, row := junk, valid := true, env := .nil }
    let fields : Except Fault LuaValue :=
      if args.length ≤ 1 then
        match R.env with
        | none => .error (.error "attempt to index a nil value")
        | some env => .ok (rawget env (.string LPQ_RSET_FIELDS))
      else lua_getfield H (arg args 2) LPQ_RSET_FIELDS
    match fields with
    | .error e => (.error e, { L with tuples := L.tuples ++ [T] })
    | .ok f =>
      (.ok [.closure ROWSAUX [.handle .tuple t], arg args 1, .integer 0],
        { L with tuples := L.tuples ++ [{ T with env := f }] })

/-! ## psql.c : lpq_Tuple -/

/-- C `lpq_tuple__len`. -/
def lpq_tuple__len (L : lua_State) (args : List LuaValue) : Ret :=
  match arg args 1 with
  | .handle .tuple t =>
    match L.tuples[t]? with
    | some T => if !T.valid then (.ok [.nil], L) else (.ok [.integer T.row], L)
    | none => (.error .undefined, L)
  | _ => (.error .undefined, L)

/-- C `lpq_tuple__index`: the value of the field named by the key in the row of
the tuple, nil for a tuple whose flag is off.  The first statement,
`PGresult *result = T->rset->result`, reads the result set userdata the tuple
points to before the flag is tested: when that userdata is no longer there
(a tuple does not keep its result set from being collected) the read is a
fault, whatever the flag.  The result itself is used only on the valid path;
a result that is not there is a fault when it is used. -/
def lpq_tuple__index (H : Host) (L : lua_State) (args : List LuaValue) (fresh : Addr) : Ret :=
  match arg args 1 with
  | .handle .tuple t =>
    match L.tuples[t]? with
    | none => (.error .undefined, L)
    | some T =>
      -- `PGresult *result = T->rset->result`, read before the flag is tested
      match L.rsets[T.rset]? with
      | none => (.error .undefined, L)
      | some R =>
        let result := L.results[R.result]?
        if !T.valid then (.ok [.nil], L)
        else
          match T.env with
          | .table _ _ fields =>
            let x := rawget fields (arg args 2)
            if lua_isnumber H x then -- field name match?
              let f := to_int32 (lua_tointeger H x)
              match result with
              | none => (.error .undefined, L)
              | some result =>
                if PQgetisnull result T.row f then (.ok [.nil], L)
                else
                  match lpq_pushvalue H L (PQftype result f) (PQfmod result f)
                      (PQgetvalue result T.row f) (PQgetlength result T.row f) result f T.row
                      fresh with
                  | .ok v => (.ok [v], L)
                  | .error e => (.error e, L)
            else (.ok [x], L)
          | _ => (.error .undefined, L)
  | _ => (.error .undefined, L)

/-! ## The library as a transition system -/

/-- C `luaopen_psql`: the state after the library is loaded; the type
metatable table is empty and nothing has been created. -/
def luaopen_psql : lua_State :=
  { typemt := [], conns := [], plans := [], rsets := [], tuples := [], results := [], pq := [] }

/-- One call into the library from Lua (or from the collector, for the two
finalisers), with its arguments and with what the environment answers during
the call. -/
inductive Op where
  | connect (args : List LuaValue) (reply : Option Addr)
  | start (args : List LuaValue) (reply : Option Addr)
  | register (args : List LuaValue) (fresh : Addr)
  | tostring (reply : Bytes)
  | conn__gc (args : List LuaValue)
  | conn_finish (args : List LuaValue)
  | conn_method (fn : String) (args : List LuaValue) (reply : List LuaValue)
  | conn_escape (args : List LuaValue) (reply : Option Bytes)
  | conn_consume (args : List LuaValue) (status : Int) (errmsg : Bytes)
  | conn_query (args : List LuaValue) (status : Int) (errmsg : Bytes)
  | conn_getresult (args : List LuaValue) (reply : Option PGresult) (fresh : Addr)
  | conn_exec (args : List LuaValue) (reply : Option PGresult) (fresh : Addr)
  | conn_prepare (args : List LuaValue) (reply reply2 : Option PGresult) (junk : Int)
      (errmsg : Bytes)
  | conn_getplan (args : List LuaValue) (reply : Option PGresult) (junk : Int) (errmsg : Bytes)
  | plan__len (args : List LuaValue)
  | plan_query (args : List LuaValue) (status : Int) (errmsg : Bytes)
  | plan_exec (args : List LuaValue) (reply : Option PGresult) (fresh : Addr)
  | rset__gc (args : List LuaValue)
  | rset__len (args : List LuaValue)
  | rset__index (args : List LuaValue)
  | rset_fields (args : List LuaValue)
  | rset_method (args : List LuaValue) (reply : LuaValue)
  | rset_fetch (args : List LuaValue)
  | rset_fetchaux (up : List LuaValue) (fresh : Addr)
  | rset_rows (args : List LuaValue) (junk : Int)
  | rset_rowsaux (up : List LuaValue) (args : List LuaValue)
  | tuple__len (args : List LuaValue)
  | tuple__index (args : List LuaValue) (fresh : Addr)

/-- The effect of one call. -/
def step (H : Host) (L : lua_State) : Op → Ret
  | .connect args reply => lpq_connect H L args reply
  | .start args reply => lpq_start H L args reply
  | .register args fresh => lpq_register H L args fresh
  | .tostring reply => lpq__tostring L reply
  | .conn__gc args => lpq_conn__gc L args
  | .conn_finish args => lpq_conn_finish L args
  | .conn_method fn args reply => lpq_conn_method fn L args reply
  | .conn_escape args reply => lpq_conn_escape H L args reply
  | .conn_consume args status errmsg => lpq_conn_consume L args status errmsg
  | .conn_query args status errmsg => lpq_conn_query H L args status errmsg
  | .conn_getresult args reply fresh => lpq_conn_getresult L args reply fresh
  | .conn_exec args reply fresh => lpq_conn_exec H L args reply fresh
  | .conn_prepare args reply reply2 junk errmsg =>
    lpq_conn_prepare H L args reply reply2 junk errmsg
  | .conn_getplan args reply junk errmsg => lpq_conn_getplan H L args reply junk errmsg
  | .plan__len args => lpq_plan__len L args
  | .plan_query args status errmsg => lpq_plan_query H L args status errmsg
  | .plan_exec args reply fresh => lpq_plan_exec H L args reply fresh
  | .rset__gc args => lpq_rset__gc H L args
  | .rset__len args => lpq_rset__len L args
  | .rset__index args => lpq_rset__index H L args
  | .rset_fields args => lpq_rset_fields L args
  | .rset_method args reply => lpq_rset_method L args reply
  | .rset_fetch args => lpq_rset_fetch L args
  | .rset_fetchaux up fresh =>
    ((lpq_rset_fetchaux H L up fresh).map Prod.fst, L)
  | .rset_rows args junk => lpq_rset_rows H L args junk
  | .rset_rowsaux up args => lpq_rset_rowsaux H L up args
  | .tuple__len args => lpq_tuple__len L args
  | .tuple__index args fresh => lpq_tuple__index H L args fresh

/-- The state after a sequence of calls. -/
def run (H : Host) (L : lua_State) : List Op → lua_State
  | [] => L
  | op :: ops => run H (step H L op).2 ops

/-- A host whose conversions are constant and whose Lua calls raise an error. -/
def plainHost : Host :=
  { str2number := fun _ => none, float2int := fun _ => none, int2float := fun _ => 0,
    float8to4 := fun _ => 0, float4to8 := fun _ => 0, float2uint32 := fun _ => 0,
    num2str := fun _ => [], basemt := fun _ => none, index := fun _ _ => none,
    newindex := fun _ _ _ => none, call := fun _ _ => none, block := fun _ _ => [] }

/-- A reply of libpq to a command: status `PGRES_COMMAND_OK`, no rows, and the
given parameter types. -/
def commandOk (params : List Nat) : PGresult :=
  { status := .PGRES_COMMAND_OK, fields := [], rows := [], params := params, cmdTuples := 0 }

/-- A reply of libpq with one row of one int4 field named "a". -/
def oneRow : PGresult :=
  { status := .PGRES_TUPLES_OK,
    fields := [{ name := cstr "a", ftype := INT4OID, fmod := -1 }],
    rows := [[{ isnull := false, value := [0, 0, 0, 7, 0], length := 4,
                epoch := none, arr := none }]],
    params := [], cmdTuples := 0 }


/-- The case labels of the switch of `lpq_pushvalue`: the type ids the decoder
handles itself. -/
def pushvalue_builtin : List Nat :=
  [BOOLOID, CHAROID, INT4OID, REGCLASSOID, OIDOID, INT8OID, FLOAT4OID, FLOAT8OID, TIMESTAMPOID,
    TIMESTAMPTZOID, BYTEAOID, TEXTOID, VARCHAROID, JSONOID, NAMEOID, INTEGERARRAYOID,
    BIGINTEGERARRAYOID, VARCHARARRAYOID, TIMESTAMPARRAYOID, TIMESTAMPTZARRAYOID, FLOAT8ARRAYOID,
    FLOAT4ARRAYOID, BPCHAROID]

/-- The case labels of the switch of `lpq_tovalue`: the type ids the encoder
handles itself. -/
def tovalue_builtin : List Nat :=
  [INTERVALOID, BOOLOID, CHAROID, INT4OID, OIDOID, FLOAT4OID, FLOAT8OID, BYTEAOID, TEXTOID,
    BPCHAROID, NAMEOID, VARCHAROID]

/-- A table of identity `id` with a send and a receive function, as a caller
hands it to `register`. -/
def sampleEntry (id : Addr) : LuaValue :=
  .table id none [(.string LPQ_REGMT_SEND, .function 7), (.string LPQ_REGMT_RECV, .function 8)]

/-- The loaded library after `register(21, sampleEntry 500)`. -/
def sampleRegistry : lua_State :=
  run plainHost luaopen_psql [.register [.integer 21, sampleEntry 500] 0]

/-- The entry `sampleRegistry` holds for type id 21: the table 500 with the
field `__oid` added. -/
def sampleRegistered : LuaValue :=
  .table 500 none [(.string LPQ_REGMT_SEND, .function 7), (.string LPQ_REGMT_RECV, .function 8),
    (.string LPQ_REGMT_OID, .integer 21)]

/-- A connection (transport handle 77) and a plan "p" with one int4 parameter
obtained from it by `getplan`. -/
def openWithPlan : lua_State :=
  run plainHost luaopen_psql
    [.connect [.string (cstr "dbname=x")] (some 77),
     .conn_getplan [.handle .conn 0, .string (cstr "p")] (some (commandOk [23])) 0 []]

/-- The state `openWithPlan` after `conn:finish({plan})`: with a second
argument on the stack the loop of `lpq_finishconn` walks that argument, whose
value is the plan userdata, and turns the flag of the plan off. -/
def stalePlan : lua_State :=
  run plainHost openWithPlan
    [.conn_finish [.handle .conn 0, .table 9 none [(.integer 1, .handle .plan 0)]]]

/-- A connection that was opened and finished. -/
def finishedConn : lua_State :=
  run plainHost luaopen_psql
    [.connect [.string (cstr "dbname=x")] (some 77), .conn_finish [.handle .conn 0]]

/-- A connection, and a result set with one row obtained from it. -/
def openWithRows : lua_State :=
  run plainHost luaopen_psql
    [.connect [.string (cstr "dbname=x")] (some 77),
     .conn_exec [.handle .conn 0, .string (cstr "select 7")] (some oneRow) 50]

/-- The state `openWithRows` after row 1 was fetched as a tuple and the result
set was released. -/
def releasedRow : lua_State :=
  run plainHost openWithRows [.rset__index [.handle .rset 0, .integer 1],
    .rset__gc [.handle .rset 0]]


/-! ## Relations between states -/

/-- Every element of `xs` is still there in `ys`, at the same index, and a
flag `f` that is on in `xs` is on in `ys`. -/
def ListMono {α : Type} (f : α → Bool) (xs ys : List α) : Prop :=
  ∀ (i : Nat) (x : α), xs[i]? = some x → ∃ y, ys[i]? = some y ∧ (f x = true → f y = true)

/-- Every element of `xs` is still there in `ys`, unchanged. -/
def Keeps {α : Type} (xs ys : List α) : Prop :=
  ∀ (i : Nat) (x : α), xs[i]? = some x → ys[i]? = some x

/-- Validity only decays from `L` to `L2`: every plan, tuple and connection of
`L` is still there, a plan or tuple that is invalid in `L` is invalid in `L2`,
a connection that is done in `L` is done in `L2`. -/
structure Decays (L L2 : lua_State) : Prop where
  plans : ListMono (fun P => !P.valid) L.plans L2.plans
  tuples : ListMono (fun T => !T.valid) L.tuples L2.tuples
  conns : ListMono (fun C => C.done) L.conns L2.conns

/-- What one call may do to the result sets: nothing; or add one, made by
`lpq_pushresult` for a new result; or cache a new tuple in one of them, at a
key that held nothing. -/
inductive RsetsStep (L L2 : lua_State) : Prop where
  | same (h : L2.rsets = L.rsets) (hr : Keeps L.results L2.results)
  | push (res : PGresult) (fresh : Addr)
      (hres : L2.results = L.results ++ [res])
      (h : L2.rsets = L.rsets ++
        [{ result := L.results.length,
           env := if res.status = .PGRES_TUPLES_OK then
               some [(.string LPQ_RSET_FIELDS, .table fresh none (fieldtable res.fields 0 []))]
             else none }])
  | cache (r : Addr) (R : lpq_Rset) (env : List (LuaValue × LuaValue)) (n : Int) (T : lpq_Tuple)
      (hR : L.rsets[r]? = some R) (henv : R.env = some env)
      (hnil : rawget env (.integer n) = .nil)
      (hres : L2.results = L.results)
      (htup : L2.tuples = L.tuples ++ [T])
      (h : L2.rsets = L.rsets.set r
        { R with env := some (rawset env (.integer n) (.handle .tuple L.tuples.length)) })

/-- The summary of one call: validity decays, and the result sets change as
`RsetsStep` allows. -/
structure Frame (L L2 : lua_State) : Prop where
  decays : Decays L L2
  rsets : RsetsStep L L2

/-- An entry of the uservalue table of a result set is the field name table,
or a tuple of the tuple store at an integer key. -/
def EntryOK (ntuples : Nat) (e : LuaValue × LuaValue) : Prop :=
  e.1 = .string LPQ_RSET_FIELDS ∨ ∃ n t, e = (.integer n, .handle .tuple t) ∧ t < ntuples

/-- A result set of a state is well formed: its result is in the result
store, it has a uservalue table exactly when that result has status
`PGRES_TUPLES_OK`, and the entries of the table are as `EntryOK` says. -/
def RsetOK (L : lua_State) (R : lpq_Rset) : Prop :=
  R.result < L.results.length ∧
    match R.env with
    | some env =>
      PQresultStatus L R.result = .PGRES_TUPLES_OK ∧ ∀ e ∈ env, EntryOK L.tuples.length e
    | none => PQresultStatus L R.result ≠ .PGRES_TUPLES_OK

/-- All result sets of the state are well formed. -/
def Inv (L : lua_State) : Prop :=
  ∀ (r : Addr) (R : lpq_Rset), L.rsets[r]? = some R → RsetOK L R

/-- The results of `L` are kept in `L2`, every result set of `L` is still
there with the same result, and a tuple cached in it at an integer key is
still cached at that key. -/
def Ext (L L2 : lua_State) : Prop :=
  Keeps L.results L2.results ∧
    ∀ (r : Addr) (R : lpq_Rset), L.rsets[r]? = some R →
      ∃ R2, L2.rsets[r]? = some R2 ∧ R2.result = R.result ∧
      ∀ env, R.env = some env → ∃ env2, R2.env = some env2 ∧
        ∀ n t, rawget env (.integer n) = .handle .tuple t →
          rawget env2 (.integer n) = .handle .tuple t


/-- A change of state that leaves the result sets and the tuples alone. -/
structure Quiet (L L2 : lua_State) : Prop where
  plans : ListMono (fun P => !P.valid) L.plans L2.plans
  tuples : L2.tuples = L.tuples
  conns : ListMono (fun C => C.done) L.conns L2.conns
  rsets : L2.rsets = L.rsets
  results : Keeps L.results L2.results


/-- A connection, and the result set of a command (no row data) obtained from
it. -/
def openWithCommand : lua_State :=
  run plainHost luaopen_psql
    [.connect [.string (cstr "dbname=x")] (some 77),
     .conn_exec [.handle .conn 0, .string (cstr "begin")] (some (commandOk [])) 50]

/-! ## Notions of the specification -/

/-- The number a byte string denotes when read most significant byte first
(the specification's "big-endian"). -/
def spec_bigendian (bs : Bytes) : Nat := bs.foldl (fun a x => a * 256 + x) 0

/-- The specification's "ordered sequence, 1-indexed": the value `t` is a
table without metatable whose keys are exactly `1 .. n`, in this order, with
`xs[i]` at key `i + 1`, where `n` is the length of `xs`. -/
def spec_sequence (t : LuaValue) (xs : List LuaValue) : Prop :=
  ∃ id es, t = .table id none es ∧
    es.map Prod.fst
      = (List.range xs.length).map (fun (i : Nat) => LuaValue.integer ((i : Int) + 1)) ∧
    ∀ (i : Nat) (h : i < xs.length), rawget es (.integer ((i : Int) + 1)) = xs[i]

/-! ## The generic for statement of Lua -/

/-- Lua's generic `for` over the three values `rows()` returns (the iterator
closure with the upvalues `up`, the state `s`, the control value): in each
round the iterator is called with the state and the control value; a first
result that is nil ends the loop, else the body runs with the results and the
first result is the next control value.  The result is the values the body
ran with, whether the loop has ended within `fuel` rounds (an error in the
iterator does not count as an end), and the state afterwards. -/
def for_rows (H : Host) (up : List LuaValue) (s : LuaValue) :
    Nat → LuaValue → lua_State → List (List LuaValue) × Bool × lua_State
  | 0, _, L => ([], false, L)
  | fuel + 1, ctl, L =>
    match lpq_rset_rowsaux H L up [s, ctl] with
    | (.ok [], L1) => ([], true, L1)
    | (.ok (.nil :: _), L1) => ([], true, L1)
    | (.ok (v :: vs), L1) =>
      let rest := for_rows H up s fuel v L1
      ((v :: vs) :: rest.1, rest.2.1, rest.2.2)
    | (.error _, L1) => ([], false, L1)

/-! ## Sample hosts -/

/-- Number of binary digits of `n`, for `n` below `2 ^ fuel`. -/
def bitlength : Nat → Nat → Nat
  | 0, _ => 0
  | fuel + 1, n => if n = 0 then 0 else bitlength fuel (n / 2) + 1

/-- Bit pattern of `(double) i`: the IEEE-754 double nearest to the integer
`i`, ties to even, for `i` of at most 64 binary digits. -/
def double_of_int (i : Int) : Nat :=
  let a := i.natAbs
  if a = 0 then 0
  else
    -- 2 ^ k ≤ a < 2 ^ (k + 1)
    let k := bitlength 64 a - 1
    let sign := if i < 0 then 2 ^ 63 else 0
    -- the 53 digit significand, rounded
    let q : Nat :=
      if k ≤ 52 then a * 2 ^ (52 - k)
      else
        let q0 := a / 2 ^ (k - 52)
        let r := a % 2 ^ (k - 52)
        if 2 ^ (k - 53) < r ∨ (r = 2 ^ (k - 53) ∧ q0 % 2 = 1) then q0 + 1 else q0
    sign + (1023 + k) * 2 ^ 52 + (q - 2 ^ 52)

/-- The integer part (toward zero) of the double with bit pattern `d`; `none`
for an infinity and for a NaN. -/
def double_trunc (d : Nat) : Option Int :=
  let e := d / 2 ^ 52 % 2048
  let m := d % 2 ^ 52
  if e = 2047 then none
  else
    let mag : Nat :=
      if e = 0 then 0
      else if 1075 ≤ e then (2 ^ 52 + m) * 2 ^ (e - 1075)
      else (2 ^ 52 + m) / 2 ^ (1075 - e)
    some (if d / 2 ^ 63 % 2 = 1 then -(mag : Int) else (mag : Int))

/-- The `lua_Integer` the double with bit pattern `d` converts to: its value,
when that is an integer of the `int64` range. -/
def double_to_int (d : Nat) : Option Int :=
  let e := d / 2 ^ 52 % 2048
  let m := d % 2 ^ 52
  let integral : Bool :=
    if e = 0 then m = 0
    else if 1075 ≤ e then true
    else (2 ^ 52 + m) % 2 ^ (1075 - e) = 0
  match double_trunc d with
  | some i =>
    if integral ∧ -9223372036854775808 ≤ i ∧ i < 9223372036854775808 then some i else none
  | none => none

/-- A host with IEEE-754 doubles on which `(uint32) d` is the low word of the
conversion of `d` to a 64 bit integer (0 when that conversion is out of
range), as it is in code for x86-64.  The other services are those of
`plainHost`. -/
def wrapHost : Host :=
  { plainHost with
    int2float := double_of_int, float2int := double_to_int,
    float2uint32 := fun d =>
      match double_trunc d with
      | some i =>
        if -9223372036854775808 ≤ i ∧ i < 9223372036854775808 then to_uint32 i else 0
      | none => 0 }

/-- A host with IEEE-754 doubles on which `(uint32) d` saturates: 0 for a
negative `d` (and for a NaN), `2 ^ 32 - 1` for a `d` above the range, as it is
in code for AArch64.  The two hosts agree wherever C defines the conversion. -/
def satHost : Host :=
  { plainHost with
    int2float := double_of_int, float2int := double_to_int,
    float2uint32 := fun d =>
      match double_trunc d with
      | some i => if i < 0 then 0 else if 4294967295 < i then 4294967295 else i.toNat
      | none => if d / 2 ^ 63 % 2 = 1 ∨ d % 2 ^ 52 ≠ 0 then 0 else 4294967295 }

/-- A host on which the function 8 returns, for a string, a userdata with the
metatable 501 that holds the bytes of the string, and every other call raises
an error.  The other services are those of `plainHost`. -/
def codecHost : Host :=
  { plainHost with
    call := fun f args =>
      if f = 8 then
        match args with
        | .string s :: _ => some (.userdata (some 501) s)
        | _ => none
      else none }

/-! ## Sample values and states -/

/-- An interval value as the encoder reads it: a table with the fields
`time`, `day` and `month`. -/
def sampleInterval (time day month : Int) : LuaValue :=
  .table 700 none [(.string (cstr "time"), .integer time), (.string (cstr "day"), .integer day),
    (.string (cstr "month"), .integer month)]

/-- The Lua table `{1, 2, 3}` (of identity `id`). -/
def sampleArray (id : Addr) (a b c : Int) : LuaValue :=
  .table id none [(.integer 1, .integer a), (.integer 2, .integer b), (.integer 3, .integer c)]

/-- A reply of libpq with one row of one `int4[]` field named "a", holding the
array 1, 2, 3. -/
def oneArray : PGresult :=
  { status := .PGRES_TUPLES_OK,
    fields := [{ name := cstr "a", ftype := INTEGERARRAYOID, fmod := -1 }],
    rows := [[{ isnull := false, value := [], length := 0, epoch := none,
                arr := some [.int 1, .int 2, .int 3] }]],
    params := [], cmdTuples := 0 }

/-- A codec table of identity `id` whose receive function is the function
`recv`. -/
def sampleCodec (id : Addr) (recv : Nat) : LuaValue :=
  .table id none [(.string LPQ_REGMT_RECV, .function recv)]

/-- A plan with two parameters, an `int4` and a `text`, as `lpq_getplan`
leaves it (the value and length tables hold what the memory held). -/
def samplePlan : lpq_Plan :=
  { conn := 0, name := cstr "p", n := 2, type := [INT4OID, TEXTOID], value := [11, 12],
    length := [13, 14], format := [1, 1], valid := true }

/-- A reply of libpq with two rows of one int4 field named "a". -/
def twoRows : PGresult :=
  { status := .PGRES_TUPLES_OK,
    fields := [{ name := cstr "a", ftype := INT4OID, fmod := -1 }],
    rows := [[{ isnull := false, value := [0, 0, 0, 7, 0], length := 4,
                epoch := none, arr := none }],
             [{ isnull := false, value := [0, 0, 0, 8, 0], length := 4,
                epoch := none, arr := none }]],
    params := [], cmdTuples := 0 }

/-- A connection, and a result set with two rows obtained from it. -/
def openWithTwoRows : lua_State :=
  run plainHost luaopen_psql
    [.connect [.string (cstr "dbname=x")] (some 77),
     .conn_exec [.handle .conn 0, .string (cstr "select")] (some twoRows) 50]

/-! ## The two ways to read a row -/

/-- The case labels of the switch of `lpq_pushvalue` whose code reads the value
again from the result with `PQgetf(result, rowindex, ..., field_number, ...)`:
the two timestamp types and the seven array types.  The other cases decode
the bytes at `value`. -/
def pushvalue_rereads : List Nat :=
  [TIMESTAMPOID, TIMESTAMPTZOID, INTEGERARRAYOID, BIGINTEGERARRAYOID, VARCHARARRAYOID,
    TIMESTAMPARRAYOID, TIMESTAMPTZARRAYOID, FLOAT8ARRAYOID, FLOAT4ARRAYOID]

/-- The iterator closure `fetch` returns, called again and again from Lua: the
values call `k + 1` returns, when the calls before it returned.  The upvalues
`up` are what a call leaves for the next one; `fresh` is where the tables of
a call get their identities from. -/
def fetch_nth (H : Host) (L : lua_State) (fresh : Addr) :
    Nat → List LuaValue → Except Fault (List LuaValue)
  | 0, up => (lpq_rset_fetchaux H L up fresh).map Prod.fst
  | k + 1, up =>
    match lpq_rset_fetchaux H L up fresh with
    | .error e => .error e
    | .ok (_, up1) => fetch_nth H L fresh k up1

/-- The Lua expression `rset[n][key]`: the result set is indexed by `n`, and
the row handle that comes back is indexed by `key` (`lpq_tuple__index` is its
`__index` metamethod).  A value that is no row handle, such as nil, cannot be
indexed. -/
def rset_row_field (H : Host) (L : lua_State) (rset : LuaValue) (n : Int) (key : LuaValue)
    (fresh : Addr) : Ret :=
  match lpq_rset__index H L [rset, .integer n] with
  | (.error e, L1) => (.error e, L1)
  | (.ok [.handle .tuple t], L1) => lpq_tuple__index H L1 [.handle .tuple t, key] fresh
  | (.ok _, L1) => (.error (.error "attempt to index a value that is no row"), L1)

/-- A reply of libpq with two rows of a `timestamp` field "t" and a
`varchar[]` field "a": the epochs 100 and 200, the arrays `x` and `y`. -/
def twoStamps : PGresult :=
  { status := .PGRES_TUPLES_OK,
    fields := [{ name := cstr "t", ftype := TIMESTAMPOID, fmod := -1 },
               { name := cstr "a", ftype := VARCHARARRAYOID, fmod := -1 }],
    rows := [[{ isnull := false, value := [], length := 8, epoch := some 100, arr := none },
              { isnull := false, value := [], length := 0, epoch := none,
                arr := some [.text [120, 0]] }],
             [{ isnull := false, value := [], length := 8, epoch := some 200, arr := none },
              { isnull := false, value := [], length := 0, epoch := none,
                arr := some [.text [121, 0]] }]],
    params := [], cmdTuples := 0 }

/-- A connection, and the result set of `twoStamps` obtained from it. -/
def openWithStamps : lua_State :=
  run plainHost luaopen_psql
    [.connect [.string (cstr "dbname=x")] (some 77),
     .conn_exec [.handle .conn 0, .string (cstr "select")] (some twoStamps) 50]

/-- What `lpq_rset_fetchaux` and `lpq_tuple__index` both do for field `f` of row
`i`: nil for a null field, else `lpq_pushvalue` on the payload of the field,
with `row` as the last argument but one (`rowindex`). -/
def push_field (H : Host) (L : lua_State) (res : PGresult) (i f row : Int) (fresh : Addr) :
    Except Fault LuaValue :=
  if PQgetisnull res i f then .ok .nil
  else lpq_pushvalue H L (PQftype res f) (PQfmod res f) (PQgetvalue res i f)
    (PQgetlength res i f) res f row fresh

/-- A connection, and the result set of `oneArray` (one row) obtained from
it. -/
def openWithArray : lua_State :=
  run plainHost luaopen_psql
    [.connect [.string (cstr "dbname=x")] (some 77),
     .conn_exec [.handle .conn 0, .string (cstr "select")] (some oneArray) 50]

/-! ## The stores of parameter binding -/

/-- The stores of the first loop of `lpq_setparams`, `k` rounds from index
`i`, as the loop makes them: a round whose `lpq_tovalue` returns stores
`length[i]`, a round that raises or faults ends the function.  The first
component is the buffer, on its side of the Lua stack, when the loop came to
its end. -/
def setparams_lengths_stores (H : Host) (L : lua_State) (args : List LuaValue)
    (type : List Nat) : Nat → Nat → Bytes → luaL_Buffer → Option luaL_Buffer × List Store
  | 0, _, _, B => (some B, [])
  | k + 1, i, buf, B =>
    match tovalue_stack H L (arg args (i + 2)) (type.getD i 0) B with
    | .error _ => (none, [])
    | .ok (B1, _) =>
      match lpq_tovalue H L (arg args (i + 2)) (type.getD i 0) buf with
      | .error _ => (none, [])
      | .ok (_, buf1) =>
        let rest := setparams_lengths_stores H L args type k (i + 1) buf1 B1
        (rest.1, .length i :: rest.2)

/-- The stores one call of `lpq_setparams` makes into the tables of the plan,
in order: those of the first loop; then, when that loop came to its end and
`luaL_pushresult` returned, `P->value[0] = lua_tostring(L, -1)`, which no
test guards, and the stores `value[i + 1]` of the second loop, `i` from 0
while `i < P->n - 1`. -/
def setparams_trace (H : Host) (L : lua_State) (P : lpq_Plan) (args : List LuaValue) :
    List Store :=
  match setparams_lengths_stores H L args P.type P.n.toNat 0 [] (luaL_buffinit H) with
  | (none, tr) => tr
  | (some B, tr) =>
    match luaL_pushresult B with
    | .error _ => tr
    | .ok _ => tr ++ [.value 0] ++ (List.range (P.n - 1).toNat).map (fun i => .value (i + 1))

/-- A store goes to a slot the table of the plan has. -/
def Store.inside (P : lpq_Plan) : Store → Bool
  | .value j => decide (j < P.value.length)
  | .length j => decide (j < P.length.length)

/-- A plan without parameters as `lpq_getplan` makes it: `n` is 0 and none of
the four tables has a slot. -/
def planWithoutParams (conn : Addr) (name : Bytes) (valid : Bool) : lpq_Plan :=
  { conn := conn, name := name, n := 0, type := [], value := [], length := [], format := [],
    valid := valid }

/-- A connection, and a plan "q" without parameters obtained from it by
`prepare`. -/
def openWithPlan0 : lua_State :=
  run plainHost luaopen_psql
    [.connect [.string (cstr "dbname=x")] (some 77),
     .conn_prepare [.handle .conn 0, .string (cstr "select 1"), .string (cstr "q")]
       (some (commandOk [])) (some (commandOk [])) 0 []]

/-! ## Parameter binding and the Lua stack -/

/-- A plan with two parameters, a `text` and an `interval`, as `lpq_getplan`
leaves it. -/
def textInterval : lpq_Plan :=
  { conn := 0, name := cstr "p", n := 2, type := [TEXTOID, INTERVALOID], value := [0, 0],
    length := [0, 0], format := [1, 1], valid := true }

/-- A plan with two parameters, a `text` and one of the registered type 21. -/
def textCodec : lpq_Plan :=
  { conn := 0, name := cstr "p", n := 2, type := [TEXTOID, 21], value := [0, 0],
    length := [0, 0], format := [1, 1], valid := true }

/-- A host whose function 7 (the `__send` function of `sampleEntry`) returns
the string `xyz` and, before it returns, calls back into the library and
executes the plan whose parameters are being bound, with a first argument of
99 bytes: that stores 99 into slot 0 of the length table. -/
def reenterHost : Host :=
  { plainHost with
    call := fun f _ => if f = 7 then some (.string [120, 121, 122]) else none
    reenter := fun f _ => if f = 7 then [(0, 99)] else [] }

/-! # Theorems -/

/-! ## Value codec -/

/-- Four bytes written by `lpq_senduint32` read back as the number sent. -/
theorem getuint32_senduint32 (n : Nat) (h : n < 4294967296) :
    lpq_getuint32 (lpq_senduint32 [] n) = some n := by
  simp only [lpq_senduint32, lpq_getuint32, List.nil_append]
  congr 1
  omega

/-- Conversion to `uint32` and back to `int` is the identity on the `int`
range. -/
theorem to_int32_to_uint32 (v : Int) (h1 : -2147483648 ≤ v) (h2 : v < 2147483648) :
    to_int32 (to_uint32 v) = v := by
  unfold to_int32 to_uint32
  omega

theorem to_uint32_lt (v : Int) : to_uint32 v < 4294967296 := by
  unfold to_uint32
  omega

/-- Booleans survive encoding under BOOLOID followed by decoding, and the
encoder emits one byte. -/
theorem bool_roundtrip (H : Host) (L : lua_State) (v : Bool) (mod : Int) (res : PGresult)
    (f row : Int) (fresh : Addr) :
    ∃ c, lpq_tovalue H L (.boolean v) BOOLOID [] = .ok (1, [c]) ∧
      lpq_pushvalue H L BOOLOID mod [c] 1 res f row fresh = .ok (.boolean v) := by
  cases v
  · exact ⟨0, by simp [lpq_tovalue, lua_toboolean, INTERVALOID, BOOLOID],
      by simp [lpq_pushvalue, BOOLOID]⟩
  · exact ⟨1, by simp [lpq_tovalue, lua_toboolean, INTERVALOID, BOOLOID],
      by simp [lpq_pushvalue, BOOLOID]⟩

/-- Integers of the `int` range survive encoding under INT4OID or OIDOID
followed by decoding under the same type id, and the encoder emits four
bytes. -/
theorem int4_roundtrip (H : Host) (L : lua_State) (type : Nat)
    (ht : type = INT4OID ∨ type = OIDOID) (v : Int)
    (h1 : -2147483648 ≤ v) (h2 : v < 2147483648) (mod : Int) (res : PGresult)
    (f row : Int) (fresh : Addr) :
    ∃ bs, lpq_tovalue H L (.integer v) type [] = .ok (4, bs) ∧ bs.length = 4 ∧
      lpq_pushvalue H L type mod bs 4 res f row fresh = .ok (.integer v) := by
  refine ⟨lpq_senduint32 [] (to_uint32 v), ?_, by simp [lpq_senduint32], ?_⟩
  · rcases ht with rfl | rfl <;>
      simp [lpq_tovalue, lua_tointeger, lua_cvt2num, INTERVALOID, BOOLOID, CHAROID, INT4OID,
        OIDOID]
  · have hg := getuint32_senduint32 (to_uint32 v) (to_uint32_lt v)
    have hr := to_int32_to_uint32 v h1 h2
    rcases ht with rfl | rfl <;>
      simp [lpq_pushvalue, hg, hr, BOOLOID, CHAROID, INT4OID, OIDOID, REGCLASSOID]

/-- C7 (the defect): the encoder has no case for INT8OID.  Under that type id
the integer 1 takes the default path, which, with no entry registered for the
type, appends nothing and returns length 0, where the claim has eight bytes
that decode to 1; the decoder, given those zero bytes, has nothing to read. -/
theorem int8_encode_appends_nothing :
    lpq_tovalue plainHost luaopen_psql (.integer 1) INT8OID [] = .ok (0, []) ∧
      lpq_pushvalue plainHost luaopen_psql INT8OID (-1) [] 0 oneRow 0 0 0 = .error .undefined ∧
      lpq_pushvalue plainHost luaopen_psql INT8OID (-1) [0, 0, 0, 0, 0, 0, 0, 1] 8 oneRow 0 0 0
        = .ok (.integer 1) := by
  refine ⟨rfl, rfl, rfl⟩

/-- For every integer and every buffer, encoding under INT8OID with no entry
registered for that type id appends nothing and returns 0. -/
theorem int8_encode_default (H : Host) (L : lua_State) (v : Int) (b : Bytes)
    (h : lpq_gettypemt L INT8OID = none) :
    lpq_tovalue H L (.integer v) INT8OID b = .ok (0, b) := by
  have h20 : lpq_gettypemt L 20 = none := h
  simp [lpq_tovalue, h20, tovalue_default, tovalue_raw, lua_touserdata, h, INT8OID, INTERVALOID,
    BOOLOID, CHAROID, INT4OID, OIDOID, FLOAT4OID, FLOAT8OID, BYTEAOID, TEXTOID, BPCHAROID,
    NAMEOID, VARCHAROID]

/-- C8 (the defect): with declared width 5 (modifier 9) and the payload "ab"
followed in memory by a zero byte and two more bytes, the decoder returns the
five bytes at the pointer, not "ab" and three spaces; with three readable
bytes only, the read runs past them.  With declared width 1 (modifier 5) and
the payload "ab" it returns "a" and one space. -/
theorem bpchar_short_payload_not_padded :
    lpq_pushvalue plainHost luaopen_psql BPCHAROID 9 [97, 98, 0, 120, 121] 2 oneRow 0 0 0
        = .ok (.string [97, 98, 0, 120, 121]) ∧
      lpq_pushvalue plainHost luaopen_psql BPCHAROID 9 [97, 98, 0] 2 oneRow 0 0 0
        = .error .undefined ∧
      lpq_pushvalue plainHost luaopen_psql BPCHAROID 5 [97, 98, 0] 2 oneRow 0 0 0
        = .ok (.string [97, 32]) := by
  refine ⟨rfl, rfl, rfl⟩

/-- For a payload shorter than the declared width the decoder never pads: it
returns the bytes at the pointer up to the declared width, or runs past the
readable memory. -/
theorem bpchar_short_payload_general (mod : Int) (value : Bytes) (length : Int)
    (h0 : 0 ≤ length) (hw : length < mod - VARHDRSZ) :
    pushvalue_bpchar mod value length =
      if (mod - VARHDRSZ).toNat ≤ value.length then
        .ok (.string (value.take (mod - VARHDRSZ).toNat))
      else .error .undefined := by
  have h1 : ¬ (mod - VARHDRSZ < 0) := by omega
  have h2 : ¬ (length > mod - VARHDRSZ) := by omega
  have h3 : ¬ (mod - VARHDRSZ < -2147483648) := by omega
  unfold pushvalue_bpchar pushlstring
  simp only [h1, h3, if_false]
  by_cases hc : (mod - VARHDRSZ).toNat ≤ value.length
  · simp only [hc, if_true, h2, if_false]
  · simp only [hc, if_false]

/-- The subtraction of the header size from the modifier overflows `int` for
the four modifiers from `INT_MIN` to `INT_MIN + 3`: the decoding of the
fixed-length character type is undefined there. -/
theorem bpchar_modifier_overflow (H : Host) (L : lua_State) (payload : Bytes) (res : PGresult)
    (f row : Int) (fresh : Addr) :
    lpq_pushvalue H L BPCHAROID (-2147483648) payload payload.length res f row fresh
        = .error .undefined ∧
      lpq_pushvalue H L BPCHAROID (-2147483645) payload payload.length res f row fresh
        = .error .undefined :=
  ⟨rfl, rfl⟩

/-- C9: when the modifier minus the header size is negative, the subtraction
being one the type `int` can hold (`INT_MIN + 4 ≤ mod`), decoding the
fixed-length character type returns exactly the raw payload, whatever follows
it in memory: same bytes, same length, no padding. -/
theorem bpchar_unset_modifier (H : Host) (L : lua_State) (mod : Int) (payload rest : Bytes)
    (res : PGresult) (f row : Int) (fresh : Addr) (h : mod - VARHDRSZ < 0)
    (hint : -2147483648 + VARHDRSZ ≤ mod) :
    lpq_pushvalue H L BPCHAROID mod (payload ++ rest) payload.length res f row fresh
      = .ok (.string payload) := by
  have h3 : ¬ (mod - VARHDRSZ < -2147483648) := by
    simp only [VARHDRSZ] at hint ⊢
    omega
  simp [lpq_pushvalue, pushvalue_bpchar, pushlstring, h, h3, BPCHAROID, BOOLOID, CHAROID, INT4OID,
    REGCLASSOID, OIDOID, INT8OID, FLOAT4OID, FLOAT8OID, TIMESTAMPOID, TIMESTAMPTZOID, BYTEAOID,
    TEXTOID, VARCHAROID, JSONOID, NAMEOID, INTEGERARRAYOID, BIGINTEGERARRAYOID, VARCHARARRAYOID,
    TIMESTAMPARRAYOID, TIMESTAMPTZARRAYOID, FLOAT8ARRAYOID, FLOAT4ARRAYOID]

theorem bpchar_unset_modifier_witness :
    lpq_pushvalue plainHost luaopen_psql BPCHAROID (-1) ([97, 98] ++ [0]) 2 oneRow 0 0 0
      = .ok (.string [97, 98]) :=
  bpchar_unset_modifier plainHost luaopen_psql (-1) [97, 98] [0] oneRow 0 0 0 (by decide)
    (by decide)

/-- C10 as stated fails: type id 21 has a registered entry with a send
function, the value is a userdata whose metatable (600) is not that entry
(500), and encoding it under 21 raises no error: it appends the four bytes of
the userdata block and returns 4. -/
theorem foreign_userdata_is_serialized :
    lpq_gettypemt sampleRegistry 21 = some sampleRegistered ∧
      lua_getfield plainHost sampleRegistered LPQ_REGMT_SEND = .ok (.function 7) ∧
      mtIs (lua_getmetatable plainHost (.userdata (some 600) [1, 2, 3, 4])) sampleRegistered
        = false ∧
      lpq_tovalue plainHost sampleRegistry (.userdata (some 600) [1, 2, 3, 4]) 21 []
        = .ok (4, [1, 2, 3, 4]) := by
  refine ⟨rfl, rfl, rfl, rfl⟩

/-- C10 amended: for a type id outside the encoder's own cases whose registry
entry has a send function, a value whose metatable is not that entry is not
handed to the send function and no error is raised; the value takes the last
resort of the encoder: the block of a userdata is appended as it is and its
size returned, and for a value that is no userdata nothing is appended and 0
is returned. -/
theorem tovalue_foreign_value (H : Host) (L : lua_State) (type : Nat) (entry : LuaValue)
    (fn : Nat) (v : LuaValue) (b : Bytes)
    (hB : type ∉ tovalue_builtin)
    (he : lpq_gettypemt L type = some entry)
    (hs : lua_getfield H entry LPQ_REGMT_SEND = .ok (.function fn))
    (hm : mtIs (lua_getmetatable H v) entry = false) :
    lpq_tovalue H L v type b =
      .ok (match lua_touserdata H v with
        | some s => ((s.length : Int), b ++ s)
        | none => (0, b)) := by
  simp only [tovalue_builtin, List.mem_cons, List.mem_singleton, not_or, List.not_mem_nil,
    or_false] at hB
  obtain ⟨h1, h2, h3, h4, h5, h6, h7, h8, h9, h10, h11, h12⟩ := hB
  simp [lpq_tovalue, tovalue_default, tovalue_raw, funcid, he, hs, hm, h1, h2, h3, h4, h5, h6, h7,
    h8, h9, h10, h11, h12]

theorem tovalue_foreign_value_witness :
    lpq_tovalue plainHost sampleRegistry (.userdata (some 600) [1, 2, 3, 4]) 21 []
        = .ok (match lua_touserdata plainHost (.userdata (some 600) [1, 2, 3, 4]) with
          | some s => ((s.length : Int), [] ++ s)
          | none => (0, [])) ∧
      lpq_tovalue plainHost sampleRegistry (.integer 5) 21 [9]
        = .ok (match lua_touserdata plainHost (.integer 5) with
          | some s => ((s.length : Int), [9] ++ s)
          | none => (0, [9])) :=
  ⟨tovalue_foreign_value plainHost sampleRegistry 21 sampleRegistered 7
      (.userdata (some 600) [1, 2, 3, 4]) [] (by decide) rfl rfl rfl,
    tovalue_foreign_value plainHost sampleRegistry 21 sampleRegistered 7
      (.integer 5) [9] (by decide) rfl rfl rfl⟩

/-! ## Resource graph : the guards -/

/-- C1 (the defect): a connection is opened and a plan is made from it by
`getplan`, which records the plan in the uservalue table of the connection
(key: the plan as light userdata, value: its name).  Finishing the connection,
by `finish` or by the finaliser, sets `done` and calls `PQfinish`, and leaves
the `valid` flag of the plan on: the loop takes the value of each entry, the
name, as the plan pointer, and `lua_touserdata` of a string is NULL. -/
theorem finish_leaves_plan_valid :
    openWithPlan.conns.map (fun C => (C.done, rawget C.env (.lightuserdata 0)))
        = [(false, .string (cstr "p"))] ∧
      openWithPlan.plans.map (fun P => (P.conn, P.valid)) = [(0, true)] ∧
      (lpq_conn_finish openWithPlan [.handle .conn 0]).1 = .ok [] ∧
      (lpq_conn_finish openWithPlan [.handle .conn 0]).2.conns.map (fun C => C.done) = [true] ∧
      (lpq_conn_finish openWithPlan [.handle .conn 0]).2.plans.map (fun P => P.valid) = [true] ∧
      (lpq_conn__gc openWithPlan [.handle .conn 0]).1 = .ok [] ∧
      (lpq_conn__gc openWithPlan [.handle .conn 0]).2.conns.map (fun C => C.done) = [true] ∧
      (lpq_conn__gc openWithPlan [.handle .conn 0]).2.plans.map (fun P => P.valid) = [true] := by
  refine ⟨rfl, rfl, rfl, rfl, rfl, rfl, rfl, rfl⟩

/-- The loop of `lpq_finishconn` changes nothing when the values of the table
are strings, as `lpq_getplan` stores them. -/
theorem finishconn_loop_strings (L : lua_State) (es : List (LuaValue × LuaValue))
    (h : ∀ e ∈ es, ∃ s, e.2 = .string s) : finishconn_loop L es = .ok L := by
  induction es with
  | nil => rfl
  | cons e es ih =>
    obtain ⟨k, v⟩ := e
    obtain ⟨s, hs⟩ := h (k, v) (List.mem_cons_self _ _)
    simp only at hs
    subst hs
    simp only [finishconn_loop]
    exact ih (fun e he => h e (List.mem_cons_of_mem _ he))

/-- C2 as stated fails: in `releasedRow` the tuple of row 1 has its flag off
(its result set was released by its finaliser; the userdata of the result set
is still there), and both `row[name]` and the length of the row return nil
without an error. -/
theorem invalid_row_reads_nil :
    releasedRow.tuples.map (fun T => T.valid) = [false] ∧
      (lpq_tuple__index plainHost releasedRow [.handle .tuple 0, .string (cstr "a")] 9).1
        = .ok [.nil] ∧
      (lpq_tuple__len releasedRow [.handle .tuple 0]).1 = .ok [.nil] := by
  refine ⟨rfl, rfl, rfl⟩

/-- C2 amended: for every tuple whose `valid` flag is off, taking the length
of the row returns nil, and reading a field of the row (any key) returns nil
as long as the result set userdata the tuple points to is still there; no
error is raised, no value is decoded and the state is unchanged.  When that
userdata is not there any more, reading a field reads freed memory, before
the flag is looked at. -/
theorem invalid_row_returns_nil (H : Host) (L : lua_State) (t : Addr) (T : lpq_Tuple)
    (key : LuaValue) (fresh : Addr)
    (hT : L.tuples[t]? = some T) (hv : T.valid = false) :
    (∀ R : lpq_Rset, L.rsets[T.rset]? = some R →
        lpq_tuple__index H L [.handle .tuple t, key] fresh = (.ok [.nil], L)) ∧
      lpq_tuple__len L [.handle .tuple t] = (.ok [.nil], L) ∧
      (L.rsets[T.rset]? = none →
        lpq_tuple__index H L [.handle .tuple t, key] fresh = (.error .undefined, L)) := by
  refine ⟨?_, ?_, ?_⟩
  · intro R hR
    simp [lpq_tuple__index, arg, hT, hv, hR]
  · simp [lpq_tuple__len, arg, hT, hv]
  · intro hR
    simp [lpq_tuple__index, arg, hT, hR]

theorem invalid_row_returns_nil_witness :
    lpq_tuple__index plainHost releasedRow [.handle .tuple 0, .string (cstr "a")] 9
        = (.ok [.nil], releasedRow) ∧
      lpq_tuple__len releasedRow [.handle .tuple 0] = (.ok [.nil], releasedRow) ∧
      lpq_tuple__index plainHost { releasedRow with rsets := [] }
          [.handle .tuple 0, .string (cstr "a")] 9
        = (.error .undefined, { releasedRow with rsets := [] }) :=
  ⟨(invalid_row_returns_nil plainHost releasedRow 0
      { rset := 0, row := 0, valid := false,
        env := .table 50 none [(.string (cstr "a"), .integer 0)] }
      (.string (cstr "a")) 9 rfl rfl).1 _ rfl,
    (invalid_row_returns_nil plainHost releasedRow 0
      { rset := 0, row := 0, valid := false,
        env := .table 50 none [(.string (cstr "a"), .integer 0)] }
      (.string (cstr "a")) 9 rfl rfl).2.1,
    (invalid_row_returns_nil plainHost { releasedRow with rsets := [] } 0
      { rset := 0, row := 0, valid := false,
        env := .table 50 none [(.string (cstr "a"), .integer 0)] }
      (.string (cstr "a")) 9 rfl rfl).2.2 rfl⟩

/-- C4: on a connection whose `done` flag is set, every method that goes
through `lpq_checkconn` raises "connection is finished" and leaves the state,
the log of libpq calls included, as it was; on a plan whose `valid` flag is
off, `exec` and `query` raise "referenced connection is finished" and leave
the state as it was: no parameter is bound, no libpq call is made. -/
theorem finished_handles_fail_fast (H : Host) (L : lua_State) :
    (∀ (p : Addr) (C : lpq_Conn) (rest : List LuaValue),
      L.conns[p]? = some C → C.done = true →
      (∀ reply fresh, lpq_conn_exec H L (.handle .conn p :: rest) reply fresh
          = (.error (.error "connection is finished"), L)) ∧
      (∀ status errmsg, lpq_conn_query H L (.handle .conn p :: rest) status errmsg
          = (.error (.error "connection is finished"), L)) ∧
      (∀ reply reply2 junk errmsg,
          lpq_conn_prepare H L (.handle .conn p :: rest) reply reply2 junk errmsg
          = (.error (.error "connection is finished"), L)) ∧
      (∀ reply junk errmsg, lpq_conn_getplan H L (.handle .conn p :: rest) reply junk errmsg
          = (.error (.error "connection is finished"), L)) ∧
      (∀ reply, lpq_conn_status L (.handle .conn p :: rest) reply
          = (.error (.error "connection is finished"), L)) ∧
      (∀ reply, lpq_conn_poll L (.handle .conn p :: rest) reply
          = (.error (.error "connection is finished"), L)) ∧
      (∀ reply, lpq_conn_escape H L (.handle .conn p :: rest) reply
          = (.error (.error "connection is finished"), L)) ∧
      (∀ status errmsg, lpq_conn_consume L (.handle .conn p :: rest) status errmsg
          = (.error (.error "connection is finished"), L)) ∧
      (∀ reply fresh, lpq_conn_getresult L (.handle .conn p :: rest) reply fresh
          = (.error (.error "connection is finished"), L)) ∧
      (∀ fn reply, lpq_conn_method fn L (.handle .conn p :: rest) reply
          = (.error (.error "connection is finished"), L)) ∧
      lpq_conn_finish L (.handle .conn p :: rest)
          = (.error (.error "connection is finished"), L)) ∧
    (∀ (q : Addr) (P : lpq_Plan) (params : List LuaValue),
      L.plans[q]? = some P → P.valid = false →
      (∀ reply fresh, lpq_plan_exec H L (.handle .plan q :: params) reply fresh
          = (.error (.error "referenced connection is finished"), L)) ∧
      (∀ status errmsg, lpq_plan_query H L (.handle .plan q :: params) status errmsg
          = (.error (.error "referenced connection is finished"), L))) := by
  constructor
  · intro p C rest hC hd
    have hck : lpq_checkconn L (arg (.handle .conn p :: rest) 1)
        = .error (.error "connection is finished") := by
      simp [lpq_checkconn, arg, hC, hd]
    refine ⟨?_, ?_, ?_, ?_, ?_, ?_, ?_, ?_, ?_, ?_, ?_⟩
    · intro reply fresh; simp only [lpq_conn_exec, hck]
    · intro status errmsg; simp only [lpq_conn_query, hck]
    · intro reply reply2 junk errmsg; simp only [lpq_conn_prepare, hck]
    · intro reply junk errmsg; simp only [lpq_conn_getplan, hck]
    · intro reply; simp only [lpq_conn_status, lpq_conn_method, hck]
    · intro reply; simp only [lpq_conn_poll, lpq_conn_method, hck]
    · intro reply; simp only [lpq_conn_escape, hck]
    · intro status errmsg; simp only [lpq_conn_consume, hck]
    · intro reply fresh; simp only [lpq_conn_getresult, hck]
    · intro fn reply; simp only [lpq_conn_method, hck]
    · simp only [lpq_conn_finish, hck]
  · intro q P params hP hv
    have hck : lpq_checkplan L (arg (.handle .plan q :: params) 1)
        = .error (.error "referenced connection is finished") := by
      simp [lpq_checkplan, arg, hP, hv]
    constructor
    · intro reply fresh; simp only [lpq_plan_exec, hck]
    · intro status errmsg; simp only [lpq_plan_query, hck]

theorem finished_handles_fail_fast_witness :
    lpq_conn_exec plainHost finishedConn [.handle .conn 0, .string (cstr "select 7")]
        (some oneRow) 50 = (.error (.error "connection is finished"), finishedConn) ∧
      lpq_plan_exec plainHost stalePlan [.handle .plan 0, .integer 5] (some oneRow) 50
        = (.error (.error "referenced connection is finished"), stalePlan) :=
  ⟨((finished_handles_fail_fast plainHost finishedConn).1 0
      { conn := 77, done := true, env := [] } [.string (cstr "select 7")] rfl rfl).1
        (some oneRow) 50,
    ((finished_handles_fail_fast plainHost stalePlan).2 0
      { conn := 0, name := cstr "p", n := 1, type := [23], value := [0], length := [0],
        format := [1], valid := false } [.integer 5] rfl rfl).1 (some oneRow) 50⟩

/-! ## Lists and tables -/

theorem ListMono.mono_refl {α : Type} (f : α → Bool) (xs : List α) : ListMono f xs xs :=
  fun _ x h => ⟨x, h, id⟩

theorem ListMono.mono_trans {α : Type} {f : α → Bool} {xs ys zs : List α}
    (h1 : ListMono f xs ys) (h2 : ListMono f ys zs) : ListMono f xs zs := by
  intro i x hx
  obtain ⟨y, hy, hxy⟩ := h1 i x hx
  obtain ⟨z, hz, hyz⟩ := h2 i y hy
  exact ⟨z, hz, fun h => hyz (hxy h)⟩

theorem ListMono.mono_append {α : Type} (f : α → Bool) (xs zs : List α) :
    ListMono f xs (xs ++ zs) := by
  intro i x hx
  have hlt : i < xs.length := (List.getElem?_eq_some.1 hx).1
  exact ⟨x, by rw [List.getElem?_append_left hlt]; exact hx, id⟩

theorem ListMono.set {α : Type} (f : α → Bool) (xs : List α) (j : Nat) (a y : α)
    (ha : xs[j]? = some a) (hf : f a = true → f y = true) : ListMono f xs (xs.set j y) := by
  intro i x hx
  have hlt : j < xs.length := (List.getElem?_eq_some.1 ha).1
  by_cases hij : j = i
  · subst hij
    refine ⟨y, by rw [List.getElem?_set]; simp [hlt], ?_⟩
    rw [ha] at hx
    cases hx
    exact hf
  · exact ⟨x, by rw [List.getElem?_set_ne hij]; exact hx, id⟩

theorem ListMono.mono_length_le {α : Type} {f : α → Bool} {xs ys : List α}
    (h : ListMono f xs ys) : xs.length ≤ ys.length := by
  by_contra hc
  have hlt : ys.length < xs.length := Nat.lt_of_not_le hc
  obtain ⟨x, hx⟩ : ∃ x, xs[ys.length]? = some x :=
    ⟨xs[ys.length], List.getElem?_eq_some.2 ⟨hlt, rfl⟩⟩
  obtain ⟨y, hy, _⟩ := h _ x hx
  have := (List.getElem?_eq_some.1 hy).1
  omega

theorem Keeps.keeps_refl {α : Type} (xs : List α) : Keeps xs xs := fun _ _ h => h

theorem Keeps.keeps_trans {α : Type} {xs ys zs : List α} (h1 : Keeps xs ys) (h2 : Keeps ys zs) :
    Keeps xs zs := fun i x h => h2 i x (h1 i x h)

theorem Keeps.keeps_append {α : Type} (xs zs : List α) : Keeps xs (xs ++ zs) := by
  intro i x hx
  have hlt : i < xs.length := (List.getElem?_eq_some.1 hx).1
  rw [List.getElem?_append_left hlt]
  exact hx

theorem Keeps.keeps_length_le {α : Type} {xs ys : List α} (h : Keeps xs ys) :
    xs.length ≤ ys.length := by
  by_contra hc
  have hlt : ys.length < xs.length := Nat.lt_of_not_le hc
  have hy := h _ _ (List.getElem?_eq_some.2 ⟨hlt, rfl⟩)
  have := (List.getElem?_eq_some.1 hy).1
  omega

/-- Raw equality with an integer key holds for that integer key only. -/
theorem keyeq_integer {k : LuaValue} {n : Int} (h : keyeq k (.integer n) = true) :
    k = .integer n := by
  cases k <;> simp [keyeq] at h
  rw [h]

/-- An entry found by `rawget` is an entry of the table. -/
theorem rawget_mem {t : List (LuaValue × LuaValue)} {n : Int} {v : LuaValue}
    (h : rawget t (.integer n) = v) (hv : v ≠ .nil) : (.integer n, v) ∈ t := by
  unfold rawget at h
  split at h
  · rename_i e he
    have hp := List.find?_some he
    simp only at hp
    have hk := keyeq_integer hp
    have hm := List.mem_of_find?_eq_some he
    have : e = (.integer n, v) := by
      cases e
      simp only at hk h
      rw [hk, h]
    rw [← this]
    exact hm
  · exact absurd h.symm hv

/-- An entry of a table after `rawset` at an integer key is an old entry or
the new one. -/
theorem mem_rawset {t : List (LuaValue × LuaValue)} {n : Int} {v : LuaValue}
    {e : LuaValue × LuaValue} (h : e ∈ rawset t (.integer n) v) :
    e ∈ t ∨ e = (.integer n, v) := by
  unfold rawset at h
  split at h
  · rw [List.mem_map] at h
    obtain ⟨e0, he0, hmap⟩ := h
    by_cases hk : keyeq e0.1 (.integer n) = true
    · rw [if_pos hk] at hmap
      right
      rw [← hmap, keyeq_integer hk]
    · rw [if_neg hk] at hmap
      left
      rw [← hmap]
      exact he0
  · rw [List.mem_append, List.mem_singleton] at h
    exact h

/-- What `rawget` finds in a table whose entries of key `k` were overwritten
with `v`. -/
theorem rawget_map (t : List (LuaValue × LuaValue)) (k k2 v : LuaValue) :
    rawget (t.map (fun e => if keyeq e.1 k then (e.1, v) else e)) k2 =
      match t.find? (fun e => keyeq e.1 k2) with
      | some e => if keyeq e.1 k then v else e.2
      | none => .nil := by
  induction t with
  | nil => rfl
  | cons e t ih =>
    have hfst : (if keyeq e.1 k = true then (e.1, v) else e).1 = e.1 := by
      split <;> rfl
    unfold rawget at ih ⊢
    rw [List.map_cons, List.find?_cons, List.find?_cons, hfst]
    cases hk2 : keyeq e.1 k2
    · exact ih
    · simp only
      split <;> rfl

/-- After `rawset` at the integer key `n`, `rawget` at `n` finds the value. -/
theorem rawget_rawset_self (t : List (LuaValue × LuaValue)) (n : Int) (v : LuaValue) :
    rawget (rawset t (.integer n) v) (.integer n) = v := by
  unfold rawset
  split
  · rename_i hany
    rw [rawget_map]
    obtain ⟨x, hx, hkx⟩ := List.any_eq_true.1 hany
    cases hf : t.find? (fun e => keyeq e.1 (.integer n)) with
    | none =>
      rw [List.find?_eq_none] at hf
      exact absurd hkx (hf x hx)
    | some e =>
      have hp := List.find?_some hf
      simp only at hp
      simp only [hp, if_true]
  · rename_i hany
    have hnone : t.find? (fun e => keyeq e.1 (.integer n)) = none := by
      rw [List.find?_eq_none]
      intro x hx hkx
      exact hany (List.any_eq_true.2 ⟨x, hx, hkx⟩)
    unfold rawget
    rw [List.find?_append, hnone]
    simp [List.find?, keyeq]

/-- After `rawset` at the integer key `n`, `rawget` at another integer key
finds what it found before. -/
theorem rawget_rawset_ne (t : List (LuaValue × LuaValue)) (n m : Int) (v : LuaValue)
    (hne : m ≠ n) : rawget (rawset t (.integer n) v) (.integer m) = rawget t (.integer m) := by
  unfold rawset
  split
  · rw [rawget_map]
    unfold rawget
    cases hf : t.find? (fun e => keyeq e.1 (.integer m)) with
    | none => rfl
    | some e =>
      have hp := List.find?_some hf
      simp only at hp
      have hk : keyeq e.1 (.integer n) = false := by
        rw [keyeq_integer hp]
        simp [keyeq, hne]
      simp only [hk]
      rfl
  · have hk : keyeq (.integer n) (.integer m) = false := by simp [keyeq, Ne.symm hne]
    unfold rawget
    rw [List.find?_append]
    cases t.find? (fun e => keyeq e.1 (.integer m)) with
    | none => simp [List.find?, hk]
    | some e => rfl

/-! ## Every call keeps the frame -/

theorem Decays.decays_refl (L : lua_State) : Decays L L :=
  ⟨ListMono.mono_refl _ _, ListMono.mono_refl _ _, ListMono.mono_refl _ _⟩

theorem Decays.decays_trans {L L2 L3 : lua_State} (h1 : Decays L L2) (h2 : Decays L2 L3) :
    Decays L L3 :=
  ⟨h1.plans.mono_trans h2.plans, h1.tuples.mono_trans h2.tuples, h1.conns.mono_trans h2.conns⟩

/-- A call that leaves all stores but the log as they were keeps the frame. -/
theorem Frame.of_eq {L L2 : lua_State} (hp : L2.plans = L.plans) (ht : L2.tuples = L.tuples)
    (hc : L2.conns = L.conns) (hr : L2.rsets = L.rsets) (hres : L2.results = L.results) :
    Frame L L2 :=
  ⟨⟨by rw [hp]; exact ListMono.mono_refl _ _, by rw [ht]; exact ListMono.mono_refl _ _,
      by rw [hc]; exact ListMono.mono_refl _ _⟩,
    .same hr (by rw [hres]; exact Keeps.keeps_refl _)⟩

theorem Frame.of_state_eq {L L2 : lua_State} (h : L2 = L) : Frame L L2 := by
  subst h
  exact Frame.of_eq rfl rfl rfl rfl rfl

/-- The loop of `lpq_finishconn` touches the plans only, and turns flags off
only. -/
theorem finishconn_loop_frame (es : List (LuaValue × LuaValue)) :
    ∀ (L L2 : lua_State), finishconn_loop L es = .ok L2 →
      L2.tuples = L.tuples ∧ L2.conns = L.conns ∧ L2.rsets = L.rsets ∧
        L2.results = L.results ∧ L2.pq = L.pq ∧
        ListMono (fun P => !P.valid) L.plans L2.plans := by
  induction es with
  | nil =>
    intro L L2 h
    simp only [finishconn_loop, Except.ok.injEq] at h
    subst h
    exact ⟨rfl, rfl, rfl, rfl, rfl, ListMono.mono_refl _ _⟩
  | cons e es ih =>
    intro L L2 h
    obtain ⟨k, v⟩ := e
    have hmark : ∀ q, (match L.plans[q]? with
          | some (P : lpq_Plan) => finishconn_loop { L with plans := L.plans.set q { P with valid := false } } es
          | none => .error .undefined) = .ok L2 →
        L2.tuples = L.tuples ∧ L2.conns = L.conns ∧ L2.rsets = L.rsets ∧
          L2.results = L.results ∧ L2.pq = L.pq ∧
          ListMono (fun P => !P.valid) L.plans L2.plans := by
      intro q hq
      split at hq
      · rename_i P hP
        obtain ⟨h1, h2, h3, h4, h5, h6⟩ := ih _ _ hq
        exact ⟨h1, h2, h3, h4, h5,
          (ListMono.set _ L.plans q P _ hP (fun _ => rfl)).mono_trans h6⟩
      · cases hq
    cases v with
    | handle kd q =>
      cases kd with
      | plan => exact hmark q (by simpa only [finishconn_loop] using h)
      | conn => simp only [finishconn_loop] at h; cases h
      | rset => simp only [finishconn_loop] at h; cases h
      | tuple => simp only [finishconn_loop] at h; cases h
    | lightuserdata q => exact hmark q (by simpa only [finishconn_loop] using h)
    | userdata mt blk => simp only [finishconn_loop] at h; cases h
    | nil => exact ih _ _ (by simpa only [finishconn_loop] using h)
    | boolean b => exact ih _ _ (by simpa only [finishconn_loop] using h)
    | integer i => exact ih _ _ (by simpa only [finishconn_loop] using h)
    | float b => exact ih _ _ (by simpa only [finishconn_loop] using h)
    | string b => exact ih _ _ (by simpa only [finishconn_loop] using h)
    | table a b c => exact ih _ _ (by simpa only [finishconn_loop] using h)
    | function f => exact ih _ _ (by simpa only [finishconn_loop] using h)
    | closure f up => exact ih _ _ (by simpa only [finishconn_loop] using h)

/-- The loop of `lpq_rset__gc` touches the tuples only, and turns flags off
only. -/
theorem rset__gc_loop_frame (H : Host) (es : List (LuaValue × LuaValue)) :
    ∀ (L L2 : lua_State), rset__gc_loop H L es = .ok L2 →
      L2.plans = L.plans ∧ L2.conns = L.conns ∧ L2.rsets = L.rsets ∧
        L2.results = L.results ∧ L2.pq = L.pq ∧ L2.tuples.length = L.tuples.length ∧
        ListMono (fun T => !T.valid) L.tuples L2.tuples := by
  induction es with
  | nil =>
    intro L L2 h
    simp only [rset__gc_loop, Except.ok.injEq] at h
    subst h
    exact ⟨rfl, rfl, rfl, rfl, rfl, rfl, ListMono.mono_refl _ _⟩
  | cons e es ih =>
    intro L L2 h
    obtain ⟨k, v⟩ := e
    simp only [rset__gc_loop] at h
    split at h
    · split at h
      · split at h
        · rename_i t _ T hT
          obtain ⟨h1, h2, h3, h4, h5, h6, h7⟩ := ih _ _ h
          refine ⟨h1, h2, h3, h4, h5, ?_, ?_⟩
          · rw [h6]
            exact List.length_set _ _ _
          · exact (ListMono.set _ L.tuples t T _ hT (fun _ => rfl)).mono_trans h7
        · cases h
      · cases h
    · exact ih _ _ h

theorem lpq_checkconn_ok {L : lua_State} {v : LuaValue} {p : Addr} {C : lpq_Conn}
    (h : lpq_checkconn L v = .ok (p, C)) :
    v = .handle .conn p ∧ L.conns[p]? = some C ∧ C.done = false := by
  unfold lpq_checkconn at h
  split at h
  · split at h
    · split at h
      · cases h
      · rename_i hd
        simp only [Except.ok.injEq, Prod.mk.injEq] at h
        obtain ⟨h1, h2⟩ := h
        subst h1 h2
        rename_i hC
        exact ⟨rfl, hC, by simpa using hd⟩
    · cases h
  · cases h

theorem lpq_checkplan_ok {L : lua_State} {v : LuaValue} {q : Addr} {P : lpq_Plan}
    (h : lpq_checkplan L v = .ok (q, P)) :
    v = .handle .plan q ∧ L.plans[q]? = some P ∧ P.valid = true := by
  unfold lpq_checkplan at h
  split at h
  · split at h
    · split at h
      · cases h
      · rename_i hd
        simp only [Except.ok.injEq, Prod.mk.injEq] at h
        obtain ⟨h1, h2⟩ := h
        subst h1 h2
        rename_i hP
        exact ⟨rfl, hP, by simpa using hd⟩
    · cases h
  · cases h

theorem lpq_pushconnection_frame (L0 L : lua_State) (conn : Option Addr)
    (hp : L.plans = L0.plans) (ht : L.tuples = L0.tuples) (hc : L.conns = L0.conns)
    (hr : L.rsets = L0.rsets) (hres : L.results = L0.results) :
    Frame L0 (lpq_pushconnection L conn).2 := by
  unfold lpq_pushconnection
  split
  · exact Frame.of_eq hp ht hc hr hres
  · refine ⟨⟨?_, ?_, ?_⟩, .same hr ?_⟩
    · show ListMono _ L0.plans L.plans
      rw [hp]; exact ListMono.mono_refl _ _
    · show ListMono _ L0.tuples L.tuples
      rw [ht]; exact ListMono.mono_refl _ _
    · show ListMono _ L0.conns (L.conns ++ _)
      rw [hc]; exact ListMono.mono_append _ _ _
    · show Keeps L0.results L.results
      rw [hres]; exact Keeps.keeps_refl _

theorem lpq_connect_frame (H : Host) (L : lua_State) (args : List LuaValue)
    (reply : Option Addr) : Frame L (lpq_connect H L args reply).2 := by
  unfold lpq_connect
  split
  · exact Frame.of_eq rfl rfl rfl rfl rfl
  · exact lpq_pushconnection_frame _ _ _ rfl rfl rfl rfl rfl

theorem lpq_start_frame (H : Host) (L : lua_State) (args : List LuaValue)
    (reply : Option Addr) : Frame L (lpq_start H L args reply).2 := by
  unfold lpq_start
  split
  · exact Frame.of_eq rfl rfl rfl rfl rfl
  · exact lpq_pushconnection_frame _ _ _ rfl rfl rfl rfl rfl

theorem lpq_register_frame (H : Host) (L : lua_State) (args : List LuaValue) (fresh : Addr) :
    Frame L (lpq_register H L args fresh).2 := by
  unfold lpq_register
  split
  · exact Frame.of_eq rfl rfl rfl rfl rfl
  · dsimp only
    split <;> exact Frame.of_eq rfl rfl rfl rfl rfl

theorem lpq_finishconn_frame (L L2 : lua_State) (p : Addr) (args : List LuaValue)
    (h : lpq_finishconn L p args = .ok L2) : Frame L L2 := by
  unfold lpq_finishconn at h
  split at h
  · cases h
  · rename_i C hC
    split at h
    · dsimp only at h
      split at h
      · cases h
      · split at h
        · cases h
        · rename_i L1 hloop
          simp only [Except.ok.injEq] at h
          subst h
          obtain ⟨h1, h2, h3, h4, _, h6⟩ := finishconn_loop_frame _ _ _ hloop
          refine ⟨⟨h6, ?_, ?_⟩, .same h3 ?_⟩
          · show ListMono _ L.tuples L1.tuples
            rw [h1]; exact ListMono.mono_refl _ _
          · show ListMono _ L.conns (L1.conns.set p _)
            rw [h2]; exact ListMono.set _ _ p C _ hC (fun _ => rfl)
          · show Keeps L.results L1.results
            rw [h4]; exact Keeps.keeps_refl _
    · simp only [Except.ok.injEq] at h
      subst h
      exact Frame.of_eq rfl rfl rfl rfl rfl

theorem lpq_conn__gc_frame (L : lua_State) (args : List LuaValue) :
    Frame L (lpq_conn__gc L args).2 := by
  unfold lpq_conn__gc
  split
  · split
    · rename_i L1 h
      exact lpq_finishconn_frame _ _ _ _ h
    · exact Frame.of_eq rfl rfl rfl rfl rfl
  · exact Frame.of_eq rfl rfl rfl rfl rfl

theorem lpq_conn_finish_frame (L : lua_State) (args : List LuaValue) :
    Frame L (lpq_conn_finish L args).2 := by
  unfold lpq_conn_finish
  split
  · exact Frame.of_eq rfl rfl rfl rfl rfl
  · split
    · rename_i L1 h
      exact lpq_finishconn_frame _ _ _ _ h
    · exact Frame.of_eq rfl rfl rfl rfl rfl

theorem lpq_conn_method_frame (fn : String) (L : lua_State) (args reply : List LuaValue) :
    Frame L (lpq_conn_method fn L args reply).2 := by
  unfold lpq_conn_method
  split <;> exact Frame.of_eq rfl rfl rfl rfl rfl

theorem lpq_conn_escape_frame (H : Host) (L : lua_State) (args : List LuaValue)
    (reply : Option Bytes) : Frame L (lpq_conn_escape H L args reply).2 := by
  unfold lpq_conn_escape
  repeat' split
  all_goals exact Frame.of_eq rfl rfl rfl rfl rfl

theorem lpq_conn_consume_frame (L : lua_State) (args : List LuaValue) (status : Int)
    (errmsg : Bytes) : Frame L (lpq_conn_consume L args status errmsg).2 := by
  unfold lpq_conn_consume lpq_pushstatus
  repeat' split
  all_goals exact Frame.of_eq rfl rfl rfl rfl rfl

theorem lpq_conn_query_frame (H : Host) (L : lua_State) (args : List LuaValue) (status : Int)
    (errmsg : Bytes) : Frame L (lpq_conn_query H L args status errmsg).2 := by
  unfold lpq_conn_query lpq_pushstatus
  repeat' split
  all_goals exact Frame.of_eq rfl rfl rfl rfl rfl

theorem Quiet.quiet_refl (L : lua_State) : Quiet L L :=
  ⟨ListMono.mono_refl _ _, rfl, ListMono.mono_refl _ _, rfl, Keeps.keeps_refl _⟩

theorem Quiet.frame {L L2 : lua_State} (h : Quiet L L2) : Frame L L2 :=
  ⟨⟨h.plans, by rw [h.tuples]; exact ListMono.mono_refl _ _, h.conns⟩, .same h.rsets h.results⟩

theorem Quiet.pq {L0 L : lua_State} (h : Quiet L0 L) (x : List PQcall) :
    Quiet L0 { L with pq := x } :=
  ⟨h.plans, h.tuples, h.conns, h.rsets, h.results⟩

theorem clearnow_quiet {L0 L : lua_State} (h : Quiet L0 L) (result : Option PGresult) :
    Quiet L0 (clearnow L result) := by
  unfold clearnow
  split
  · exact ⟨h.plans, h.tuples, h.conns, h.rsets, h.results.keeps_trans (Keeps.keeps_append _ _)⟩
  · exact h

theorem clearnow_conns (L : lua_State) (result : Option PGresult) :
    (clearnow L result).conns = L.conns := by
  unfold clearnow
  split <;> rfl

theorem lpq_getplan_quiet {L0 L : lua_State} (h : Quiet L0 L) (p : Addr) (C : lpq_Conn)
    (hC : L.conns[p]? = some C) (name : Bytes) (reply : Option PGresult) (junk : Int) :
    Quiet L0 (lpq_getplan L p C name reply junk).2 := by
  unfold lpq_getplan
  dsimp only
  split
  · dsimp only
    apply clearnow_quiet
    refine ⟨h.plans.mono_trans (ListMono.mono_append _ _ _), h.tuples, h.conns.mono_trans ?_, h.rsets, h.results⟩
    exact ListMono.set _ _ p C _ hC (fun hd => hd)
  · dsimp only
    exact clearnow_quiet (h.pq _) _

/-- The end of `lpq_conn_prepare` and `lpq_conn_getplan`: the plan, or nil and
the error message of the connection. -/
theorem getplan_tail_frame (L : lua_State) (P : Option Addr × lua_State) (hP : Quiet L P.2)
    (errmsg : Bytes) (c : Addr) :
    Frame L (match P.1 with
      | none => ((.ok [.nil, .string errmsg], { P.2 with pq := P.2.pq ++ [PQcall.PQerrorMessage c] }) : Ret)
      | some q => (.ok [.handle .plan q], P.2)).2 := by
  split
  · exact (hP.pq _).frame
  · exact hP.frame

theorem lpq_conn_prepare_frame (H : Host) (L : lua_State) (args : List LuaValue)
    (reply reply2 : Option PGresult) (junk : Int) (errmsg : Bytes) :
    Frame L (lpq_conn_prepare H L args reply reply2 junk errmsg).2 := by
  unfold lpq_conn_prepare
  split
  · exact Frame.of_eq rfl rfl rfl rfl rfl
  · rename_i p C hck
    obtain ⟨_, hC, _⟩ := lpq_checkconn_ok hck
    split
    · exact Frame.of_eq rfl rfl rfl rfl rfl
    · split
      · exact Frame.of_eq rfl rfl rfl rfl rfl
      · refine getplan_tail_frame L _ ?_ errmsg C.conn
        split
        · refine lpq_getplan_quiet (clearnow_quiet ((Quiet.quiet_refl L).pq _) _) p C ?_ _ _ _
          rw [clearnow_conns]
          exact hC
        · exact clearnow_quiet ((Quiet.quiet_refl L).pq _) _

theorem lpq_conn_getplan_frame (H : Host) (L : lua_State) (args : List LuaValue)
    (reply : Option PGresult) (junk : Int) (errmsg : Bytes) :
    Frame L (lpq_conn_getplan H L args reply junk errmsg).2 := by
  unfold lpq_conn_getplan
  split
  · exact Frame.of_eq rfl rfl rfl rfl rfl
  · rename_i p C hck
    obtain ⟨_, hC, _⟩ := lpq_checkconn_ok hck
    split
    · exact Frame.of_eq rfl rfl rfl rfl rfl
    · exact getplan_tail_frame L _ (lpq_getplan_quiet (Quiet.quiet_refl L) p C hC _ _ _) errmsg C.conn

theorem lpq_pushresult_frame {L0 L : lua_State} (h : Quiet L0 L) (hres : L.results = L0.results)
    (result : Option PGresult) (fresh : Addr) : Frame L0 (lpq_pushresult L result fresh).2 := by
  unfold lpq_pushresult
  split
  · exact h.frame
  · rename_i res
    refine ⟨⟨h.plans, ?_, h.conns⟩, .push res fresh ?_ ?_⟩
    · show ListMono _ L0.tuples L.tuples
      rw [h.tuples]; exact ListMono.mono_refl _ _
    · show L.results ++ [res] = L0.results ++ [res]
      rw [hres]
    · show L.rsets ++ _ = L0.rsets ++ _
      rw [h.rsets, hres]

theorem lpq_conn_getresult_frame (L : lua_State) (args : List LuaValue)
    (reply : Option PGresult) (fresh : Addr) :
    Frame L (lpq_conn_getresult L args reply fresh).2 := by
  unfold lpq_conn_getresult
  split
  · exact Frame.of_eq rfl rfl rfl rfl rfl
  · apply lpq_pushresult_frame
    · exact (Quiet.quiet_refl L).pq _
    · rfl

theorem lpq_conn_exec_frame (H : Host) (L : lua_State) (args : List LuaValue)
    (reply : Option PGresult) (fresh : Addr) :
    Frame L (lpq_conn_exec H L args reply fresh).2 := by
  unfold lpq_conn_exec
  split
  · exact Frame.of_eq rfl rfl rfl rfl rfl
  · split
    · exact Frame.of_eq rfl rfl rfl rfl rfl
    · apply lpq_pushresult_frame
      · exact (Quiet.quiet_refl L).pq _
      · rfl

theorem lpq_setparams_valid {H : Host} {L : lua_State} {P P1 : lpq_Plan} {args : List LuaValue}
    {x : Except Fault Bytes} (h : lpq_setparams H L P args = (x, P1)) : P1.valid = P.valid := by
  unfold lpq_setparams at h
  split at h
  · simp only [Prod.mk.injEq] at h
    rw [← h.2]
  · split at h
    · simp only [Prod.mk.injEq] at h
      rw [← h.2]
    · simp only [Prod.mk.injEq] at h
      rw [← h.2]

/-- The state after `lpq_setparams` stored into the plan at `q`. -/
theorem setparams_quiet {H : Host} {L : lua_State} {P P1 : lpq_Plan} {args : List LuaValue}
    {x : Except Fault Bytes} {q : Addr} (hP : L.plans[q]? = some P)
    (h : lpq_setparams H L P args = (x, P1)) :
    Quiet L { L with plans := L.plans.set q P1 } :=
  ⟨ListMono.set _ _ q P _ hP (fun hv => by rw [lpq_setparams_valid h]; exact hv), rfl,
    ListMono.mono_refl _ _, rfl, Keeps.keeps_refl _⟩

theorem lpq_plan_query_frame (H : Host) (L : lua_State) (args : List LuaValue) (status : Int)
    (errmsg : Bytes) : Frame L (lpq_plan_query H L args status errmsg).2 := by
  unfold lpq_plan_query
  split
  · exact Frame.of_eq rfl rfl rfl rfl rfl
  · rename_i q P hck
    obtain ⟨_, hP, _⟩ := lpq_checkplan_ok hck
    split
    · rename_i hsp
      exact (setparams_quiet hP hsp).frame
    · rename_i hsp
      split
      · exact (setparams_quiet hP hsp).frame
      · unfold lpq_pushstatus
        split
        · exact (((setparams_quiet hP hsp).pq _).pq _).frame
        · exact ((setparams_quiet hP hsp).pq _).frame

theorem lpq_plan_exec_frame (H : Host) (L : lua_State) (args : List LuaValue)
    (reply : Option PGresult) (fresh : Addr) :
    Frame L (lpq_plan_exec H L args reply fresh).2 := by
  unfold lpq_plan_exec
  split
  · exact Frame.of_eq rfl rfl rfl rfl rfl
  · rename_i q P hck
    obtain ⟨_, hP, _⟩ := lpq_checkplan_ok hck
    split
    · rename_i hsp
      exact (setparams_quiet hP hsp).frame
    · rename_i hsp
      split
      · exact (setparams_quiet hP hsp).frame
      · apply lpq_pushresult_frame
        · exact (setparams_quiet hP hsp).pq _
        · rfl

theorem lpq_plan__len_state (L : lua_State) (args : List LuaValue) :
    (lpq_plan__len L args).2 = L := by
  unfold lpq_plan__len
  repeat' split
  all_goals rfl

theorem lpq_rset__len_state (L : lua_State) (args : List LuaValue) :
    (lpq_rset__len L args).2 = L := by
  unfold lpq_rset__len
  repeat' split
  all_goals rfl

theorem lpq_rset_fields_state (L : lua_State) (args : List LuaValue) :
    (lpq_rset_fields L args).2 = L := by
  unfold lpq_rset_fields
  repeat' split
  all_goals rfl

theorem lpq_rset_method_state (L : lua_State) (args : List LuaValue) (reply : LuaValue) :
    (lpq_rset_method L args reply).2 = L := by
  unfold lpq_rset_method
  repeat' split
  all_goals rfl

theorem lpq_rset_fetch_state (L : lua_State) (args : List LuaValue) :
    (lpq_rset_fetch L args).2 = L := by
  unfold lpq_rset_fetch
  repeat' split
  all_goals rfl

theorem lpq_tuple__len_state (L : lua_State) (args : List LuaValue) :
    (lpq_tuple__len L args).2 = L := by
  unfold lpq_tuple__len
  repeat' split
  all_goals rfl

theorem lpq_tuple__index_state (H : Host) (L : lua_State) (args : List LuaValue) (fresh : Addr) :
    (lpq_tuple__index H L args fresh).2 = L := by
  unfold lpq_tuple__index
  dsimp only
  repeat' split
  all_goals rfl

theorem lpq_rset__gc_frame (H : Host) (L : lua_State) (args : List LuaValue) :
    Frame L (lpq_rset__gc H L args).2 := by
  unfold lpq_rset__gc
  split
  · split
    · exact Frame.of_eq rfl rfl rfl rfl rfl
    · dsimp only
      split
      · exact Frame.of_eq rfl rfl rfl rfl rfl
      · rename_i L1 hm
        have hL1 : L1.plans = L.plans ∧ L1.conns = L.conns ∧ L1.rsets = L.rsets ∧
            L1.results = L.results ∧ ListMono (fun T => !T.valid) L.tuples L1.tuples := by
          split at hm
          · split at hm
            · obtain ⟨h1, h2, h3, h4, _, _, h7⟩ := rset__gc_loop_frame H _ _ _ hm
              exact ⟨h1, h2, h3, h4, h7⟩
            · cases hm
          · simp only [Except.ok.injEq] at hm
            subst hm
            exact ⟨rfl, rfl, rfl, rfl, ListMono.mono_refl _ _⟩
        obtain ⟨h1, h2, h3, h4, h5⟩ := hL1
        refine ⟨⟨?_, h5, ?_⟩, .same h3 ?_⟩
        · show ListMono _ L.plans L1.plans
          rw [h1]; exact ListMono.mono_refl _ _
        · show ListMono _ L.conns L1.conns
          rw [h2]; exact ListMono.mono_refl _ _
        · show Keeps L.results L1.results
          rw [h4]; exact Keeps.keeps_refl _
  · exact Frame.of_eq rfl rfl rfl rfl rfl

theorem lpq_rset__index_frame (H : Host) (L : lua_State) (args : List LuaValue) :
    Frame L (lpq_rset__index H L args).2 := by
  unfold lpq_rset__index
  split
  · split
    · exact Frame.of_eq rfl rfl rfl rfl rfl
    · rename_i r _ _ R hR
      split
      · dsimp only
        split
        · exact Frame.of_eq rfl rfl rfl rfl rfl
        · split
          · exact Frame.of_eq rfl rfl rfl rfl rfl
          · rename_i env henv
            split
            · rename_i hnil
              split
              · exact ⟨⟨ListMono.mono_refl _ _, ListMono.mono_append _ _ _, ListMono.mono_refl _ _⟩,
                  .cache r R env _ _ hR henv hnil rfl rfl rfl⟩
              · have hap : ∀ T : lpq_Tuple, Frame L { L with tuples := L.tuples ++ [T] } :=
                  fun T => ⟨⟨ListMono.mono_refl _ _, ListMono.mono_append _ _ _,
                    ListMono.mono_refl _ _⟩, .same rfl (Keeps.keeps_refl _)⟩
                repeat' split
                all_goals exact hap _
            · exact Frame.of_eq rfl rfl rfl rfl rfl
      · exact Frame.of_eq rfl rfl rfl rfl rfl
  · exact Frame.of_eq rfl rfl rfl rfl rfl

theorem lpq_rset_rows_frame (H : Host) (L : lua_State) (args : List LuaValue) (junk : Int) :
    Frame L (lpq_rset_rows H L args junk).2 := by
  unfold lpq_rset_rows
  split
  · exact Frame.of_eq rfl rfl rfl rfl rfl
  · dsimp only
    split
    · exact ⟨⟨ListMono.mono_refl _ _, ListMono.mono_append _ _ _, ListMono.mono_refl _ _⟩,
        .same rfl (Keeps.keeps_refl _)⟩
    · exact ⟨⟨ListMono.mono_refl _ _, ListMono.mono_append _ _ _, ListMono.mono_refl _ _⟩,
        .same rfl (Keeps.keeps_refl _)⟩

theorem lpq_rset_rowsaux_frame (H : Host) (L : lua_State) (up args : List LuaValue) :
    Frame L (lpq_rset_rowsaux H L up args).2 := by
  unfold lpq_rset_rowsaux
  split
  · split
    · rename_i r t _ _ _ _ R T hR hT
      dsimp only
      split
      · exact ⟨⟨ListMono.mono_refl _ _, ListMono.set _ _ t T _ hT (fun _ => rfl), ListMono.mono_refl _ _⟩,
          .same rfl (Keeps.keeps_refl _)⟩
      · exact ⟨⟨ListMono.mono_refl _ _, ListMono.set _ _ t T _ hT (fun hv => hv), ListMono.mono_refl _ _⟩,
          .same rfl (Keeps.keeps_refl _)⟩
    · exact Frame.of_eq rfl rfl rfl rfl rfl
  · exact Frame.of_eq rfl rfl rfl rfl rfl

/-- Every call keeps the frame. -/
theorem step_frame (H : Host) (L : lua_State) (op : Op) : Frame L (step H L op).2 := by
  cases op with
  | connect args reply => exact lpq_connect_frame H L args reply
  | start args reply => exact lpq_start_frame H L args reply
  | register args fresh => exact lpq_register_frame H L args fresh
  | tostring reply => exact Frame.of_eq rfl rfl rfl rfl rfl
  | conn__gc args => exact lpq_conn__gc_frame L args
  | conn_finish args => exact lpq_conn_finish_frame L args
  | conn_method fn args reply => exact lpq_conn_method_frame fn L args reply
  | conn_escape args reply => exact lpq_conn_escape_frame H L args reply
  | conn_consume args status errmsg => exact lpq_conn_consume_frame L args status errmsg
  | conn_query args status errmsg => exact lpq_conn_query_frame H L args status errmsg
  | conn_getresult args reply fresh => exact lpq_conn_getresult_frame L args reply fresh
  | conn_exec args reply fresh => exact lpq_conn_exec_frame H L args reply fresh
  | conn_prepare args reply reply2 junk errmsg =>
    exact lpq_conn_prepare_frame H L args reply reply2 junk errmsg
  | conn_getplan args reply junk errmsg =>
    exact lpq_conn_getplan_frame H L args reply junk errmsg
  | plan__len args => exact Frame.of_state_eq (lpq_plan__len_state L args)
  | plan_query args status errmsg => exact lpq_plan_query_frame H L args status errmsg
  | plan_exec args reply fresh => exact lpq_plan_exec_frame H L args reply fresh
  | rset__gc args => exact lpq_rset__gc_frame H L args
  | rset__len args => exact Frame.of_state_eq (lpq_rset__len_state L args)
  | rset__index args => exact lpq_rset__index_frame H L args
  | rset_fields args => exact Frame.of_state_eq (lpq_rset_fields_state L args)
  | rset_method args reply => exact Frame.of_state_eq (lpq_rset_method_state L args reply)
  | rset_fetch args => exact Frame.of_state_eq (lpq_rset_fetch_state L args)
  | rset_fetchaux up fresh => exact Frame.of_eq rfl rfl rfl rfl rfl
  | rset_rows args junk => exact lpq_rset_rows_frame H L args junk
  | rset_rowsaux up args => exact lpq_rset_rowsaux_frame H L up args
  | tuple__len args => exact Frame.of_state_eq (lpq_tuple__len_state L args)
  | tuple__index args fresh => exact Frame.of_state_eq (lpq_tuple__index_state H L args fresh)

/-! ## Runs -/

theorem run_decays (H : Host) (ops : List Op) : ∀ L, Decays L (run H L ops) := by
  induction ops with
  | nil => intro L; exact Decays.decays_refl L
  | cons op ops ih => intro L; exact (step_frame H L op).decays.decays_trans (ih _)

theorem Frame.keeps_results {L L2 : lua_State} (h : Frame L L2) :
    Keeps L.results L2.results := by
  cases h.rsets with
  | same _ hr => exact hr
  | push res fresh hres _ => rw [hres]; exact Keeps.keeps_append _ _
  | cache r R env n T hR henv hnil hres htup h => rw [hres]; exact Keeps.keeps_refl _

theorem PQresultStatus_stable {L L2 : lua_State} (hk : Keeps L.results L2.results) {a : Addr}
    (ha : a < L.results.length) : PQresultStatus L2 a = PQresultStatus L a := by
  have h1 : L.results[a]? = some L.results[a] := List.getElem?_eq_some.2 ⟨ha, rfl⟩
  have h2 := hk a _ h1
  unfold PQresultStatus
  rw [h1, h2]

theorem EntryOK.entry_mono {n m : Nat} {e : LuaValue × LuaValue} (h : EntryOK n e) (hnm : n ≤ m) :
    EntryOK m e := by
  rcases h with h | ⟨k, t, he, ht⟩
  · exact Or.inl h
  · exact Or.inr ⟨k, t, he, Nat.lt_of_lt_of_le ht hnm⟩

theorem RsetOK.rset_mono {L L2 : lua_State} {R : lpq_Rset} (h : RsetOK L R)
    (hk : Keeps L.results L2.results) (ht : L.tuples.length ≤ L2.tuples.length) :
    RsetOK L2 R := by
  obtain ⟨h1, h2⟩ := h
  refine ⟨Nat.lt_of_lt_of_le h1 hk.keeps_length_le, ?_⟩
  cases henv : R.env with
  | none =>
    rw [henv] at h2
    simp only at h2 ⊢
    rw [PQresultStatus_stable hk h1]
    exact h2
  | some env =>
    rw [henv] at h2
    simp only at h2 ⊢
    rw [PQresultStatus_stable hk h1]
    exact ⟨h2.1, fun e he => (h2.2 e he).entry_mono ht⟩

/-- Well-formedness of the result sets goes through every call. -/
theorem Frame.inv {L L2 : lua_State} (hf : Frame L L2) (hi : Inv L) : Inv L2 := by
  have hk := hf.keeps_results
  have ht := hf.decays.tuples.mono_length_le
  intro r2 R2 hR2
  cases hf.rsets with
  | same h _ =>
    rw [h] at hR2
    exact (hi r2 R2 hR2).rset_mono hk ht
  | push res fresh hres h =>
    rw [h] at hR2
    by_cases hlt : r2 < L.rsets.length
    · rw [List.getElem?_append_left hlt] at hR2
      exact (hi r2 R2 hR2).rset_mono hk ht
    · rw [List.getElem?_append_right (Nat.le_of_not_lt hlt)] at hR2
      have hz : r2 - L.rsets.length = 0 := by
        by_contra hne
        have hnone : ∀ x : lpq_Rset, [x][r2 - L.rsets.length]? = none := fun x =>
          List.getElem?_eq_none (by
            rw [List.length_singleton]
            exact Nat.one_le_iff_ne_zero.2 hne)
        rw [hnone] at hR2
        cases hR2
      rw [hz] at hR2
      simp only [List.getElem?_cons_zero, Option.some.injEq] at hR2
      subst hR2
      have hst : PQresultStatus L2 L.results.length = res.status := by
        unfold PQresultStatus
        rw [hres, List.getElem?_concat_length]
      refine ⟨by rw [hres]; simp, ?_⟩
      by_cases hs : res.status = .PGRES_TUPLES_OK
      · simp only [hs, if_true]
        refine ⟨by rw [hst]; exact hs, ?_⟩
        intro e he
        simp only [List.mem_singleton] at he
        left
        rw [he]
      · simp only [hs, if_false]
        rw [hst]
        exact hs
  | cache r R env n T hR henv hnil hres htup h =>
    rw [h] at hR2
    by_cases hr : r = r2
    · subst hr
      have hlt : r < L.rsets.length := (List.getElem?_eq_some.1 hR).1
      rw [List.getElem?_set] at hR2
      simp only [hlt, if_true, Option.some.injEq] at hR2
      subst hR2
      have hok := (hi r R hR).rset_mono hk ht
      obtain ⟨h1, h2⟩ := hok
      rw [henv] at h2
      simp only at h2
      refine ⟨h1, ?_⟩
      simp only
      refine ⟨h2.1, ?_⟩
      intro e he
      rcases mem_rawset he with hold | hnew
      · exact h2.2 e hold
      · right
        exact ⟨n, L.tuples.length, hnew, by rw [htup]; simp⟩
    · rw [List.getElem?_set_ne hr] at hR2
      exact (hi r2 R2 hR2).rset_mono hk ht

theorem Ext.ext_refl (L : lua_State) : Ext L L :=
  ⟨Keeps.keeps_refl _, fun _ R hR => ⟨R, hR, rfl, fun env henv => ⟨env, henv, fun _ _ h => h⟩⟩⟩

theorem Ext.ext_trans {L L2 L3 : lua_State} (h1 : Ext L L2) (h2 : Ext L2 L3) : Ext L L3 := by
  refine ⟨h1.1.keeps_trans h2.1, ?_⟩
  intro r R hR
  obtain ⟨R2, hR2, hres2, henv2⟩ := h1.2 r R hR
  obtain ⟨R3, hR3, hres3, henv3⟩ := h2.2 r R2 hR2
  refine ⟨R3, hR3, hres3.trans hres2, ?_⟩
  intro env henv
  obtain ⟨env2, he2, hc2⟩ := henv2 env henv
  obtain ⟨env3, he3, hc3⟩ := henv3 env2 he2
  exact ⟨env3, he3, fun n t h => hc3 n t (hc2 n t h)⟩

/-- No call drops a result set, changes its result or drops a tuple from its
cache. -/
theorem Frame.ext {L L2 : lua_State} (hf : Frame L L2) : Ext L L2 := by
  refine ⟨hf.keeps_results, ?_⟩
  intro r0 R0 hR0
  cases hf.rsets with
  | same h _ =>
    exact ⟨R0, by rw [h]; exact hR0, rfl, fun env henv => ⟨env, henv, fun _ _ hc => hc⟩⟩
  | push res fresh hres h =>
    have hlt : r0 < L.rsets.length := (List.getElem?_eq_some.1 hR0).1
    exact ⟨R0, by rw [h, List.getElem?_append_left hlt]; exact hR0, rfl,
      fun env henv => ⟨env, henv, fun _ _ hc => hc⟩⟩
  | cache r R env n T hR henv hnil hres htup h =>
    by_cases hr : r = r0
    · subst hr
      have hlt : r < L.rsets.length := (List.getElem?_eq_some.1 hR).1
      rw [hR] at hR0
      cases hR0
      refine ⟨{ R0 with env := some (rawset env (.integer n) (.handle .tuple L.tuples.length)) },
        by rw [h, List.getElem?_set]; simp only [hlt, if_true], rfl, ?_⟩
      intro env0 henv0
      rw [henv] at henv0
      cases henv0
      refine ⟨rawset env (.integer n) (.handle .tuple L.tuples.length), rfl, ?_⟩
      intro m t hc
      by_cases hm : m = n
      · subst hm
        rw [hnil] at hc
        cases hc
      · rw [rawget_rawset_ne _ _ _ _ hm]
        exact hc
    · exact ⟨R0, by rw [h, List.getElem?_set_ne hr]; exact hR0, rfl,
        fun env henv => ⟨env, henv, fun _ _ hc => hc⟩⟩

theorem run_inv (H : Host) (ops : List Op) : ∀ L, Inv L → Inv (run H L ops) := by
  induction ops with
  | nil => intro L h; exact h
  | cons op ops ih => intro L h; exact ih _ ((step_frame H L op).inv h)

theorem run_ext (H : Host) (ops : List Op) : ∀ L, Ext L (run H L ops) := by
  induction ops with
  | nil => intro L; exact Ext.ext_refl L
  | cons op ops ih => intro L; exact (step_frame H L op).ext.ext_trans (ih _)

theorem luaopen_psql_inv : Inv luaopen_psql := by
  intro r R h
  simp [luaopen_psql] at h

/-! ## Release of a result set -/

theorem lua_tointeger_fields (H : Host) : lua_tointeger H (.string LPQ_RSET_FIELDS) = 0 := rfl

theorem lua_tointeger_integer (H : Host) (n : Int) : lua_tointeger H (.integer n) = n := rfl

/-- On a well-formed table the loop of `lpq_rset__gc` runs to its end, and
afterwards every tuple the table holds at a positive integer key has its flag
off. -/
theorem rset__gc_loop_marks (H : Host) (es : List (LuaValue × LuaValue)) :
    ∀ L : lua_State, (∀ e ∈ es, EntryOK L.tuples.length e) →
      ∃ L2, rset__gc_loop H L es = .ok L2 ∧
        ∀ (n : Int) (t : Addr), (.integer n, .handle .tuple t) ∈ es → 0 < n →
          ∃ T, L2.tuples[t]? = some T ∧ T.valid = false := by
  induction es with
  | nil =>
    intro L _
    exact ⟨L, rfl, fun n t h => by cases h⟩
  | cons e es ih =>
    intro L hok
    have hes : ∀ e ∈ es, EntryOK L.tuples.length e := fun e he =>
      hok e (List.mem_cons_of_mem _ he)
    rcases hok e (List.mem_cons_self _ _) with hf | ⟨m, t0, he, ht0⟩
    · obtain ⟨k, v⟩ := e
      simp only at hf
      subst hf
      obtain ⟨L2, hL2, hm⟩ := ih L hes
      refine ⟨L2, ?_, ?_⟩
      · simp only [rset__gc_loop, lua_tointeger_fields, lt_irrefl, if_false]
        exact hL2
      · intro n t hmem hn
        rcases List.mem_cons.1 hmem with hhead | htail
        · cases hhead
        · exact hm n t htail hn
    · subst he
      by_cases hpos : 0 < m
      · obtain ⟨T0, hT0⟩ : ∃ T0, L.tuples[t0]? = some T0 :=
          ⟨L.tuples[t0], List.getElem?_eq_some.2 ⟨ht0, rfl⟩⟩
        obtain ⟨L2, hL2, hm⟩ := ih { L with tuples := L.tuples.set t0 { T0 with valid := false } }
          (fun e he => by
            have := hes e he
            simpa only [List.length_set] using this)
        refine ⟨L2, ?_, ?_⟩
        · simp only [rset__gc_loop, lua_tointeger_integer, gt_iff_lt, hpos, if_true, hT0]
          exact hL2
        · intro n t hmem hn
          rcases List.mem_cons.1 hmem with hhead | htail
          · simp only [Prod.mk.injEq, LuaValue.integer.injEq, LuaValue.handle.injEq,
              true_and] at hhead
            obtain ⟨_, ht⟩ := hhead
            subst ht
            obtain ⟨_, _, _, _, _, _, hmono⟩ := rset__gc_loop_frame H es _ _ hL2
            have hset : (L.tuples.set t { T0 with valid := false })[t]?
                = some { T0 with valid := false } := by
              rw [List.getElem?_set]
              simp only [ht0, if_true]
            obtain ⟨T, hT, hv⟩ := hmono t _ hset
            exact ⟨T, hT, by simpa using hv rfl⟩
          · exact hm n t htail hn
      · obtain ⟨L2, hL2, hm⟩ := ih L hes
        refine ⟨L2, ?_, ?_⟩
        · simp only [rset__gc_loop, lua_tointeger_integer, gt_iff_lt, hpos, if_false]
          exact hL2
        · intro n t hmem hn
          rcases List.mem_cons.1 hmem with hhead | htail
          · simp only [Prod.mk.injEq, LuaValue.integer.injEq, LuaValue.handle.injEq,
              true_and] at hhead
            exact absurd (hhead.1 ▸ hn) hpos
          · exact hm n t htail hn

theorem rset_class_ne_handle (k : LuaValue) (t : Addr) : rset_class k ≠ .handle .tuple t := by
  unfold rset_class
  repeat' split
  all_goals simp

/-- When indexing a result set returns a tuple, the tuple is afterwards
cached in the uservalue table of that result set, at a positive integer
key. -/
theorem lpq_rset__index_cached (H : Host) (L : lua_State) (r t : Addr) (key : LuaValue)
    (h : (lpq_rset__index H L [.handle .rset r, key]).1 = .ok [.handle .tuple t]) :
    ∃ R env n, (lpq_rset__index H L [.handle .rset r, key]).2.rsets[r]? = some R ∧
      R.env = some env ∧ rawget env (.integer n) = .handle .tuple t ∧ 0 < n := by
  generalize hX : lpq_rset__index H L [.handle .rset r, key] = X at h ⊢
  unfold lpq_rset__index at hX
  simp only [arg, Nat.sub_self, Nat.reduceSub, List.getD_cons_zero, List.getD_cons_succ] at hX
  split at hX
  · subst hX
    simp at h
  · rename_i R hR
    have hlt : r < L.rsets.length := (List.getElem?_eq_some.1 hR).1
    split at hX
    · split at hX
      · subst hX
        simp at h
      · rename_i hcond
        have hn : 0 < to_int32 (lua_tointeger H key) := by
          simp only [not_or, not_lt] at hcond
          omega
        split at hX
        · subst hX
          simp at h
        · rename_i env henv
          split at hX
          · simp only [List.length_cons, List.length_nil, Nat.reduceAdd, le_refl, if_true] at hX
            subst hX
            simp only [Except.ok.injEq, List.cons.injEq, LuaValue.handle.injEq, true_and,
              and_true] at h
            subst h
            refine ⟨{ R with env := some (rawset env (.integer (to_int32 (lua_tointeger H key)))
                (.handle .tuple L.tuples.length)) }, _, _, ?_, rfl, rawget_rawset_self _ _ _, hn⟩
            simp only [List.getElem?_set, hlt, if_true]
          · subst hX
            simp only [Except.ok.injEq, List.cons.injEq, and_true] at h
            exact ⟨R, env, _, hR, henv, h, hn⟩
    · subst hX
      simp only [Except.ok.injEq, List.cons.injEq, and_true] at h
      exact absurd h (rset_class_ne_handle _ _)

/-- C3: in every state the library can reach, a tuple that indexing a result
set has returned is, after any further calls, invalid once that result set is
released (the release runs to its end); and a result set whose result has no
row data has no uservalue table, hence no cached tuple, and its release does
nothing but call `PQclear` on the result. -/
theorem release_invalidates_cached_rows (H : Host) :
    (∀ (ops ops2 : List Op) (r t : Addr) (key : LuaValue),
      (lpq_rset__index H (run H luaopen_psql ops) [.handle .rset r, key]).1
          = .ok [.handle .tuple t] →
      (lpq_rset__gc H
          (run H (lpq_rset__index H (run H luaopen_psql ops) [.handle .rset r, key]).2 ops2)
          [.handle .rset r]).1 = .ok [] ∧
        ∃ T, (lpq_rset__gc H
          (run H (lpq_rset__index H (run H luaopen_psql ops) [.handle .rset r, key]).2 ops2)
          [.handle .rset r]).2.tuples[t]? = some T ∧ T.valid = false) ∧
    (∀ (ops : List Op) (r : Addr) (R : lpq_Rset),
      (run H luaopen_psql ops).rsets[r]? = some R →
      PQresultStatus (run H luaopen_psql ops) R.result ≠ .PGRES_TUPLES_OK →
      R.env = none ∧
        lpq_rset__gc H (run H luaopen_psql ops) [.handle .rset r]
          = (.ok [], { run H luaopen_psql ops with
              pq := (run H luaopen_psql ops).pq ++ [.PQclear R.result] })) := by
  constructor
  · intro ops ops2 r t key h
    have hI0 : Inv (run H luaopen_psql ops) := run_inv H ops _ luaopen_psql_inv
    obtain ⟨R1, env1, n, hR1, henv1, hget1, hn⟩ := lpq_rset__index_cached H _ r t key h
    have hI1 := (lpq_rset__index_frame H (run H luaopen_psql ops) [.handle .rset r, key]).inv hI0
    generalize (lpq_rset__index H (run H luaopen_psql ops) [.handle .rset r, key]).2 = L1
      at hR1 hI1 ⊢
    have hI2 : Inv (run H L1 ops2) := run_inv H ops2 _ hI1
    obtain ⟨R2, hR2, _, hc⟩ := (run_ext H ops2 L1).2 r R1 hR1
    obtain ⟨env2, henv2, hcache⟩ := hc env1 henv1
    have hget2 := hcache n t hget1
    generalize run H L1 ops2 = L2 at hI2 hR2 ⊢
    obtain ⟨_, hok⟩ := hI2 r R2 hR2
    rw [henv2] at hok
    simp only at hok
    obtain ⟨hst, hentries⟩ := hok
    obtain ⟨L3, hloop, hmarks⟩ := rset__gc_loop_marks H env2 L2 hentries
    obtain ⟨T, hT, hv⟩ := hmarks n t (rawget_mem hget2 (by simp)) hn
    have hgc : lpq_rset__gc H L2 [.handle .rset r]
        = (.ok [], { L3 with pq := L3.pq ++ [.PQclear R2.result] }) := by
      simp [lpq_rset__gc, arg, tableAt2, hR2, hst, henv2, hloop]
    rw [hgc]
    exact ⟨rfl, T, hT, hv⟩
  · intro ops r R hR hst
    have hI0 : Inv (run H luaopen_psql ops) := run_inv H ops _ luaopen_psql_inv
    generalize run H luaopen_psql ops = L at hI0 hR hst ⊢
    obtain ⟨_, hok⟩ := hI0 r R hR
    constructor
    · cases henv : R.env with
      | none => rfl
      | some env =>
        rw [henv] at hok
        exact absurd hok.1 hst
    · simp [lpq_rset__gc, arg, hR, hst]

theorem release_invalidates_cached_rows_witness :
    ((lpq_rset__gc plainHost
        (run plainHost (lpq_rset__index plainHost openWithRows [.handle .rset 0, .integer 1]).2 [])
        [.handle .rset 0]).1 = .ok [] ∧
      ∃ T, (lpq_rset__gc plainHost
        (run plainHost (lpq_rset__index plainHost openWithRows [.handle .rset 0, .integer 1]).2 [])
        [.handle .rset 0]).2.tuples[0]? = some T ∧ T.valid = false) ∧
    ((⟨0, none⟩ : lpq_Rset).env = none ∧
      lpq_rset__gc plainHost openWithCommand [.handle .rset 0]
        = (.ok [], { openWithCommand with
            pq := openWithCommand.pq ++ [.PQclear (⟨0, none⟩ : lpq_Rset).result] })) :=
  ⟨(release_invalidates_cached_rows plainHost).1
      [.connect [.string (cstr "dbname=x")] (some 77),
       .conn_exec [.handle .conn 0, .string (cstr "select 7")] (some oneRow) 50]
      [] 0 0 (.integer 1) rfl,
    (release_invalidates_cached_rows plainHost).2
      [.connect [.string (cstr "dbname=x")] (some 77),
       .conn_exec [.handle .conn 0, .string (cstr "begin")] (some (commandOk [])) 50]
      0 ⟨0, none⟩ rfl (by decide)⟩

/-! ## Teardown twice, and monotonicity -/

theorem rset__gc_pq (H : Host) (L L2 : lua_State) (r : Addr) (R : lpq_Rset)
    (out : List LuaValue) (hR : L.rsets[r]? = some R)
    (h : lpq_rset__gc H L [.handle .rset r] = (.ok out, L2)) :
    out = [] ∧ L2.pq = L.pq ++ [.PQclear R.result] := by
  unfold lpq_rset__gc at h
  simp only [arg, Nat.sub_self, List.getD_cons_zero, hR] at h
  split at h
  · simp at h
  · rename_i L1 hm
    simp only [Prod.mk.injEq, Except.ok.injEq] at h
    obtain ⟨h1, h2⟩ := h
    subst h2
    refine ⟨h1.symm, ?_⟩
    have hpq : L1.pq = L.pq := by
      split at hm
      · split at hm
        · exact (rset__gc_loop_frame H _ _ _ hm).2.2.2.2.1
        · cases hm
      · simp only [Except.ok.injEq] at hm
        rw [← hm]
    show L1.pq ++ _ = _
    rw [hpq]

/-- C5 as stated fails: `finish` on the finished connection of `finishedConn`
raises an error, and releasing the result set of `openWithRows` a second time
calls `PQclear` on the same result a second time. -/
theorem second_teardown_is_not_silent :
    finishedConn.conns.map (fun C => C.done) = [true] ∧
      (lpq_conn_finish finishedConn [.handle .conn 0]).1
        = .error (.error "connection is finished") ∧
      ((run plainHost openWithRows
          [.rset__gc [.handle .rset 0], .rset__gc [.handle .rset 0]]).pq.filter
        (fun c => c == .PQclear 0)) = [.PQclear 0, .PQclear 0] := by
  refine ⟨rfl, rfl, rfl⟩

/-- C5 amended: on a connection whose `done` flag is set the finaliser
returns without an error and leaves the state as it was (no flag changes, no
second `PQfinish`), and the public `finish` raises "connection is finished"
and likewise leaves the state as it was; one release of a result set that
returns calls `PQclear` on its result exactly once. -/
theorem teardown_of_finished (H : Host) (L : lua_State) :
    (∀ (p : Addr) (C : lpq_Conn), L.conns[p]? = some C → C.done = true →
      lpq_conn__gc L [.handle .conn p] = (.ok [], L) ∧
        lpq_conn_finish L [.handle .conn p]
          = (.error (.error "connection is finished"), L)) ∧
    (∀ (r : Addr) (R : lpq_Rset) (out : List LuaValue) (L2 : lua_State),
      L.rsets[r]? = some R → lpq_rset__gc H L [.handle .rset r] = (.ok out, L2) →
      out = [] ∧ L2.pq = L.pq ++ [.PQclear R.result]) := by
  constructor
  · intro p C hC hd
    constructor
    · simp [lpq_conn__gc, lpq_finishconn, arg, hC, hd]
    · simp [lpq_conn_finish, lpq_checkconn, arg, hC, hd]
  · intro r R out L2 hR h
    exact rset__gc_pq H L L2 r R out hR h

theorem teardown_of_finished_witness :
    (lpq_conn__gc finishedConn [.handle .conn 0] = (.ok [], finishedConn) ∧
      lpq_conn_finish finishedConn [.handle .conn 0]
        = (.error (.error "connection is finished"), finishedConn)) ∧
    ([] = ([] : List LuaValue) ∧
      (lpq_rset__gc plainHost openWithRows [.handle .rset 0]).2.pq
        = openWithRows.pq ++ [.PQclear (⟨0, none⟩ : lpq_Rset).result]) :=
  ⟨(teardown_of_finished plainHost finishedConn).1 0 { conn := 77, done := true, env := [] }
      rfl rfl,
    (teardown_of_finished plainHost openWithRows).2 0
      { result := 0,
        env := some [(.string LPQ_RSET_FIELDS,
          .table 50 none [(.string (cstr "a"), .integer 0)])] }
      [] (lpq_rset__gc plainHost openWithRows [.handle .rset 0]).2 rfl rfl⟩

/-- C6: along every sequence of calls of the library, from any state, a plan
whose `valid` flag is off keeps it off, a tuple whose `valid` flag is off
keeps it off, and a connection that is done stays done. -/
theorem validity_is_monotone (H : Host) (L : lua_State) (ops : List Op) :
    (∀ (q : Addr) (P : lpq_Plan), L.plans[q]? = some P → P.valid = false →
        ∃ P2, (run H L ops).plans[q]? = some P2 ∧ P2.valid = false) ∧
    (∀ (t : Addr) (T : lpq_Tuple), L.tuples[t]? = some T → T.valid = false →
        ∃ T2, (run H L ops).tuples[t]? = some T2 ∧ T2.valid = false) ∧
    (∀ (p : Addr) (C : lpq_Conn), L.conns[p]? = some C → C.done = true →
        ∃ C2, (run H L ops).conns[p]? = some C2 ∧ C2.done = true) := by
  have hd := run_decays H ops L
  refine ⟨?_, ?_, ?_⟩
  · intro q P hP hv
    obtain ⟨P2, hP2, hf⟩ := hd.plans q P hP
    exact ⟨P2, hP2, by simpa using hf (by simp [hv])⟩
  · intro t T hT hv
    obtain ⟨T2, hT2, hf⟩ := hd.tuples t T hT
    exact ⟨T2, hT2, by simpa using hf (by simp [hv])⟩
  · intro p C hC hv
    obtain ⟨C2, hC2, hf⟩ := hd.conns p C hC
    exact ⟨C2, hC2, hf hv⟩

theorem validity_is_monotone_witness :
    (∃ T2, (run plainHost releasedRow
        [.rset__index [.handle .rset 0, .integer 1], .rset_rows [.handle .rset 0] 0,
         .rset_rowsaux [.handle .tuple 1] [.handle .rset 0, .integer 0]]).tuples[0]? = some T2 ∧
        T2.valid = false) ∧
    (∃ C2, (run plainHost finishedConn
        [.connect [.string (cstr "dbname=y")] (some 78), .conn__gc [.handle .conn 0],
         .conn_finish [.handle .conn 0]]).conns[0]? = some C2 ∧ C2.done = true) ∧
    (∃ P2, (run plainHost stalePlan
        [.plan_exec [.handle .plan 0, .integer 5] (some oneRow) 51,
         .conn_getplan [.handle .conn 0, .string (cstr "p")] (some (commandOk [23])) 0 []]
        ).plans[0]? = some P2 ∧ P2.valid = false) :=
  ⟨(validity_is_monotone plainHost releasedRow _).2.1 0
      { rset := 0, row := 0, valid := false,
        env := .table 50 none [(.string (cstr "a"), .integer 0)] } rfl rfl,
    (validity_is_monotone plainHost finishedConn _).2.2 0
      { conn := 77, done := true, env := [] } rfl rfl,
    (validity_is_monotone plainHost stalePlan _).1 0
      { conn := 0, name := cstr "p", n := 1, type := [23], value := [0], length := [0],
        format := [1], valid := false } rfl rfl⟩

/-! ## Wire primitives -/

theorem shl32_or (hi lo : Nat) (h : lo < 4294967296) :
    (hi <<< 32) ||| lo = hi * 4294967296 + lo := by
  have h2 := Nat.mul_add_lt_is_or (by simpa using h : lo < 2 ^ 32) hi
  rw [Nat.shiftLeft_eq, Nat.mul_comm hi, ← h2]

theorem shr32 (i : Int) : i >>> (32 : Nat) = i / 4294967296 := by
  rw [Int.shiftRight_eq_div_pow]
  norm_num

theorem bytes_of_uint32 (n : Nat) (h : n < 4294967296) :
    ((n / 16777216 % 256 * 256 + n / 65536 % 256) * 256 + n / 256 % 256) * 256 + n % 256 = n := by
  omega

theorem sendint64_words (b : Bytes) (i : Int) :
    lpq_sendint64 b i
      = lpq_senduint32 (lpq_senduint32 b (to_uint32 (i / 4294967296))) (to_uint32 i) := by
  unfold lpq_sendint64
  rw [shr32]

theorem getint64_words (hi lo : Nat) (hhi : hi < 4294967296) (hlo : lo < 4294967296) :
    lpq_getint64 (lpq_senduint32 (lpq_senduint32 [] hi) lo)
      = some (to_int64 (Int.ofNat (hi * 4294967296 + lo))) := by
  simp only [lpq_senduint32, lpq_getint64, lpq_getuint32, List.nil_append, List.cons_append,
    List.drop_succ_cons, List.drop_zero]
  rw [bytes_of_uint32 hi hhi, bytes_of_uint32 lo hlo, shl32_or _ _ hlo]

/-- Eight bytes written by `lpq_sendint64` read back as the number sent, for
every `int64`. -/
theorem getint64_sendint64 (i : Int) (h1 : -9223372036854775808 ≤ i)
    (h2 : i < 9223372036854775808) : lpq_getint64 (lpq_sendint64 [] i) = some i := by
  have h := getint64_words (to_uint32 (i / 4294967296)) (to_uint32 i) (to_uint32_lt _)
    (to_uint32_lt _)
  rw [sendint64_words, h]
  have hv : to_int64 (Int.ofNat (to_uint32 (i / 4294967296) * 4294967296 + to_uint32 i)) = i := by
    unfold to_int64 to_uint32
    simp only [Int.ofNat_eq_coe]
    omega
  rw [hv]

/-- The bytes `lpq_senduint32` appends are the big-endian digits of the number. -/
theorem senduint32_bigendian (b : Bytes) (n : Nat) (h : n < 4294967296) :
    ∃ bs, lpq_senduint32 b n = b ++ bs ∧ bs.length = 4 ∧ (∀ x ∈ bs, x < 256) ∧
      spec_bigendian bs = n := by
  refine ⟨[n / 16777216 % 256, n / 65536 % 256, n / 256 % 256, n % 256], rfl, rfl, ?_, ?_⟩
  · intro x hx
    simp only [List.mem_cons, List.mem_singleton, List.not_mem_nil, or_false] at hx
    omega
  · simp only [spec_bigendian, List.foldl]
    omega

/-- The bytes `lpq_sendint64` appends are the big-endian digits of the two's
complement of the number, the high word first. -/
theorem sendint64_bigendian (b : Bytes) (i : Int) (h1 : -9223372036854775808 ≤ i)
    (h2 : i < 9223372036854775808) :
    ∃ bs, lpq_sendint64 b i = b ++ bs ∧ bs.length = 8 ∧ (∀ x ∈ bs, x < 256) ∧
      spec_bigendian bs = (i % 18446744073709551616).toNat := by
  have hlo := to_uint32_lt i
  have hhi := to_uint32_lt (i / 4294967296)
  have e1 : to_uint32 i = (i % 4294967296).toNat := rfl
  have e2 : to_uint32 (i / 4294967296) = (i / 4294967296 % 4294967296).toNat := rfl
  refine ⟨[to_uint32 (i / 4294967296) / 16777216 % 256, to_uint32 (i / 4294967296) / 65536 % 256,
    to_uint32 (i / 4294967296) / 256 % 256, to_uint32 (i / 4294967296) % 256,
    to_uint32 i / 16777216 % 256, to_uint32 i / 65536 % 256, to_uint32 i / 256 % 256,
    to_uint32 i % 256], ?_, rfl, ?_, ?_⟩
  · rw [sendint64_words]
    simp only [lpq_senduint32, List.append_assoc, List.cons_append, List.nil_append]
  · intro x hx
    simp only [List.mem_cons, List.mem_singleton, List.not_mem_nil, or_false] at hx
    omega
  · simp only [spec_bigendian, List.foldl]
    generalize to_uint32 i = lo at *
    generalize to_uint32 (i / 4294967296) = hi at *
    omega

/-- Four bytes read by `lpq_getuint32` and sent again are the same bytes. -/
theorem senduint32_getuint32 (b0 b1 b2 b3 : Nat) (h0 : b0 < 256) (h1 : b1 < 256)
    (h2 : b2 < 256) (h3 : b3 < 256) :
    ∃ n, lpq_getuint32 [b0, b1, b2, b3] = some n ∧ n < 4294967296 ∧
      lpq_senduint32 [] n = [b0, b1, b2, b3] := by
  refine ⟨((b0 * 256 + b1) * 256 + b2) * 256 + b3, rfl, by omega, ?_⟩
  simp only [lpq_senduint32, List.nil_append]
  congr 1
  · omega
  congr 1
  · omega
  congr 1
  · omega
  congr 1
  omega

theorem senduint32_append (b : Bytes) (n : Nat) :
    lpq_senduint32 b n = b ++ lpq_senduint32 [] n := by
  simp only [lpq_senduint32, List.nil_append]

theorem to_int64_high (hi lo : Nat) (hlo : lo < 4294967296) :
    to_uint32 (to_int64 (Int.ofNat (hi * 4294967296 + lo)) / 4294967296)
      = hi % 4294967296 := by
  unfold to_int64 to_uint32
  simp only [Int.ofNat_eq_coe]
  omega

theorem to_int64_low (hi lo : Nat) (hlo : lo < 4294967296) :
    to_uint32 (to_int64 (Int.ofNat (hi * 4294967296 + lo))) = lo := by
  unfold to_int64 to_uint32
  simp only [Int.ofNat_eq_coe]
  omega

/-- Eight bytes read by `lpq_getint64` and sent again are the same bytes. -/
theorem sendint64_getint64 (b0 b1 b2 b3 b4 b5 b6 b7 : Nat) (h0 : b0 < 256) (h1 : b1 < 256)
    (h2 : b2 < 256) (h3 : b3 < 256) (h4 : b4 < 256) (h5 : b5 < 256) (h6 : b6 < 256)
    (h7 : b7 < 256) :
    ∃ i, lpq_getint64 [b0, b1, b2, b3, b4, b5, b6, b7] = some i ∧
      lpq_sendint64 [] i = [b0, b1, b2, b3, b4, b5, b6, b7] := by
  obtain ⟨hi, _, hhi, shi⟩ := senduint32_getuint32 b0 b1 b2 b3 h0 h1 h2 h3
  obtain ⟨lo, _, hlo, slo⟩ := senduint32_getuint32 b4 b5 b6 b7 h4 h5 h6 h7
  have e : lpq_senduint32 (lpq_senduint32 [] hi) lo = [b0, b1, b2, b3, b4, b5, b6, b7] := by
    rw [senduint32_append, shi, slo]
    rfl
  refine ⟨to_int64 (Int.ofNat (hi * 4294967296 + lo)), ?_, ?_⟩
  · rw [← e]
    exact getint64_words hi lo hhi hlo
  · rw [sendint64_words, to_int64_high hi lo hlo, to_int64_low hi lo hlo, Nat.mod_eq_of_lt hhi]
    exact e

/-- A double sent by `lpq_sendfloat8` is read back by `lpq_getfloat8` with the
same bit pattern. -/
theorem getfloat8_sendfloat8 (f : Nat) (h : f < 18446744073709551616) :
    lpq_getfloat8 (lpq_sendfloat8 [] f) = some f := by
  have hr : -9223372036854775808 ≤ to_int64 (Int.ofNat f)
      ∧ to_int64 (Int.ofNat f) < 9223372036854775808 := by
    unfold to_int64
    constructor <;> omega
  unfold lpq_getfloat8 lpq_sendfloat8
  rw [getint64_sendint64 _ hr.1 hr.2]
  simp only [Option.map_some', Option.some.injEq]
  unfold to_int64
  simp only [Int.ofNat_eq_coe]
  omega

/-- The bytes `lpq_sendfloat8` appends are the big-endian digits of the bit
pattern of the double. -/
theorem sendfloat8_bigendian (b : Bytes) (f : Nat) (h : f < 18446744073709551616) :
    ∃ bs, lpq_sendfloat8 b f = b ++ bs ∧ bs.length = 8 ∧ (∀ x ∈ bs, x < 256) ∧
      spec_bigendian bs = f := by
  have hr : -9223372036854775808 ≤ to_int64 (Int.ofNat f)
      ∧ to_int64 (Int.ofNat f) < 9223372036854775808 := by
    unfold to_int64
    constructor <;> omega
  obtain ⟨bs, e, hl, hb, hv⟩ := sendint64_bigendian b (to_int64 (Int.ofNat f)) hr.1 hr.2
  refine ⟨bs, e, hl, hb, ?_⟩
  rw [hv]
  unfold to_int64
  simp only [Int.ofNat_eq_coe]
  omega

/-- C18: the wire primitives are big-endian and mutually inverse.
`lpq_senduint32` appends exactly four bytes, the big-endian digits of the
number, and `lpq_getuint32` reads the number back; `lpq_sendint64` appends
exactly eight bytes, the big-endian digits of the two's complement of the
number (the high 32-bit word first), and `lpq_getint64` reads the number back,
negative numbers included; four or eight bytes that are read and sent again
are the same bytes; the float helpers send and read the bit pattern of the
float through the same two integer paths, unchanged. -/
theorem wire_primitives_inverse :
    (∀ (b : Bytes) (n : Nat), n < 4294967296 →
      (∃ bs, lpq_senduint32 b n = b ++ bs ∧ bs.length = 4 ∧ (∀ x ∈ bs, x < 256) ∧
        spec_bigendian bs = n) ∧
      lpq_getuint32 (lpq_senduint32 [] n) = some n) ∧
    (∀ (b : Bytes) (i : Int), -9223372036854775808 ≤ i → i < 9223372036854775808 →
      (∃ bs, lpq_sendint64 b i = b ++ bs ∧ bs.length = 8 ∧ (∀ x ∈ bs, x < 256) ∧
        spec_bigendian bs = (i % 18446744073709551616).toNat) ∧
      lpq_sendint64 b i
        = lpq_senduint32 (lpq_senduint32 b (to_uint32 (i / 4294967296))) (to_uint32 i) ∧
      lpq_getint64 (lpq_sendint64 [] i) = some i) ∧
    (∀ b0 b1 b2 b3 : Nat, b0 < 256 → b1 < 256 → b2 < 256 → b3 < 256 →
      ∃ n, lpq_getuint32 [b0, b1, b2, b3] = some n ∧
        lpq_senduint32 [] n = [b0, b1, b2, b3]) ∧
    (∀ b0 b1 b2 b3 b4 b5 b6 b7 : Nat, b0 < 256 → b1 < 256 → b2 < 256 → b3 < 256 →
      b4 < 256 → b5 < 256 → b6 < 256 → b7 < 256 →
      ∃ i, lpq_getint64 [b0, b1, b2, b3, b4, b5, b6, b7] = some i ∧
        lpq_sendint64 [] i = [b0, b1, b2, b3, b4, b5, b6, b7]) ∧
    (∀ (b : Bytes) (f : Nat), f < 4294967296 →
      lpq_sendfloat4 b f = lpq_senduint32 b f ∧
      lpq_getfloat4 (lpq_sendfloat4 [] f) = some f) ∧
    (∀ (b : Bytes) (f : Nat), f < 18446744073709551616 →
      (∃ bs, lpq_sendfloat8 b f = b ++ bs ∧ bs.length = 8 ∧ (∀ x ∈ bs, x < 256) ∧
        spec_bigendian bs = f) ∧
      lpq_getfloat8 (lpq_sendfloat8 [] f) = some f) := by
  refine ⟨?_, ?_, ?_, ?_, ?_, ?_⟩
  · intro b n h
    exact ⟨senduint32_bigendian b n h, getuint32_senduint32 n h⟩
  · intro b i h1 h2
    exact ⟨sendint64_bigendian b i h1 h2, sendint64_words b i, getint64_sendint64 i h1 h2⟩
  · intro b0 b1 b2 b3 h0 h1 h2 h3
    obtain ⟨n, hg, _, hs⟩ := senduint32_getuint32 b0 b1 b2 b3 h0 h1 h2 h3
    exact ⟨n, hg, hs⟩
  · intro b0 b1 b2 b3 b4 b5 b6 b7 h0 h1 h2 h3 h4 h5 h6 h7
    exact sendint64_getint64 b0 b1 b2 b3 b4 b5 b6 b7 h0 h1 h2 h3 h4 h5 h6 h7
  · intro b f h
    have e : ∀ b : Bytes, lpq_sendfloat4 b f = lpq_senduint32 b f := by
      intro b
      unfold lpq_sendfloat4
      rw [Nat.mod_eq_of_lt h]
    refine ⟨e b, ?_⟩
    unfold lpq_getfloat4
    rw [e []]
    exact getuint32_senduint32 f h
  · intro b f h
    exact ⟨sendfloat8_bigendian b f h, getfloat8_sendfloat8 f h⟩

theorem wire_primitives_inverse_witness :
    lpq_getuint32 (lpq_senduint32 [] 4294967295) = some 4294967295 ∧
      lpq_getint64 (lpq_sendint64 [] (-2)) = some (-2) ∧
      lpq_sendint64 [] (-2) = [255, 255, 255, 255, 255, 255, 255, 254] ∧
      (∃ n, lpq_getuint32 [1, 2, 3, 4] = some n ∧ lpq_senduint32 [] n = [1, 2, 3, 4]) ∧
      lpq_getfloat8 (lpq_sendfloat8 [] 13830554455654793216) = some 13830554455654793216 :=
  ⟨(wire_primitives_inverse.1 [] 4294967295 (by decide)).2,
    (wire_primitives_inverse.2.1 [] (-2) (by decide) (by decide)).2.2,
    rfl,
    wire_primitives_inverse.2.2.1 1 2 3 4 (by decide) (by decide) (by decide) (by decide),
    (wire_primitives_inverse.2.2.2.2.2 [] 13830554455654793216 (by decide)).2⟩

/-! ## Value codec : variable-length types and the interval -/

/-- Decoding under one of the five variable-length type ids returns the
payload as a string, whatever follows it in memory. -/
theorem varlen_decode (H : Host) (L : lua_State) (type : Nat)
    (ht : type = BYTEAOID ∨ type = TEXTOID ∨ type = JSONOID ∨ type = NAMEOID ∨ type = VARCHAROID)
    (s rest : Bytes) (mod : Int) (res : PGresult) (f row : Int) (fresh : Addr) :
    lpq_pushvalue H L type mod (s ++ rest) s.length res f row fresh = .ok (.string s) := by
  rcases ht with rfl | rfl | rfl | rfl | rfl <;>
    simp [lpq_pushvalue, pushlstring, BOOLOID, CHAROID, INT4OID, REGCLASSOID, OIDOID, INT8OID,
      FLOAT4OID, FLOAT8OID, TIMESTAMPOID, TIMESTAMPTZOID, BYTEAOID, TEXTOID, VARCHAROID, JSONOID,
      NAMEOID, Except.map]

/-- Encoding a string under one of the four variable-length type ids the
encoder has a case for appends the bytes of the string and returns their
number, and decoding those bytes gives the string back. -/
theorem varlen_roundtrip (H : Host) (L : lua_State) (type : Nat)
    (ht : type = BYTEAOID ∨ type = TEXTOID ∨ type = NAMEOID ∨ type = VARCHAROID)
    (s b : Bytes) (mod : Int) (res : PGresult) (f row : Int) (fresh : Addr) :
    lpq_tovalue H L (.string s) type b = .ok ((s.length : Int), b ++ s) ∧
      lpq_pushvalue H L type mod s s.length res f row fresh = .ok (.string s) := by
  constructor
  · rcases ht with rfl | rfl | rfl | rfl <;>
      simp [lpq_tovalue, lua_tolstring, INTERVALOID, BOOLOID, CHAROID, INT4OID, OIDOID, FLOAT4OID,
        FLOAT8OID, BYTEAOID, TEXTOID, BPCHAROID, NAMEOID, VARCHAROID]
  · have h := varlen_decode H L type (by tauto) s [] mod res f row fresh
    simpa using h

/-- For every string and every buffer, encoding under JSONOID with no entry
registered for that type id appends nothing and returns 0. -/
theorem json_encode_default (H : Host) (L : lua_State) (s b : Bytes)
    (h : lpq_gettypemt L JSONOID = none) :
    lpq_tovalue H L (.string s) JSONOID b = .ok (0, b) := by
  have h114 : lpq_gettypemt L 114 = none := h
  simp [lpq_tovalue, h114, tovalue_default, tovalue_raw, lua_touserdata, JSONOID, INTERVALOID,
    BOOLOID, CHAROID, INT4OID, OIDOID, FLOAT4OID, FLOAT8OID, BYTEAOID, TEXTOID, BPCHAROID,
    NAMEOID, VARCHAROID]

/-- C16 (the defect): the decoder has a case for JSONOID, next to the other
variable-length types, and the encoder has none.  The JSON text `{}` decodes
to itself; encoded under JSONOID it takes the default path, which, with no
entry registered for the type, appends nothing and returns 0, so that
decoding what was encoded gives the empty string.  Under TEXTOID the same
string is appended as it is. -/
theorem json_encode_appends_nothing :
    lpq_pushvalue plainHost luaopen_psql JSONOID (-1) [123, 125, 0] 2 oneRow 0 0 0
        = .ok (.string [123, 125]) ∧
      lpq_tovalue plainHost luaopen_psql (.string [123, 125]) JSONOID [] = .ok (0, []) ∧
      lpq_pushvalue plainHost luaopen_psql JSONOID (-1) [] 0 oneRow 0 0 0 = .ok (.string []) ∧
      lpq_tovalue plainHost luaopen_psql (.string [123, 125]) TEXTOID [] = .ok (2, [123, 125]) := by
  refine ⟨rfl, rfl, rfl, rfl⟩

/-- The four bytes `lpq_senduint32` appends are the big-endian digits of the
number modulo 2^32. -/
theorem senduint32_bigendian_mod (b : Bytes) (n : Nat) :
    ∃ bs, lpq_senduint32 b n = b ++ bs ∧ bs.length = 4 ∧ (∀ x ∈ bs, x < 256) ∧
      spec_bigendian bs = n % 4294967296 := by
  refine ⟨[n / 16777216 % 256, n / 65536 % 256, n / 256 % 256, n % 256], rfl, rfl, ?_, ?_⟩
  · intro x hx
    simp only [List.mem_cons, List.mem_singleton, List.not_mem_nil, or_false] at hx
    omega
  · simp only [spec_bigendian, List.foldl]
    omega

/-- The layout of an encoded interval, on every host: 16 is returned and 16
bytes are appended, the big-endian bit pattern of the double `time`, then the
big-endian digits of `(uint32) day` and of `(uint32) month`, where `day` and
`month` are doubles and the conversion is the one of the host. -/
theorem interval_layout (H : Host) (L : lua_State) (v time day month : LuaValue) (b : Bytes)
    (ht : lua_getfield H v (cstr "time") = .ok time)
    (hd : lua_getfield H v (cstr "day") = .ok day)
    (hm : lua_getfield H v (cstr "month") = .ok month)
    (hbits : lua_tonumber H time < 18446744073709551616) :
    ∃ bt bd bm, lpq_tovalue H L v INTERVALOID b = .ok (16, b ++ (bt ++ (bd ++ bm))) ∧
      bt.length = 8 ∧ bd.length = 4 ∧ bm.length = 4 ∧
      (∀ x ∈ bt ++ (bd ++ bm), x < 256) ∧
      spec_bigendian bt = lua_tonumber H time ∧
      spec_bigendian bd = H.float2uint32 (lua_tonumber H day) % 4294967296 ∧
      spec_bigendian bm = H.float2uint32 (lua_tonumber H month) % 4294967296 := by
  obtain ⟨bt, et, lt, xt, vt⟩ := sendfloat8_bigendian b _ hbits
  obtain ⟨bd, ed, ld, xd, vd⟩ :=
    senduint32_bigendian_mod (b ++ bt) (H.float2uint32 (lua_tonumber H day))
  obtain ⟨bm, em, lm, xm, vm⟩ :=
    senduint32_bigendian_mod ((b ++ bt) ++ bd) (H.float2uint32 (lua_tonumber H month))
  refine ⟨bt, bd, bm, ?_, lt, ld, lm, ?_, vt, vd, vm⟩
  · simp only [lpq_tovalue, ht, hd, hm, if_true]
    rw [et, ed, em]
    simp only [List.append_assoc]
  · intro x hx
    simp only [List.mem_append] at hx
    rcases hx with hx | hx | hx
    · exact xt x hx
    · exact xd x hx
    · exact xm x hx

/-- The layout of the claim, where C defines the conversions: on a host that
converts the integers of the `uint32` range to doubles and back without
change, an interval whose `day` and `month` are integers from 0 to 2^31 - 1
is encoded with the four big-endian bytes of `day` and of `month`. -/
theorem interval_layout_nonnegative (H : Host) (L : lua_State) (t d m : Int) (b : Bytes)
    (hH : ∀ n : Int, 0 ≤ n → n < 4294967296 → H.float2uint32 (H.int2float n) = n.toNat)
    (hd0 : 0 ≤ d) (hd1 : d < 2147483648) (hm0 : 0 ≤ m) (hm1 : m < 2147483648) :
    lpq_tovalue H L (sampleInterval t d m) INTERVALOID b
      = .ok (16, lpq_senduint32 (lpq_senduint32 (lpq_sendfloat8 b (H.int2float t)) (to_uint32 d))
          (to_uint32 m)) := by
  have e1 : H.float2uint32 (H.int2float d) = to_uint32 d := by
    rw [hH d hd0 (by omega)]
    unfold to_uint32
    omega
  have e2 : H.float2uint32 (H.int2float m) = to_uint32 m := by
    rw [hH m hm0 (by omega)]
    unfold to_uint32
    omega
  have g1 : lua_getfield H (sampleInterval t d m) (cstr "time") = .ok (.integer t) := rfl
  have g2 : lua_getfield H (sampleInterval t d m) (cstr "day") = .ok (.integer d) := rfl
  have g3 : lua_getfield H (sampleInterval t d m) (cstr "month") = .ok (.integer m) := rfl
  simp only [lpq_tovalue, g1, g2, g3, if_true, lua_tonumber, lua_cvt2num, e1, e2]

/-- C15 (the defect): the interval of minus one day, `time = 0`, `day = -1`,
`month = 2`.  The encoder sends `(uint32) lua_tonumber(...)`, the conversion
of the double -1.0 to an unsigned integer, which C leaves undefined: a host
that takes the low word of a 64 bit conversion writes `ff ff ff ff` for the
day, a host that saturates writes `00 00 00 00`, where the claim has the
two's complement `ff ff ff ff` on every host.  The case INT4OID next to it,
which converts with `lua_tointeger`, sends the two's complement of -1 whatever
the host does with doubles. -/
theorem interval_negative_day :
    lpq_tovalue wrapHost luaopen_psql (sampleInterval 0 (-1) 2) INTERVALOID []
        = .ok (16, [0, 0, 0, 0, 0, 0, 0, 0, 255, 255, 255, 255, 0, 0, 0, 2]) ∧
      lpq_tovalue satHost luaopen_psql (sampleInterval 0 (-1) 2) INTERVALOID []
        = .ok (16, [0, 0, 0, 0, 0, 0, 0, 0, 0, 0, 0, 0, 0, 0, 0, 2]) ∧
      (∀ H : Host, lpq_tovalue H luaopen_psql (.integer (-1)) INT4OID []
        = .ok (4, [255, 255, 255, 255])) := by
  refine ⟨rfl, rfl, fun H => ?_⟩
  have h : lpq_tovalue H luaopen_psql (.integer (-1)) INT4OID []
      = .ok (4, lpq_senduint32 [] (to_uint32 (-1))) := by
    simp [lpq_tovalue, lua_tointeger, lua_cvt2num, INTERVALOID, BOOLOID, CHAROID, INT4OID]
  rw [h]
  rfl

/-! ## Value codec : arrays -/

theorem enumFrom_keys (vs : List LuaValue) : ∀ n : Nat,
    ((vs.enumFrom n).map
        (fun p => ((LuaValue.integer ((p.1 : Int) + 1), p.2) : LuaValue × LuaValue))).map Prod.fst
      = (List.range' n vs.length).map (fun (i : Nat) => LuaValue.integer ((i : Int) + 1)) := by
  induction vs with
  | nil => intro n; rfl
  | cons v vs ih =>
    intro n
    simp only [List.enumFrom_cons, List.map_cons, List.length_cons, List.range'_succ]
    rw [ih (n + 1)]

theorem rawget_enumFrom (vs : List LuaValue) : ∀ (n i : Nat) (h : i < vs.length),
    rawget ((vs.enumFrom n).map
        (fun p => ((LuaValue.integer ((p.1 : Int) + 1), p.2) : LuaValue × LuaValue)))
      (.integer (((n + i : Nat) : Int) + 1)) = vs[i] := by
  induction vs with
  | nil => intro n i h; simp at h
  | cons v vs ih =>
    intro n i h
    cases i with
    | zero =>
      simp [rawget, List.enumFrom_cons, List.find?_cons, keyeq]
    | succ i =>
      have hne : ((n : Int) + 1 == ((n + (i + 1) : Nat) : Int) + 1) = false := by
        simp only [beq_eq_false_iff_ne, ne_eq]
        omega
      have hi : i < vs.length := by simpa using h
      have := ih (n + 1) i hi
      have e : ((n + 1 + i : Nat) : Int) = ((n + (i + 1) : Nat) : Int) := by omega
      rw [e] at this
      simp only [rawget, List.enumFrom_cons, List.map_cons, List.find?_cons, keyeq, hne,
        List.getElem_cons_succ]
      exact this

/-- The table the array loop builds is the 1-indexed sequence of the values
pushed for the elements, in the order of the elements. -/
theorem pusharray_sequence (fresh : Addr) (conv : PGelem → Except Fault LuaValue)
    (es : List PGelem) (vs : List LuaValue) (h : es.mapM conv = .ok vs) :
    ∃ t, pusharray fresh conv es = .ok t ∧ spec_sequence t vs := by
  refine ⟨.table fresh none (vs.enum.map (fun p => (.integer ((p.1 : Int) + 1), p.2))), ?_, ?_⟩
  · simp only [pusharray, h, Except.map]
  · refine ⟨fresh, _, rfl, ?_, ?_⟩
    · have := enumFrom_keys vs 0
      simpa [List.enum, List.range_eq_range'] using this
    · intro i hi
      have := rawget_enumFrom vs 0 i hi
      simpa [List.enum] using this

theorem mapM_conv {α : Type} (conv : PGelem → Except Fault LuaValue) (mk : α → PGelem)
    (g : α → LuaValue) (h : ∀ a, conv (mk a) = .ok (g a)) (xs : List α) :
    (xs.map mk).mapM conv = .ok (xs.map g) := by
  induction xs with
  | nil => rfl
  | cons x xs ih =>
    simp only [List.map_cons, List.mapM_cons, h, ih, bind, Except.bind, pure, Except.pure]

theorem take_strlen (s : Bytes) (h : 0 ∉ s) : (s ++ [0]).take (strlen (s ++ [0])) = s := by
  have e : ∀ s : Bytes, 0 ∉ s → (s ++ [0]).takeWhile (fun c => c != 0) = s := by
    intro s
    induction s with
    | nil => intro _; rfl
    | cons a s ih =>
      intro h
      simp only [List.mem_cons, not_or] at h
      have ha : (a != 0) = true := by
        simp only [bne_iff_ne, ne_eq]
        exact fun hh => h.1 hh.symm
      simp only [List.cons_append, List.takeWhile_cons, ha, if_true, ih h.2]
  unfold strlen
  rw [e s h]
  simp

/-- The seven array type ids are outside the cases of the encoder. -/
theorem array_types_not_encoded :
    ∀ type ∈ [INTEGERARRAYOID, BIGINTEGERARRAYOID, VARCHARARRAYOID, TIMESTAMPARRAYOID,
      TIMESTAMPTZARRAYOID, FLOAT4ARRAYOID, FLOAT8ARRAYOID], type ∉ tovalue_builtin := by
  decide

/-- For every table, every buffer and every type id outside the cases of the
encoder with no entry registered for it (the array type ids, in the loaded
library), encoding appends nothing and returns 0. -/
theorem table_encode_default (H : Host) (L : lua_State) (type : Nat) (id : Addr)
    (mt : Option Addr) (es : List (LuaValue × LuaValue)) (b : Bytes)
    (hB : type ∉ tovalue_builtin) (h : lpq_gettypemt L type = none) :
    lpq_tovalue H L (.table id mt es) type b = .ok (0, b) := by
  simp only [tovalue_builtin, List.mem_cons, List.mem_singleton, not_or, List.not_mem_nil,
    or_false] at hB
  obtain ⟨h1, h2, h3, h4, h5, h6, h7, h8, h9, h10, h11, h12⟩ := hB
  simp [lpq_tovalue, tovalue_default, tovalue_raw, lua_touserdata, h, h1, h2, h3, h4, h5, h6, h7,
    h8, h9, h10, h11, h12]

/-- C14 as stated fails: the encoder has no array case.  The table `{1, 2, 3}`
encoded under the `int4[]` type id takes the default path, which appends
nothing and returns 0, as it does for the table `{4, 5, 6}`: the parameter the
server gets has no bytes, and holds nothing the server could echo. -/
theorem array_encode_appends_nothing :
    lpq_tovalue plainHost luaopen_psql (sampleArray 7 1 2 3) INTEGERARRAYOID [] = .ok (0, []) ∧
      lpq_tovalue plainHost luaopen_psql (sampleArray 8 4 5 6) INTEGERARRAYOID [] = .ok (0, []) := by
  refine ⟨rfl, rfl⟩

/-- C14 amended: for each of the seven array type ids, when the array accessor
of the transport yields the elements `e_0 .. e_(n-1)` for the field, decoding
returns a new table that is the 1-indexed sequence of the values pushed for
the elements, in their order: keys exactly `1 .. n`, the value of `e_i` at key
`i + 1`.  The value pushed is the double `(double) e_i` for an `int4`, an
`int8` and an epoch, the string up to its terminating zero for a `varchar`,
and the double for a `float4` and a `float8`. -/
theorem array_decode_in_order (H : Host) (L : lua_State) (mod : Int) (value : Bytes)
    (length : Int) (res : PGresult) (f row : Int) (fresh : Addr) (c : PGcell)
    (hc : res.cell row f = some c) :
    (∀ (type : Nat) (vs : List Int), type = INTEGERARRAYOID ∨ type = BIGINTEGERARRAYOID →
      c.arr = some (vs.map PGelem.int) →
      ∃ t, lpq_pushvalue H L type mod value length res f row fresh = .ok t ∧
        spec_sequence t (vs.map (fun v => LuaValue.float (H.int2float v)))) ∧
    (∀ (ss : List Bytes), (∀ s ∈ ss, 0 ∉ s) →
      c.arr = some (ss.map (fun s => PGelem.text (s ++ [0]))) →
      ∃ t, lpq_pushvalue H L VARCHARARRAYOID mod value length res f row fresh = .ok t ∧
        spec_sequence t (ss.map LuaValue.string)) ∧
    (∀ (type : Nat) (vs : List Int), type = TIMESTAMPARRAYOID ∨ type = TIMESTAMPTZARRAYOID →
      c.arr = some (vs.map PGelem.epoch) →
      ∃ t, lpq_pushvalue H L type mod value length res f row fresh = .ok t ∧
        spec_sequence t (vs.map (fun v => LuaValue.float (H.int2float v)))) ∧
    (∀ (fs : List Nat), c.arr = some (fs.map PGelem.float) →
      (∃ t, lpq_pushvalue H L FLOAT8ARRAYOID mod value length res f row fresh = .ok t ∧
        spec_sequence t (fs.map LuaValue.float)) ∧
      (∃ t, lpq_pushvalue H L FLOAT4ARRAYOID mod value length res f row fresh = .ok t ∧
        spec_sequence t (fs.map (fun x => LuaValue.float (H.float4to8 x))))) := by
  refine ⟨?_, ?_, ?_, ?_⟩
  · intro type vs ht ha
    have hm := mapM_conv (pushelem_int H) PGelem.int (fun v => LuaValue.float (H.int2float v))
      (fun _ => rfl) vs
    obtain ⟨t, h1, h2⟩ := pusharray_sequence fresh _ _ _ hm
    refine ⟨t, ?_, h2⟩
    rw [← h1]
    rcases ht with rfl | rfl <;>
      simp [lpq_pushvalue, hc, ha, bind, Except.bind, BOOLOID, CHAROID, INT4OID, REGCLASSOID, OIDOID, INT8OID, FLOAT4OID, FLOAT8OID, TIMESTAMPOID,
        TIMESTAMPTZOID, BYTEAOID, TEXTOID, VARCHAROID, JSONOID, NAMEOID, INTEGERARRAYOID,
        BIGINTEGERARRAYOID, VARCHARARRAYOID, TIMESTAMPARRAYOID, TIMESTAMPTZARRAYOID,
        FLOAT8ARRAYOID, FLOAT4ARRAYOID]
  · intro ss hs ha
    have hm := mapM_conv pushelem_varchar (fun s => PGelem.text (s ++ [0]))
      (fun s => LuaValue.string ((s ++ [0]).take (strlen (s ++ [0])))) (fun _ => rfl) ss
    have hg : ss.map (fun s => LuaValue.string ((s ++ [0]).take (strlen (s ++ [0]))))
        = ss.map LuaValue.string := by
      apply List.map_congr_left
      intro s h
      rw [take_strlen s (hs s h)]
    rw [hg] at hm
    obtain ⟨t, h1, h2⟩ := pusharray_sequence fresh _ _ _ hm
    refine ⟨t, ?_, h2⟩
    rw [← h1]
    simp [lpq_pushvalue, hc, ha, bind, Except.bind, BOOLOID, CHAROID, INT4OID, REGCLASSOID, OIDOID, INT8OID, FLOAT4OID, FLOAT8OID, TIMESTAMPOID,
        TIMESTAMPTZOID, BYTEAOID, TEXTOID, VARCHAROID, JSONOID, NAMEOID, INTEGERARRAYOID,
        BIGINTEGERARRAYOID, VARCHARARRAYOID, TIMESTAMPARRAYOID, TIMESTAMPTZARRAYOID,
        FLOAT8ARRAYOID, FLOAT4ARRAYOID]
  · intro type vs ht ha
    have hm := mapM_conv (pushelem_timestamp H) PGelem.epoch
      (fun v => LuaValue.float (H.int2float v)) (fun _ => rfl) vs
    obtain ⟨t, h1, h2⟩ := pusharray_sequence fresh _ _ _ hm
    refine ⟨t, ?_, h2⟩
    rw [← h1]
    rcases ht with rfl | rfl <;>
      simp [lpq_pushvalue, hc, ha, bind, Except.bind, BOOLOID, CHAROID, INT4OID, REGCLASSOID, OIDOID, INT8OID, FLOAT4OID, FLOAT8OID, TIMESTAMPOID,
        TIMESTAMPTZOID, BYTEAOID, TEXTOID, VARCHAROID, JSONOID, NAMEOID, INTEGERARRAYOID,
        BIGINTEGERARRAYOID, VARCHARARRAYOID, TIMESTAMPARRAYOID, TIMESTAMPTZARRAYOID,
        FLOAT8ARRAYOID, FLOAT4ARRAYOID]
  · intro fs ha
    constructor
    · have hm := mapM_conv (pushelem_float H FLOAT8ARRAYOID) PGelem.float
        (fun x => LuaValue.float x) (fun _ => by simp [pushelem_float]) fs
      obtain ⟨t, h1, h2⟩ := pusharray_sequence fresh _ _ _ hm
      refine ⟨t, ?_, h2⟩
      rw [← h1]
      simp [lpq_pushvalue, hc, ha, bind, Except.bind, BOOLOID, CHAROID, INT4OID, REGCLASSOID, OIDOID, INT8OID, FLOAT4OID, FLOAT8OID, TIMESTAMPOID,
        TIMESTAMPTZOID, BYTEAOID, TEXTOID, VARCHAROID, JSONOID, NAMEOID, INTEGERARRAYOID,
        BIGINTEGERARRAYOID, VARCHARARRAYOID, TIMESTAMPARRAYOID, TIMESTAMPTZARRAYOID,
        FLOAT8ARRAYOID, FLOAT4ARRAYOID]
    · have hm := mapM_conv (pushelem_float H FLOAT4ARRAYOID) PGelem.float
        (fun x => LuaValue.float (H.float4to8 x))
        (fun _ => by simp [pushelem_float, FLOAT4ARRAYOID, FLOAT8ARRAYOID]) fs
      obtain ⟨t, h1, h2⟩ := pusharray_sequence fresh _ _ _ hm
      refine ⟨t, ?_, h2⟩
      rw [← h1]
      simp [lpq_pushvalue, hc, ha, bind, Except.bind, BOOLOID, CHAROID, INT4OID, REGCLASSOID, OIDOID, INT8OID, FLOAT4OID, FLOAT8OID, TIMESTAMPOID,
        TIMESTAMPTZOID, BYTEAOID, TEXTOID, VARCHAROID, JSONOID, NAMEOID, INTEGERARRAYOID,
        BIGINTEGERARRAYOID, VARCHARARRAYOID, TIMESTAMPARRAYOID, TIMESTAMPTZARRAYOID,
        FLOAT8ARRAYOID, FLOAT4ARRAYOID]

theorem array_decode_in_order_witness :
    (∃ t, lpq_pushvalue wrapHost luaopen_psql INTEGERARRAYOID (-1) [] 0 oneArray 0 0 9 = .ok t ∧
        spec_sequence t ([1, 2, 3].map (fun v => LuaValue.float (wrapHost.int2float v)))) ∧
      lpq_pushvalue wrapHost luaopen_psql INTEGERARRAYOID (-1) [] 0 oneArray 0 0 9
        = .ok (.table 9 none [(.integer 1, .float 4607182418800017408),
            (.integer 2, .float 4611686018427387904), (.integer 3, .float 4613937818241073152)]) :=
  ⟨(array_decode_in_order wrapHost luaopen_psql (-1) [] 0 oneArray 0 0 9
      { isnull := false, value := [], length := 0, epoch := none,
        arr := some [.int 1, .int 2, .int 3] } rfl).1 INTEGERARRAYOID [1, 2, 3] (Or.inl rfl) rfl,
    rfl⟩

/-! ## Type registry -/

/-- Outside its case labels the decoder is its default case. -/
theorem pushvalue_not_builtin (H : Host) (L : lua_State) (type : Nat) (mod : Int)
    (value : Bytes) (length : Int) (res : PGresult) (f row : Int) (fresh : Addr)
    (hB : type ∉ pushvalue_builtin) :
    lpq_pushvalue H L type mod value length res f row fresh
      = pushvalue_default H L type mod value length := by
  simp only [pushvalue_builtin, List.mem_cons, List.mem_singleton, not_or, List.not_mem_nil,
    or_false] at hB
  obtain ⟨h1, h2, h3, h4, h5, h6, h7, h8, h9, h10, h11, h12, h13, h14, h15, h16, h17, h18, h19,
    h20, h21, h22, h23⟩ := hB
  simp [lpq_pushvalue, h1, h2, h3, h4, h5, h6, h7, h8, h9, h10, h11, h12, h13, h14, h15, h16, h17,
    h18, h19, h20, h21, h22, h23]

/-- A table after `lua_setfield` is the same table (identity and metatable),
and is not nil. -/
theorem lua_setfield_table {H : Host} {id : Addr} {m : Option Addr}
    {es : List (LuaValue × LuaValue)} {k : Bytes} {v c1 : LuaValue}
    (h : lua_setfield H (.table id m es) k v = .ok c1) :
    ∃ es1, c1 = .table id m es1 ∧ (m = none → es1 = rawset es (.string k) v) := by
  cases m with
  | none =>
    simp only [lua_setfield, Except.ok.injEq] at h
    exact ⟨_, h.symm, fun _ => rfl⟩
  | some a =>
    simp only [lua_setfield] at h
    split at h
    · split at h
      · simp only [Except.ok.injEq] at h
        exact ⟨_, h.symm, fun hh => by simp at hh⟩
      · simp at h
    · simp only [Except.ok.injEq] at h
      exact ⟨_, h.symm, fun hh => by simp at hh⟩

theorem to_int32_inj (u t : Nat) (hu : u < 4294967296) (ht : t < 4294967296) (h : u ≠ t) :
    to_int32 (u : Int) ≠ to_int32 (t : Int) := by
  unfold to_int32
  omega

/-- The state after a successful `register`: the entry is stored at the key
of the type id, nothing else changes. -/
theorem lpq_register_ok (H : Host) (L : lua_State) (v : LuaValue) (i : Int) (id : Addr)
    (m : Option Addr) (es : List (LuaValue × LuaValue)) (rest : List LuaValue) (c1 : LuaValue)
    (fresh : Addr) (hi : luaL_checkinteger H v = .ok i)
    (hset : lua_setfield H (.table id m es) LPQ_REGMT_OID
      (.integer (to_int32 (to_uint32 i))) = .ok c1) :
    lpq_register H L (v :: .table id m es :: rest) fresh
      = (.ok [], { L with typemt := rawset L.typemt (.integer (to_int32 (to_uint32 i))) c1 }) := by
  have e0 : arg (v :: LuaValue.table id m es :: rest) 1 = v := rfl
  have e : arg (v :: LuaValue.table id m es :: rest) 2 = .table id m es := rfl
  simp only [lpq_register, e0, e, hi, hset]

/-- After a successful `register` the lookup of the type id finds the table
registered. -/
theorem register_lookup_self (H : Host) (L : lua_State) (v : LuaValue) (i : Int) (id : Addr)
    (m : Option Addr) (es : List (LuaValue × LuaValue)) (rest : List LuaValue) (c1 : LuaValue)
    (fresh : Addr) (hi : luaL_checkinteger H v = .ok i)
    (hset : lua_setfield H (.table id m es) LPQ_REGMT_OID
      (.integer (to_int32 (to_uint32 i))) = .ok c1) :
    lpq_gettypemt (lpq_register H L (v :: .table id m es :: rest) fresh).2 (to_uint32 i)
      = some c1 := by
  obtain ⟨es1, hc1, _⟩ := lua_setfield_table hset
  rw [lpq_register_ok H L v i id m es rest c1 fresh hi hset]
  simp only [lpq_gettypemt, rawget_rawset_self]
  rw [hc1]

/-- After a successful `register` the lookup of another type id finds what it
found before. -/
theorem register_lookup_other (H : Host) (L : lua_State) (v : LuaValue) (i : Int) (id : Addr)
    (m : Option Addr) (es : List (LuaValue × LuaValue)) (rest : List LuaValue) (c1 : LuaValue)
    (fresh : Addr) (hi : luaL_checkinteger H v = .ok i)
    (hset : lua_setfield H (.table id m es) LPQ_REGMT_OID
      (.integer (to_int32 (to_uint32 i))) = .ok c1)
    (u : Nat) (hu : u < 4294967296) (hne : u ≠ to_uint32 i) :
    lpq_gettypemt (lpq_register H L (v :: .table id m es :: rest) fresh).2 u
      = lpq_gettypemt L u := by
  rw [lpq_register_ok H L v i id m es rest c1 fresh hi hset]
  simp only [lpq_gettypemt]
  rw [rawget_rawset_ne _ _ _ _ (to_int32_inj u (to_uint32 i) hu (to_uint32_lt i) hne)]

/-- C13: the type registry is a last-write-wins map.  After `luaopen_psql` the
lookup of every type id finds nothing.  A call `register(t, c)` with a table
`c` that returns (the type id converts to an integer, the store of `__oid`
into `c` raises no error) returns nothing and leaves a registry in which the
lookup of `t` finds `c` itself, with its field `__oid` set, whatever was
registered for `t` before, and in which the lookup of every other type id
finds what it found before; nothing else of the state changes. -/
theorem registry_last_write_wins (H : Host) (L : lua_State) (v : LuaValue) (i : Int) (id : Addr)
    (m : Option Addr) (es : List (LuaValue × LuaValue)) (rest : List LuaValue) (c1 : LuaValue)
    (fresh : Addr) (hi : luaL_checkinteger H v = .ok i)
    (hset : lua_setfield H (.table id m es) LPQ_REGMT_OID
      (.integer (to_int32 (to_uint32 i))) = .ok c1) :
    (∀ u, lpq_gettypemt luaopen_psql u = none) ∧
      (lpq_register H L (v :: .table id m es :: rest) fresh).1 = .ok [] ∧
      lpq_gettypemt (lpq_register H L (v :: .table id m es :: rest) fresh).2 (to_uint32 i)
        = some c1 ∧
      (∃ es1, c1 = .table id m es1 ∧
        (m = none → es1 = rawset es (.string LPQ_REGMT_OID)
          (.integer (to_int32 (to_uint32 i))))) ∧
      (∀ u, u < 4294967296 → u ≠ to_uint32 i →
        lpq_gettypemt (lpq_register H L (v :: .table id m es :: rest) fresh).2 u
          = lpq_gettypemt L u) ∧
      (lpq_register H L (v :: .table id m es :: rest) fresh).2
        = { L with typemt := (lpq_register H L (v :: .table id m es :: rest) fresh).2.typemt } := by
  have hr := lpq_register_ok H L v i id m es rest c1 fresh hi hset
  refine ⟨fun u => rfl, ?_, register_lookup_self H L v i id m es rest c1 fresh hi hset,
    lua_setfield_table hset,
    register_lookup_other H L v i id m es rest c1 fresh hi hset, ?_⟩
  · rw [hr]
  · rw [hr]

theorem registry_last_write_wins_witness :
    lpq_gettypemt (lpq_register plainHost sampleRegistry [.integer 21, sampleCodec 501 8] 0).2 21
        = some (.table 501 none [(.string LPQ_REGMT_RECV, .function 8),
            (.string LPQ_REGMT_OID, .integer 21)]) ∧
      lpq_gettypemt
          (lpq_register plainHost sampleRegistry [.integer 600, sampleCodec 501 8] 0).2 21
        = lpq_gettypemt sampleRegistry 21 :=
  ⟨(registry_last_write_wins plainHost sampleRegistry (.integer 21) 21 501 none
      [(.string LPQ_REGMT_RECV, .function 8)] [] _ 0 rfl rfl).2.2.1,
    (registry_last_write_wins plainHost sampleRegistry (.integer 600) 600 501 none
      [(.string LPQ_REGMT_RECV, .function 8)] [] _ 0 rfl rfl).2.2.2.2.1 21 (by decide)
      (by decide)⟩

/-- With a second argument that is no table, `register` stores a new table
that holds the field `__oid` only. -/
theorem register_without_table (H : Host) (L : lua_State) (i : Int) (fresh : Addr) :
    (lpq_register H L [.integer i] fresh).1 = .ok [] ∧
      (lpq_register H L [.integer i] fresh).2.typemt
        = rawset L.typemt (.integer (to_int32 (to_uint32 i)))
          (.table fresh none [(.string LPQ_REGMT_OID, .integer (to_int32 (to_uint32 i)))]) :=
  ⟨rfl, rfl⟩

/-- The default case of the decoder reads the registry at the key of the type
id only: two states whose lookup of the type id agrees decode alike. -/
theorem pushvalue_default_congr (H : Host) (L L2 : lua_State) (type : Nat) (mod : Int)
    (value : Bytes) (length : Int) (h : lpq_gettypemt L2 type = lpq_gettypemt L type) :
    pushvalue_default H L2 type mod value length = pushvalue_default H L type mod value length := by
  simp only [pushvalue_default, h]

/-- The default case of the decoder with an entry whose receive function
returns a value that carries the entry as its metatable: the value is the
result. -/
theorem pushvalue_default_consistent (H : Host) (L : lua_State) (type : Nat) (mod : Int)
    (payload rest : Bytes) (entry recv r : LuaValue) (fn : Nat)
    (he : lpq_gettypemt L type = some entry)
    (hrecv : lua_getfield H entry LPQ_REGMT_RECV = .ok recv) (hfn : funcid recv = some fn)
    (hcall : H.call fn [.string payload, .integer mod] = some r)
    (hmark : mtIs (lua_getmetatable H r) entry = true) :
    pushvalue_default H L type mod (payload ++ rest) payload.length = .ok r := by
  simp [pushvalue_default, he, hrecv, hfn, pushlstring, hcall, hmark]

/-- C11: registry dispatch on decode.  For a type id `t` outside the cases of
the decoder, after `register(t, A)` and then `register(t, B)` with a table `B`
(whatever `A` is and whether or not its registration returned), the lookup of
`t` finds `B`; when the field `__recv` of `B` is a function that, called with
the payload and the modifier, returns a value `r` whose metatable is `B`,
decoding returns exactly `r`; and for every input, decoding is what it is when
`B` alone was registered.  Nothing is assumed of the host about a function of
`A`: the result stands also where every call of such a function raises an
error, so none is called. -/
theorem registry_decode_uses_latest (H : Host) (L : lua_State) (t : Nat) (A : LuaValue)
    (idB : Addr) (mB : Option Addr) (esB : List (LuaValue × LuaValue)) (entry recv r : LuaValue)
    (fn : Nat) (freshA freshB : Addr) (mod : Int) (payload rest : Bytes) (res : PGresult)
    (f row : Int) (fresh : Addr)
    (ht : t < 4294967296) (hB : t ∉ pushvalue_builtin)
    (hset : lua_setfield H (.table idB mB esB) LPQ_REGMT_OID (.integer (to_int32 t)) = .ok entry)
    (hrecv : lua_getfield H entry LPQ_REGMT_RECV = .ok recv) (hfn : funcid recv = some fn)
    (hcall : H.call fn [.string payload, .integer mod] = some r)
    (hmark : lua_getmetatable H r = some idB) :
    lpq_gettypemt (lpq_register H (lpq_register H L [.integer t, A] freshA).2
        [.integer t, .table idB mB esB] freshB).2 t = some entry ∧
      (∃ es1, entry = .table idB mB es1) ∧
      lpq_pushvalue H (lpq_register H (lpq_register H L [.integer t, A] freshA).2
        [.integer t, .table idB mB esB] freshB).2 t mod (payload ++ rest) payload.length
        res f row fresh = .ok r ∧
      (∀ (mod2 : Int) (value2 : Bytes) (length2 : Int),
        lpq_pushvalue H (lpq_register H (lpq_register H L [.integer t, A] freshA).2
          [.integer t, .table idB mB esB] freshB).2 t mod2 value2 length2 res f row fresh
        = lpq_pushvalue H (lpq_register H L [.integer t, .table idB mB esB] freshB).2 t
          mod2 value2 length2 res f row fresh) := by
  have hu : to_uint32 (t : Int) = t := by
    unfold to_uint32
    omega
  have hset2 : lua_setfield H (.table idB mB esB) LPQ_REGMT_OID
      (.integer (to_int32 (to_uint32 (t : Int)))) = .ok entry := by
    rw [hu]
    exact hset
  have hlook : ∀ L0 : lua_State,
      lpq_gettypemt (lpq_register H L0 [.integer t, .table idB mB esB] freshB).2 t
        = some entry := by
    intro L0
    have h := register_lookup_self H L0 (.integer t) t idB mB esB [] entry freshB rfl hset2
    rw [hu] at h
    exact h
  obtain ⟨es1, he1, _⟩ := lua_setfield_table hset
  have hm : mtIs (lua_getmetatable H r) entry = true := by
    rw [hmark, he1]
    simp [mtIs]
  refine ⟨hlook _, ⟨es1, he1⟩, ?_, ?_⟩
  · rw [pushvalue_not_builtin _ _ _ _ _ _ _ _ _ _ hB]
    exact pushvalue_default_consistent H _ t mod payload rest entry recv r fn (hlook _) hrecv hfn
      hcall hm
  · intro mod2 value2 length2
    rw [pushvalue_not_builtin _ _ _ _ _ _ _ _ _ _ hB, pushvalue_not_builtin _ _ _ _ _ _ _ _ _ _ hB]
    apply pushvalue_default_congr
    rw [hlook, hlook]

theorem registry_decode_uses_latest_witness :
    lpq_pushvalue codecHost
        (lpq_register codecHost (lpq_register codecHost luaopen_psql
          [.integer 21, sampleCodec 500 9] 0).2 [.integer 21, sampleCodec 501 8] 0).2
        21 (-1) ([0, 7] ++ [0]) ([0, 7] : Bytes).length oneRow 0 0 0
      = .ok (.userdata (some 501) [0, 7]) ∧
      codecHost.call 9 [.string [0, 7], .integer (-1)] = none :=
  ⟨(registry_decode_uses_latest codecHost luaopen_psql 21 (sampleCodec 500 9) 501 none
      [(.string LPQ_REGMT_RECV, .function 8)] _ (.function 8) (.userdata (some 501) [0, 7]) 8 0 0
      (-1) [0, 7] [0] oneRow 0 0 0 (by decide) (by decide) rfl rfl rfl rfl rfl).2.2.1,
    rfl⟩

/-- C12: decode fallback.  For a type id outside the cases of the decoder and
a payload of `n` bytes, when the registry has no entry for the type id, or
the field `__recv` of the entry is no function, or the function returns a
value whose metatable is not the entry, decoding returns a new userdata
without metatable that holds exactly the `n` bytes of the payload, and raises
no error. -/
theorem decode_fallback_blob (H : Host) (L : lua_State) (t : Nat) (mod : Int)
    (payload rest : Bytes) (res : PGresult) (f row : Int) (fresh : Addr)
    (hB : t ∉ pushvalue_builtin)
    (hpath : lpq_gettypemt L t = none ∨
      (∃ entry recv, lpq_gettypemt L t = some entry ∧
        lua_getfield H entry LPQ_REGMT_RECV = .ok recv ∧ funcid recv = none) ∨
      (∃ entry recv fn r, lpq_gettypemt L t = some entry ∧
        lua_getfield H entry LPQ_REGMT_RECV = .ok recv ∧ funcid recv = some fn ∧
        H.call fn [.string payload, .integer mod] = some r ∧
        mtIs (lua_getmetatable H r) entry = false)) :
    lpq_pushvalue H L t mod (payload ++ rest) payload.length res f row fresh
        = .ok (.userdata none payload) ∧
      lua_touserdata H (.userdata none payload) = some payload := by
  refine ⟨?_, rfl⟩
  rw [pushvalue_not_builtin _ _ _ _ _ _ _ _ _ _ hB]
  rcases hpath with h | ⟨entry, recv, he, hr, hf⟩ | ⟨entry, recv, fn, r, he, hr, hf, hc, hm⟩
  · simp [pushvalue_default, h, pushblob]
  · simp [pushvalue_default, he, hr, hf, pushblob]
  · simp [pushvalue_default, he, hr, hf, pushlstring, hc, hm, pushblob]

theorem decode_fallback_blob_witness :
    (lpq_pushvalue plainHost luaopen_psql 21 (-1) ([0, 7] ++ [0]) ([0, 7] : Bytes).length
        oneRow 0 0 0 = .ok (.userdata none [0, 7]) ∧
      lua_touserdata plainHost (.userdata none [0, 7]) = some [0, 7]) ∧
    (lpq_pushvalue plainHost (lpq_register plainHost luaopen_psql [.integer 21] 0).2 21 (-1)
        ([0, 7] ++ [0]) ([0, 7] : Bytes).length oneRow 0 0 0 = .ok (.userdata none [0, 7]) ∧
      lua_touserdata plainHost (.userdata none [0, 7]) = some [0, 7]) ∧
    (lpq_pushvalue codecHost sampleRegistry 21 (-1) ([0, 7] ++ [0]) ([0, 7] : Bytes).length
        oneRow 0 0 0 = .ok (.userdata none [0, 7]) ∧
      lua_touserdata codecHost (.userdata none [0, 7]) = some [0, 7]) :=
  ⟨decode_fallback_blob plainHost luaopen_psql 21 (-1) [0, 7] [0] oneRow 0 0 0 (by decide)
      (Or.inl rfl),
    decode_fallback_blob plainHost (lpq_register plainHost luaopen_psql [.integer 21] 0).2 21
      (-1) [0, 7] [0] oneRow 0 0 0 (by decide)
      (Or.inr (Or.inl ⟨.table 0 none [(.string LPQ_REGMT_OID, .integer 21)], .nil, rfl, rfl, rfl⟩)),
    decode_fallback_blob codecHost sampleRegistry 21 (-1) [0, 7] [0] oneRow 0 0 0 (by decide)
      (Or.inr (Or.inr ⟨sampleRegistered, .function 8, 8, .userdata (some 501) [0, 7], rfl, rfl,
        rfl, rfl, rfl⟩))⟩

/-! ## Parameter binding -/

theorem senduint32_nil_append (b : Bytes) (n : Nat) :
    lpq_senduint32 b n = b ++ lpq_senduint32 [] n := by
  simp only [lpq_senduint32, List.nil_append]

theorem sendfloat4_nil_append (b : Bytes) (f : Nat) :
    lpq_sendfloat4 b f = b ++ lpq_sendfloat4 [] f := by
  simp only [lpq_sendfloat4, lpq_senduint32, List.nil_append]

theorem sendfloat8_nil_append (b : Bytes) (f : Nat) :
    lpq_sendfloat8 b f = b ++ lpq_sendfloat8 [] f := by
  simp only [lpq_sendfloat8, lpq_sendint64, lpq_senduint32, List.nil_append, List.append_assoc,
    List.cons_append]

theorem senduint32_length (b : Bytes) (n : Nat) : (lpq_senduint32 b n).length = b.length + 4 := by
  simp [lpq_senduint32]

theorem sendfloat8_length (b : Bytes) (f : Nat) : (lpq_sendfloat8 b f).length = b.length + 8 := by
  simp [lpq_sendfloat8, lpq_sendint64, lpq_senduint32]

/-- The encoder appends to the buffer, and in every case the length it returns
is the number of bytes it appends: encoding onto a buffer `b` is encoding onto
the empty buffer, with the same length returned and the bytes put after `b`. -/
theorem tovalue_append (H : Host) (L : lua_State) (v : LuaValue) (t : Nat) (b : Bytes) :
    (∃ e, lpq_tovalue H L v t [] = .ok ((e.length : Int), e) ∧
        lpq_tovalue H L v t b = .ok ((e.length : Int), b ++ e)) ∨
      (∃ x, lpq_tovalue H L v t [] = .error x ∧ lpq_tovalue H L v t b = .error x) := by
  by_cases h1 : t = INTERVALOID
  · simp only [lpq_tovalue, if_pos h1]
    cases lua_getfield H v (cstr "time") with
    | error x => exact Or.inr ⟨x, rfl, rfl⟩
    | ok time =>
      cases lua_getfield H v (cstr "day") with
      | error x => exact Or.inr ⟨x, rfl, rfl⟩
      | ok day =>
        cases lua_getfield H v (cstr "month") with
        | error x => exact Or.inr ⟨x, rfl, rfl⟩
        | ok month =>
          refine Or.inl ⟨lpq_senduint32 (lpq_senduint32 (lpq_sendfloat8 [] (lua_tonumber H time))
            (H.float2uint32 (lua_tonumber H day))) (H.float2uint32 (lua_tonumber H month)), ?_, ?_⟩
          · simp only [senduint32_length, sendfloat8_length, List.length_nil]
            rfl
          · simp only [senduint32_length, sendfloat8_length, List.length_nil]
            rw [sendfloat8_nil_append b, senduint32_nil_append (b ++ _),
              senduint32_nil_append (b ++ _ ++ _), senduint32_nil_append (lpq_sendfloat8 [] _),
              senduint32_nil_append (lpq_sendfloat8 [] _ ++ _)]
            simp only [List.append_assoc]
            rfl
  by_cases h2 : t = BOOLOID
  · simp only [lpq_tovalue, if_neg h1, if_pos h2]
    exact Or.inl ⟨[if lua_toboolean v then 1 else 0], rfl, rfl⟩
  by_cases h3 : t = CHAROID
  · simp only [lpq_tovalue, if_neg h1, if_neg h2, if_pos h3]
    cases lua_tolstring H v with
    | none => exact Or.inr ⟨_, rfl, rfl⟩
    | some s => exact Or.inl ⟨[s.headD 0], rfl, rfl⟩
  by_cases h4 : t = INT4OID ∨ t = OIDOID
  · simp only [lpq_tovalue, if_neg h1, if_neg h2, if_neg h3, if_pos h4]
    refine Or.inl ⟨lpq_senduint32 [] (to_uint32 (lua_tointeger H v)), rfl, ?_⟩
    rw [senduint32_nil_append b]
    rfl
  by_cases h5 : t = FLOAT4OID
  · simp only [lpq_tovalue, if_neg h1, if_neg h2, if_neg h3, if_neg h4, if_pos h5]
    refine Or.inl ⟨lpq_sendfloat4 [] (H.float8to4 (lua_tonumber H v)), rfl, ?_⟩
    rw [sendfloat4_nil_append b]
    rfl
  by_cases h6 : t = FLOAT8OID
  · simp only [lpq_tovalue, if_neg h1, if_neg h2, if_neg h3, if_neg h4, if_neg h5, if_pos h6]
    refine Or.inl ⟨lpq_sendfloat8 [] (lua_tonumber H v), ?_, ?_⟩
    · simp only [sendfloat8_length, List.length_nil]
      rfl
    · simp only [sendfloat8_length, List.length_nil]
      rw [sendfloat8_nil_append b]
      rfl
  by_cases h7 : t = BYTEAOID ∨ t = TEXTOID ∨ t = BPCHAROID ∨ t = NAMEOID ∨ t = VARCHAROID
  · simp only [lpq_tovalue, if_neg h1, if_neg h2, if_neg h3, if_neg h4, if_neg h5, if_neg h6,
      if_pos h7]
    cases lua_tolstring H v with
    | none => exact Or.inl ⟨[], rfl, by simp⟩
    | some s => exact Or.inl ⟨s, by simp, rfl⟩
  simp only [lpq_tovalue, if_neg h1, if_neg h2, if_neg h3, if_neg h4, if_neg h5, if_neg h6,
    if_neg h7]
  have raw : (∃ e, (Except.ok (tovalue_raw H v []) : Except Fault (Int × Bytes))
        = .ok ((e.length : Int), e) ∧
      (Except.ok (tovalue_raw H v b) : Except Fault (Int × Bytes))
        = .ok ((e.length : Int), b ++ e)) := by
    unfold tovalue_raw
    cases lua_touserdata H v with
    | none => exact ⟨[], rfl, by simp⟩
    | some s => exact ⟨s, by simp, rfl⟩
  cases hg : lpq_gettypemt L t with
  | none =>
    simp only [tovalue_default, hg]
    exact Or.inl raw
  | some entry =>
    cases hs : lua_getfield H entry LPQ_REGMT_SEND with
    | error x =>
      simp only [tovalue_default, hg, hs]
      exact Or.inr ⟨x, rfl, rfl⟩
    | ok send =>
      cases hf : funcid send with
      | none =>
        simp only [tovalue_default, hg, hs, hf]
        exact Or.inl raw
      | some f =>
        by_cases hm : mtIs (lua_getmetatable H v) entry = true
        · cases hc : H.call f [v] with
          | none =>
            simp only [tovalue_default, hg, hs, hf, hm, if_true, hc]
            exact Or.inr ⟨_, rfl, rfl⟩
          | some r =>
            cases hl : lua_tolstring H r with
            | none =>
              simp only [tovalue_default, hg, hs, hf, hm, if_true, hc, hl]
              exact Or.inl ⟨[], rfl, by simp⟩
            | some s =>
              simp only [tovalue_default, hg, hs, hf, hm, if_true, hc, hl]
              exact Or.inl ⟨s, by simp, rfl⟩
        · simp only [tovalue_default, hg, hs, hf, hm]
          exact Or.inl raw

/-- The second loop of `lpq_setparams`: when the slots up to `i` hold the sums
of the lengths before them, the slots up to `i + k` do so afterwards. -/
theorem setparams_values_ok (length : List Int) :
    ∀ (k i : Nat) (value : List Int), i + k < value.length →
      (∀ j, j ≤ i → value.getD j 0 = (length.take j).sum) →
      (setparams_values length k i value).length = value.length ∧
        ∀ j, j ≤ i + k → (setparams_values length k i value).getD j 0 = (length.take j).sum := by
  intro k
  induction k with
  | zero =>
    intro i value _ h
    exact ⟨rfl, fun j hj => h j (by omega)⟩
  | succ k ih =>
    intro i value hlen h
    have hs : ∀ j, j ≤ i + 1 →
        (value.set (i + 1) (value.getD i 0 + length.getD i 0)).getD j 0 = (length.take j).sum := by
      intro j hj
      rw [List.getD_eq_getElem?_getD, List.getElem?_set]
      by_cases hji : i + 1 = j
      · subst hji
        have : i + 1 < value.length := by omega
        simp only [this, if_true, Option.getD_some, h i (Nat.le_refl i)]
        rw [List.take_succ, List.sum_append, List.getD_eq_getElem?_getD]
        cases length[i]? <;> simp
      · simp only [hji, if_false]
        rw [← List.getD_eq_getElem?_getD]
        exact h j (by omega)
    have := ih (i + 1) (value.set (i + 1) (value.getD i 0 + length.getD i 0))
      (by rw [List.length_set]; omega) hs
    simp only [List.length_set] at this
    refine ⟨this.1, fun j hj => this.2 j (by omega)⟩

theorem sum_lengths (xs : List Bytes) :
    (xs.map (fun e => (e.length : Int))).sum = (xs.flatten.length : Int) := by
  induction xs with
  | nil => rfl
  | cons x xs ih =>
    simp only [List.map_cons, List.sum_cons, ih, List.flatten_cons, List.length_append,
      Nat.cast_add]

/-- Slice `i` of the concatenation of `encs`, at the offset that is the sum of
the lengths before it, is `encs[i]`. -/
theorem flatten_slice (encs : List Bytes) (i : Nat) (h : i < encs.length) :
    (encs.flatten.drop (encs.take i).flatten.length).take encs[i].length = encs[i] := by
  have e : encs = encs.take i ++ encs[i] :: encs.drop (i + 1) := by
    rw [← List.drop_eq_getElem_cons h, List.take_append_drop]
  have e2 : encs.flatten
      = (encs.take i).flatten ++ (encs[i] ++ (encs.drop (i + 1)).flatten) := by
    conv_lhs => rw [e]
    simp only [List.flatten_append, List.flatten_cons]
  rw [e2, List.drop_left, List.take_left]

/-! ## Row cache -/

theorem to_int32_of_int (n : Int) (h1 : -2147483648 ≤ n) (h2 : n < 2147483648) :
    to_int32 n = n := by
  unfold to_int32
  omega

/-- Indexing a result set with row data by an integer key whose row is in the
cache returns what the cache holds, and changes nothing. -/
theorem rset_index_hit (H : Host) (L : lua_State) (r : Addr) (R : lpq_Rset) (res : PGresult)
    (env : List (LuaValue × LuaValue)) (n : Int) (v : LuaValue)
    (hR : L.rsets[r]? = some R) (hres : L.results[R.result]? = some res)
    (hst : res.status = .PGRES_TUPLES_OK) (henv : R.env = some env)
    (h1 : 1 ≤ n) (h2 : n ≤ PQntuples res) (h3 : n < 2147483648)
    (hv : rawget env (.integer n) = v) (hne : v ≠ .nil) :
    lpq_rset__index H L [.handle .rset r, .integer n] = (.ok [v], L) := by
  have hn : to_int32 n = n := to_int32_of_int n (by omega) h3
  have hc : ¬ (PQresultStatus L R.result ≠ .PGRES_TUPLES_OK ∨ n < 1
      ∨ n > PQntuples_at L R.result) := by
    simp only [PQresultStatus, PQntuples_at, hres, hst, ne_eq, not_true_eq_false, false_or, not_or,
      not_lt]
    omega
  simp only [lpq_rset__index, arg, Nat.sub_self, Nat.reduceSub, List.getD_cons_zero,
    List.getD_cons_succ, hR, lua_isnumber, lua_cvt2num, Option.isSome_some, if_true,
    lua_tointeger, hn, if_neg hc, henv, hv]

/-- Indexing a result set with row data by an integer key in the range of the
rows whose row is not in the cache makes the tuple and caches it. -/
theorem rset_index_miss (H : Host) (L : lua_State) (r : Addr) (R : lpq_Rset) (res : PGresult)
    (env : List (LuaValue × LuaValue)) (n : Int)
    (hR : L.rsets[r]? = some R) (hres : L.results[R.result]? = some res)
    (hst : res.status = .PGRES_TUPLES_OK) (henv : R.env = some env)
    (h1 : 1 ≤ n) (h2 : n ≤ PQntuples res) (h3 : n < 2147483648)
    (hv : rawget env (.integer n) = .nil) :
    (lpq_rset__index H L [.handle .rset r, .integer n]).1 = .ok [.handle .tuple L.tuples.length] ∧
      (lpq_rset__index H L [.handle .rset r, .integer n]).2.tuples
        = L.tuples ++ [{ rset := r, row := n - 1, valid := true,
                         env := rawget env (.string LPQ_RSET_FIELDS) }] ∧
      (lpq_rset__index H L [.handle .rset r, .integer n]).2.rsets
        = L.rsets.set r
          { R with env := some (rawset env (.integer n) (.handle .tuple L.tuples.length)) } ∧
      (lpq_rset__index H L [.handle .rset r, .integer n]).2.results = L.results ∧
      (lpq_rset__index H L [.handle .rset r, .integer n]).2.pq = L.pq := by
  have hn : to_int32 n = n := to_int32_of_int n (by omega) h3
  have hc : ¬ (PQresultStatus L R.result ≠ .PGRES_TUPLES_OK ∨ n < 1
      ∨ n > PQntuples_at L R.result) := by
    simp only [PQresultStatus, PQntuples_at, hres, hst, ne_eq, not_true_eq_false, false_or, not_or,
      not_lt]
    omega
  simp only [lpq_rset__index, arg, Nat.sub_self, Nat.reduceSub, List.getD_cons_zero,
    List.getD_cons_succ, hR, lua_isnumber, lua_cvt2num, Option.isSome_some, if_true,
    lua_tointeger, hn, if_neg hc, henv, hv, List.length_cons, List.length_nil, Nat.reduceAdd,
    le_refl, and_self]

/-- Indexing a result set by an integer key outside the rows, after the
conversion of the key to `int`, or a result set without row data, returns nil
and changes nothing. -/
theorem rset_index_outside (H : Host) (L : lua_State) (r : Addr) (R : lpq_Rset) (n : Int)
    (hR : L.rsets[r]? = some R)
    (h : PQresultStatus L R.result ≠ .PGRES_TUPLES_OK ∨ to_int32 n < 1
      ∨ to_int32 n > PQntuples_at L R.result) :
    lpq_rset__index H L [.handle .rset r, .integer n] = (.ok [.nil], L) := by
  simp only [lpq_rset__index, arg, Nat.sub_self, Nat.reduceSub, List.getD_cons_zero,
    List.getD_cons_succ, hR, lua_isnumber, lua_cvt2num, Option.isSome_some, if_true,
    lua_tointeger, if_pos h]

/-- The row cache for keys of the `int` range.  In a state where the result
set `r` holds a result with row data (status `PGRES_TUPLES_OK`, `N` rows) and
for an integer key `n` with `1 ≤ n ≤ N` that the cache does not hold yet:
`rset[n]` returns a new tuple, valid, owned by `r`, with row index `n - 1`,
and stores it in the cache; after any further calls of the library `rset[n]`
returns that same tuple and changes nothing.  For an integer key `n` of the
`int` range with `n < 1` or `n > N`, and for every integer key when the
result has no row data, `rset[n]` returns nil and changes nothing. -/
theorem rset_index_in_range (H : Host) (L : lua_State) (r : Addr) (R : lpq_Rset)
    (res : PGresult) (hR : L.rsets[r]? = some R) (hres : L.results[R.result]? = some res) :
    (∀ (env : List (LuaValue × LuaValue)) (n : Int), res.status = .PGRES_TUPLES_OK →
      R.env = some env → 1 ≤ n → n ≤ PQntuples res → n < 2147483648 →
      rawget env (.integer n) = .nil →
      (lpq_rset__index H L [.handle .rset r, .integer n]).1
          = .ok [.handle .tuple L.tuples.length] ∧
        (lpq_rset__index H L [.handle .rset r, .integer n]).2.tuples
          = L.tuples ++ [{ rset := r, row := n - 1, valid := true,
                           env := rawget env (.string LPQ_RSET_FIELDS) }] ∧
        ∀ ops : List Op,
          lpq_rset__index H (run H (lpq_rset__index H L [.handle .rset r, .integer n]).2 ops)
              [.handle .rset r, .integer n]
            = (.ok [.handle .tuple L.tuples.length],
                run H (lpq_rset__index H L [.handle .rset r, .integer n]).2 ops)) ∧
    (∀ n : Int, -2147483648 ≤ n → n < 2147483648 → n < 1 ∨ n > PQntuples res →
      lpq_rset__index H L [.handle .rset r, .integer n] = (.ok [.nil], L)) ∧
    (res.status ≠ .PGRES_TUPLES_OK →
      ∀ n : Int, lpq_rset__index H L [.handle .rset r, .integer n] = (.ok [.nil], L)) := by
  refine ⟨?_, ?_, ?_⟩
  · intro env n hst henv h1 h2 h3 hv
    obtain ⟨e1, e2, e3, e4, _⟩ := rset_index_miss H L r R res env n hR hres hst henv h1 h2 h3 hv
    refine ⟨e1, e2, ?_⟩
    intro ops
    have hlt : r < L.rsets.length := (List.getElem?_eq_some.1 hR).1
    have hR1 : (lpq_rset__index H L [.handle .rset r, .integer n]).2.rsets[r]?
        = some { R with env := some (rawset env (.integer n) (.handle .tuple L.tuples.length)) } := by
      rw [e3]
      simp only [List.getElem?_set, hlt, if_true]
    obtain ⟨hk, hx⟩ := run_ext H ops (lpq_rset__index H L [.handle .rset r, .integer n]).2
    obtain ⟨R2, hR2, hres2, henv2⟩ := hx r _ hR1
    obtain ⟨env2, he2, hget⟩ := henv2 _ rfl
    have hres' : (run H (lpq_rset__index H L [.handle .rset r, .integer n]).2 ops).results[
        R2.result]? = some res := by
      rw [hres2]
      apply hk
      rw [e4]
      exact hres
    exact rset_index_hit H _ r R2 res env2 n _ hR2 hres' hst he2 h1 h2 h3
      (hget n L.tuples.length (rawget_rawset_self _ _ _)) (by simp)
  · intro n h1 h2 h
    apply rset_index_outside H L r R n hR
    rw [to_int32_of_int n h1 h2]
    simp only [PQntuples_at, hres]
    exact Or.inr h
  · intro hst n
    apply rset_index_outside H L r R n hR
    left
    simp only [PQresultStatus, hres]
    exact hst

theorem rset_index_in_range_witness :
    lpq_rset__index plainHost
        (run plainHost (lpq_rset__index plainHost openWithRows [.handle .rset 0, .integer 1]).2
          [.rset__len [.handle .rset 0]])
        [.handle .rset 0, .integer 1]
      = (.ok [.handle .tuple openWithRows.tuples.length],
          run plainHost (lpq_rset__index plainHost openWithRows [.handle .rset 0, .integer 1]).2
            [.rset__len [.handle .rset 0]]) ∧
      lpq_rset__index plainHost openWithRows [.handle .rset 0, .integer 2]
        = (.ok [.nil], openWithRows) ∧
      lpq_rset__index plainHost openWithCommand [.handle .rset 0, .integer 1]
        = (.ok [.nil], openWithCommand) :=
  ⟨((rset_index_in_range plainHost openWithRows 0
        { result := 0,
          env := some [(.string LPQ_RSET_FIELDS,
            .table 50 none [(.string (cstr "a"), .integer 0)])] }
        oneRow rfl rfl).1 _ 1 rfl rfl (by decide) (by decide) (by decide) rfl).2.2
      [.rset__len [.handle .rset 0]],
    (rset_index_in_range plainHost openWithRows 0
        { result := 0,
          env := some [(.string LPQ_RSET_FIELDS,
            .table 50 none [(.string (cstr "a"), .integer 0)])] }
        oneRow rfl rfl).2.1 2 (by decide) (by decide) (Or.inr (by decide)),
    (rset_index_in_range plainHost openWithCommand 0 { result := 0, env := none }
        (commandOk []) rfl rfl).2.2 (by decide) 1⟩

/-- C19 (the defect): the key is converted to `int` before it is tested,
`int n = lua_tointeger(L, 2)`.  On a result set with one row, `rset[n]` with
`n = 2^32 + 1`, which is above the number of rows, is not nil: the key wraps
to 1, and the call makes the tuple of row 0 and caches it at key 1; so does
the key `-(2^32 - 1)`, which is below 1; and `rset[1]` then returns the tuple
made for `2^32 + 1`. -/
theorem rset_index_wraps :
    PQntuples_at openWithRows 0 = 1 ∧
      (lpq_rset__index plainHost openWithRows [.handle .rset 0, .integer 4294967297]).1
        = .ok [.handle .tuple 0] ∧
      (lpq_rset__index plainHost openWithRows [.handle .rset 0, .integer 4294967297]).2.tuples.map
          (fun T => (T.rset, T.row, T.valid)) = [(0, 0, true)] ∧
      (lpq_rset__index plainHost openWithRows [.handle .rset 0, .integer 4294967297]).2.rsets.map
          (fun R => R.env.map (fun env => rawget env (.integer 1))) = [some (.handle .tuple 0)] ∧
      (lpq_rset__index plainHost openWithRows [.handle .rset 0, .integer (-4294967295)]).1
        = .ok [.handle .tuple 0] ∧
      (lpq_rset__index plainHost
          (lpq_rset__index plainHost openWithRows [.handle .rset 0, .integer 4294967297]).2
          [.handle .rset 0, .integer 1]).1 = .ok [.handle .tuple 0] := by
  refine ⟨rfl, rfl, rfl, rfl, rfl, rfl⟩
/-! ## Row iteration -/

/-- One step of the iterator of `rows()` on a result set with row data and `N`
rows: for a control value `c` with `0 ≤ c < N` it sets the row index of the
tuple to `c` and returns `c + 1` and the tuple; for the control value `N` it
turns the flag of the tuple off and returns nil. -/
theorem rowsaux_step (H : Host) (L : lua_State) (r t : Addr) (R : lpq_Rset) (res : PGresult)
    (T : lpq_Tuple) (c : Int)
    (hR : L.rsets[r]? = some R) (hres : L.results[R.result]? = some res)
    (hst : res.status = .PGRES_TUPLES_OK) (hT : L.tuples[t]? = some T)
    (h0 : 0 ≤ c) (h1 : c ≤ PQntuples res) (h2 : PQntuples res < 2147483648) :
    (c < PQntuples res →
      lpq_rset_rowsaux H L [.handle .tuple t] [.handle .rset r, .integer c]
        = (.ok [.integer (c + 1), .handle .tuple t],
            { L with tuples := L.tuples.set t { T with row := c } })) ∧
    (c = PQntuples res →
      lpq_rset_rowsaux H L [.handle .tuple t] [.handle .rset r, .integer c]
        = (.ok [.nil], { L with tuples := L.tuples.set t { T with valid := false } })) := by
  have hn : to_int32 c = c := to_int32_of_int c (by omega) (by omega)
  constructor
  · intro hlt
    have hc : ¬ (PQresultStatus L R.result ≠ .PGRES_TUPLES_OK ∨ c = PQntuples_at L R.result) := by
      simp only [PQresultStatus, PQntuples_at, hres, hst, ne_eq, not_true_eq_false, false_or]
      omega
    simp only [lpq_rset_rowsaux, arg, Nat.sub_self, Nat.reduceSub, List.getD_cons_zero,
      List.getD_cons_succ, hR, hT, lua_tointeger, lua_cvt2num, hn, if_neg hc]
  · intro heq
    have hc : PQresultStatus L R.result ≠ .PGRES_TUPLES_OK ∨ c = PQntuples_at L R.result := by
      right
      simp only [PQntuples_at, hres]
      exact heq
    simp only [lpq_rset_rowsaux, arg, Nat.sub_self, Nat.reduceSub, List.getD_cons_zero,
      List.getD_cons_succ, hR, hT, lua_tointeger, lua_cvt2num, hn, if_pos hc]

/-- The loop over the iterator of `rows()` from the control value `c`, on a
result set with row data and `N` rows: the body runs `N - c` times, with
`c + 1, c + 2, .., N` and the tuple, the loop ends, and the flag of the tuple
is off afterwards; the result sets and the results are untouched. -/
theorem for_rows_from (H : Host) (r t : Addr) (R : lpq_Rset) (res : PGresult)
    (hst : res.status = .PGRES_TUPLES_OK) (h2 : PQntuples res < 2147483648) :
    ∀ (m : Nat) (c : Int) (fuel : Nat) (L : lua_State) (T : lpq_Tuple),
      0 ≤ c → c + m = PQntuples res → m + 1 ≤ fuel →
      L.rsets[r]? = some R → L.results[R.result]? = some res → L.tuples[t]? = some T →
      ∃ L2 T2, for_rows H [.handle .tuple t] (.handle .rset r) fuel (.integer c) L
          = ((List.range m).map (fun (j : Nat) =>
                [LuaValue.integer (c + j + 1), LuaValue.handle .tuple t]), true, L2) ∧
        L2.tuples[t]? = some T2 ∧ T2.valid = false ∧ T2.rset = T.rset ∧
        L2.tuples.length = L.tuples.length ∧ L2.rsets = L.rsets ∧ L2.results = L.results ∧
        L2.pq = L.pq := by
  intro m
  induction m with
  | zero =>
    intro c fuel L T h0 hc hf hR hres hT
    obtain ⟨fuel, rfl⟩ : ∃ f, fuel = f + 1 := ⟨fuel - 1, by omega⟩
    have hstep := (rowsaux_step H L r t R res T c hR hres hst hT h0 (by omega) h2).2 (by omega)
    have hlt : t < L.tuples.length := (List.getElem?_eq_some.1 hT).1
    refine ⟨{ L with tuples := L.tuples.set t { T with valid := false } },
      { T with valid := false }, ?_, ?_, rfl, rfl, ?_, rfl, rfl, rfl⟩
    · simp only [for_rows, hstep, List.range_zero, List.map_nil]
    · simp only [List.getElem?_set, hlt, if_true]
    · simp only [List.length_set]
  | succ m ih =>
    intro c fuel L T h0 hc hf hR hres hT
    obtain ⟨fuel, rfl⟩ : ∃ f, fuel = f + 1 := ⟨fuel - 1, by omega⟩
    have hstep := (rowsaux_step H L r t R res T c hR hres hst hT h0 (by omega) h2).1
      (by omega)
    have hlt : t < L.tuples.length := (List.getElem?_eq_some.1 hT).1
    have hT1 : ({ L with tuples := L.tuples.set t { T with row := c } } : lua_State).tuples[t]?
        = some { T with row := c } := by
      simp only [List.getElem?_set, hlt, if_true]
    obtain ⟨L2, T2, hrun, hT2, hv2, hr2, hl2, hrs2, hre2, hpq2⟩ :=
      ih (c + 1) fuel { L with tuples := L.tuples.set t { T with row := c } } { T with row := c }
        (by omega) (by push_cast at hc ⊢; omega) (by omega) hR hres hT1
    refine ⟨L2, T2, ?_, hT2, hv2, hr2, ?_, hrs2, hre2, hpq2⟩
    · simp only [for_rows, hstep, hrun, List.range_succ_eq_map, List.map_cons, List.map_map]
      refine Prod.ext ?_ rfl
      simp only [Nat.cast_zero, add_zero, List.cons.injEq, true_and]
      apply List.map_congr_left
      intro j _
      simp only [Function.comp, Nat.cast_succ, List.cons.injEq, LuaValue.integer.injEq, and_true]
      omega
    · rw [hl2]
      simp only [List.length_set]

/-- The first `k ≥ 1` rounds of the loop over the iterator of `rows()` from
the control value `c`, when the result has at least `c + k` rows: the body
runs with `c + 1, .., c + k` and the tuple, the loop has not ended, and the
tuple is then valid with row index `c + k - 1`. -/
theorem for_rows_rounds (H : Host) (r t : Addr) (R : lpq_Rset) (res : PGresult)
    (hst : res.status = .PGRES_TUPLES_OK) (h2 : PQntuples res < 2147483648) :
    ∀ (k : Nat) (c : Int) (L : lua_State) (T : lpq_Tuple),
      0 ≤ c → c + (k + 1 : Nat) ≤ PQntuples res → T.valid = true →
      L.rsets[r]? = some R → L.results[R.result]? = some res → L.tuples[t]? = some T →
      ∃ L2 T2, for_rows H [.handle .tuple t] (.handle .rset r) (k + 1) (.integer c) L
          = ((List.range (k + 1)).map (fun (j : Nat) =>
                [LuaValue.integer (c + j + 1), LuaValue.handle .tuple t]), false, L2) ∧
        L2.tuples[t]? = some T2 ∧ T2.valid = true ∧ T2.row = c + k ∧ T2.rset = T.rset ∧
        L2.rsets = L.rsets ∧ L2.results = L.results := by
  intro k
  induction k with
  | zero =>
    intro c L T h0 hc hv hR hres hT
    have hstep := (rowsaux_step H L r t R res T c hR hres hst hT h0 (by push_cast at hc; omega)
      h2).1 (by push_cast at hc; omega)
    have hlt : t < L.tuples.length := (List.getElem?_eq_some.1 hT).1
    refine ⟨{ L with tuples := L.tuples.set t { T with row := c } }, { T with row := c },
      ?_, ?_, hv, ?_, rfl, rfl, rfl⟩
    · simp only [for_rows, hstep]
      simp [List.range_succ]
    · simp only [List.getElem?_set, hlt, if_true]
    · simp
  | succ k ih =>
    intro c L T h0 hc hv hR hres hT
    have hstep := (rowsaux_step H L r t R res T c hR hres hst hT h0 (by push_cast at hc; omega)
      h2).1 (by push_cast at hc; omega)
    have hlt : t < L.tuples.length := (List.getElem?_eq_some.1 hT).1
    have hT1 : ({ L with tuples := L.tuples.set t { T with row := c } } : lua_State).tuples[t]?
        = some { T with row := c } := by
      simp only [List.getElem?_set, hlt, if_true]
    obtain ⟨L2, T2, hrun, hT2, hv2, hrow2, hr2, hrs2, hre2⟩ :=
      ih (c + 1) { L with tuples := L.tuples.set t { T with row := c } } { T with row := c }
        (by omega) (by push_cast at hc ⊢; omega) hv hR hres hT1
    refine ⟨L2, T2, ?_, hT2, hv2, ?_, hr2, hrs2, hre2⟩
    · rw [for_rows]
      simp only [hstep, hrun]
      rw [List.range_succ_eq_map (k + 1)]
      simp only [List.map_cons, List.map_map]
      refine Prod.ext ?_ rfl
      simp only [Nat.cast_zero, add_zero, List.cons.injEq, true_and]
      apply List.map_congr_left
      intro j _
      simp only [Function.comp, Nat.cast_succ, List.cons.injEq, LuaValue.integer.injEq, and_true]
      omega
    · rw [hrow2]
      push_cast
      omega

/-- Row iteration on a result set with row data.  `rows()`, called on the
result set alone, returns the iterator closure over a new valid tuple of the
result set, the result set and the control value 0.  Lua's generic `for` over
these values runs its body exactly `N` times, with `k` and the tuple in round
`k`, and ends in round `N + 1` with the flag of the tuple off; when the body
of round `k` runs, the tuple is valid and has row index `k - 1`.  This holds
in every state, hence for a fresh `rows()` call after earlier iterations. -/
theorem rows_iterates_all (H : Host) (L : lua_State) (r : Addr) (R : lpq_Rset) (res : PGresult)
    (env : List (LuaValue × LuaValue)) (junk : Int) (fuel : Nat)
    (hR : L.rsets[r]? = some R) (hres : L.results[R.result]? = some res)
    (hst : res.status = .PGRES_TUPLES_OK) (henv : R.env = some env)
    (h2 : PQntuples res < 2147483648) (hf : res.rows.length + 1 ≤ fuel) :
    (lpq_rset_rows H L [.handle .rset r] junk).1
        = .ok [.closure ROWSAUX [.handle .tuple L.tuples.length], .handle .rset r, .integer 0] ∧
      (lpq_rset_rows H L [.handle .rset r] junk).2.tuples
        = L.tuples ++ [{ rset := r, row := junk, valid := true,
                         env := rawget env (.string LPQ_RSET_FIELDS) }] ∧
      (∃ L2 T2, for_rows H [.handle .tuple L.tuples.length] (.handle .rset r) fuel (.integer 0)
            (lpq_rset_rows H L [.handle .rset r] junk).2
          = ((List.range res.rows.length).map (fun (j : Nat) =>
                [LuaValue.integer ((j : Int) + 1), LuaValue.handle .tuple L.tuples.length]),
              true, L2) ∧
        L2.tuples[L.tuples.length]? = some T2 ∧ T2.valid = false ∧ T2.rset = r) ∧
      (∀ k : Nat, k < res.rows.length →
        ∃ L2 T2, for_rows H [.handle .tuple L.tuples.length] (.handle .rset r) (k + 1)
              (.integer 0) (lpq_rset_rows H L [.handle .rset r] junk).2
            = ((List.range (k + 1)).map (fun (j : Nat) =>
                  [LuaValue.integer ((j : Int) + 1), LuaValue.handle .tuple L.tuples.length]),
                false, L2) ∧
          L2.tuples[L.tuples.length]? = some T2 ∧ T2.valid = true ∧ T2.row = k ∧
          T2.rset = r) := by
  have e1 : (lpq_rset_rows H L [.handle .rset r] junk).1
      = .ok [.closure ROWSAUX [.handle .tuple L.tuples.length], .handle .rset r, .integer 0] := by
    simp only [lpq_rset_rows, lpq_checkrset, arg, Nat.sub_self, List.getD_cons_zero, hR, henv,
      List.length_cons, List.length_nil, Nat.reduceAdd, le_refl, if_true]
  have e2 : (lpq_rset_rows H L [.handle .rset r] junk).2.tuples
      = L.tuples ++ [{ rset := r, row := junk, valid := true,
                       env := rawget env (.string LPQ_RSET_FIELDS) }] := by
    simp only [lpq_rset_rows, lpq_checkrset, arg, Nat.sub_self, List.getD_cons_zero, hR, henv,
      List.length_cons, List.length_nil, Nat.reduceAdd, le_refl, if_true]
  have e3 : (lpq_rset_rows H L [.handle .rset r] junk).2.rsets = L.rsets := by
    simp only [lpq_rset_rows, lpq_checkrset, arg, Nat.sub_self, List.getD_cons_zero, hR, henv,
      List.length_cons, List.length_nil, Nat.reduceAdd, le_refl, if_true]
  have e4 : (lpq_rset_rows H L [.handle .rset r] junk).2.results = L.results := by
    simp only [lpq_rset_rows, lpq_checkrset, arg, Nat.sub_self, List.getD_cons_zero, hR, henv,
      List.length_cons, List.length_nil, Nat.reduceAdd, le_refl, if_true]
  have hT0 : (lpq_rset_rows H L [.handle .rset r] junk).2.tuples[L.tuples.length]?
      = some { rset := r, row := junk, valid := true,
               env := rawget env (.string LPQ_RSET_FIELDS) } := by
    rw [e2]
    simp
  have hR0 : (lpq_rset_rows H L [.handle .rset r] junk).2.rsets[r]? = some R := by
    rw [e3]
    exact hR
  have hres0 : (lpq_rset_rows H L [.handle .rset r] junk).2.results[R.result]? = some res := by
    rw [e4]
    exact hres
  refine ⟨e1, e2, ?_, ?_⟩
  · obtain ⟨L2, T2, h1, h3, h4, h5, _⟩ := for_rows_from H r L.tuples.length R res hst h2
      res.rows.length 0 fuel _ _ (le_refl 0) (by simp [PQntuples]) hf hR0 hres0 hT0
    refine ⟨L2, T2, ?_, h3, h4, h5⟩
    simpa using h1
  · intro k hk
    obtain ⟨L2, T2, h1, h3, h4, h5, h6, _⟩ := for_rows_rounds H r L.tuples.length R res hst h2
      k 0 _ _ (le_refl 0) (by simp only [PQntuples]; push_cast; omega) rfl hR0 hres0 hT0
    refine ⟨L2, T2, ?_, h3, h4, ?_, h6⟩
    · simpa using h1
    · simpa using h5

theorem rows_iterates_all_witness :
    ∃ L2 T2, for_rows plainHost [.handle .tuple openWithTwoRows.tuples.length] (.handle .rset 0) 5
          (.integer 0) (lpq_rset_rows plainHost openWithTwoRows [.handle .rset 0] 99).2
        = ((List.range twoRows.rows.length).map (fun (j : Nat) =>
              [LuaValue.integer ((j : Int) + 1),
                LuaValue.handle .tuple openWithTwoRows.tuples.length]), true, L2) ∧
      L2.tuples[openWithTwoRows.tuples.length]? = some T2 ∧ T2.valid = false ∧ T2.rset = 0 :=
  (rows_iterates_all plainHost openWithTwoRows 0
    { result := 0,
      env := some [(.string LPQ_RSET_FIELDS, .table 50 none [(.string (cstr "a"), .integer 0)])] }
    twoRows _ 99 5 rfl rfl rfl rfl (by decide) (by decide)).2.2.1

/-- C20 (the defect): on a result set without row data, here the result of a
command, `rows()` does not return an iterator whose first step ends the
iteration: it raises an error.  The uservalue of such a result set was never
set, and `lua_getfield(L, 2, "fields")` indexes that nil.  The iterator itself
has the guard of the claim: called on the tuple that `rows()` had made before
the error, its first step returns nil and turns the flag of the tuple off; and
the other iterator, the one of `fetch`, ends at its first step. -/
theorem rows_without_row_data_raises :
    PQresultStatus openWithCommand 0 = .PGRES_COMMAND_OK ∧
      openWithCommand.rsets.map (fun R => R.env.isSome) = [false] ∧
      (lpq_rset_rows plainHost openWithCommand [.handle .rset 0] 0).1
        = .error (.error "attempt to index a nil value") ∧
      (lpq_rset_rowsaux plainHost
          (lpq_rset_rows plainHost openWithCommand [.handle .rset 0] 0).2
          [.handle .tuple 0] [.handle .rset 0, .integer 0]).1 = .ok [.nil] ∧
      (lpq_rset_fetch openWithCommand [.handle .rset 0]).1
        = .ok [.closure FETCHAUX [.handle .rset 0, .nil, .integer 0]] ∧
      (lpq_rset_fetchaux plainHost openWithCommand [.handle .rset 0, .nil, .integer 0] 0).map
          Prod.fst = .ok [] := by
  refine ⟨rfl, rfl, rfl, rfl, rfl, rfl⟩

/-! ## The sample hosts convert the integers of the `uint32` range exactly -/

theorem bitlength_zero (fuel : Nat) : bitlength fuel 0 = 0 := by
  cases fuel <;> simp [bitlength]

theorem bitlength_spec : ∀ (fuel n : Nat), 0 < n → n < 2 ^ fuel →
    1 ≤ bitlength fuel n ∧ 2 ^ (bitlength fuel n - 1) ≤ n ∧ n < 2 ^ bitlength fuel n := by
  intro fuel
  induction fuel with
  | zero =>
    intro n h0 h1
    simp at h1
    omega
  | succ f ih =>
    intro n h0 h1
    have hn : n ≠ 0 := by omega
    simp only [bitlength, hn, if_false]
    by_cases h2 : n / 2 = 0
    · have : n = 1 := by omega
      subst this
      simp [bitlength_zero]
    · have hlt : n / 2 < 2 ^ f := by
        rw [Nat.pow_succ] at h1
        omega
      obtain ⟨b1, b2, b3⟩ := ih (n / 2) (by omega) hlt
      refine ⟨by omega, ?_, ?_⟩
      · have e : bitlength f (n / 2) + 1 - 1 = (bitlength f (n / 2) - 1) + 1 := by omega
        rw [e, Nat.pow_succ]
        omega
      · rw [Nat.pow_succ]
        omega

/-- The double made from a positive integer below 2^53 has that integer as
its integer part. -/
theorem double_trunc_of_int (n : Nat) (h0 : 0 < n) (h1 : n < 2 ^ 53) :
    double_trunc (double_of_int (n : Int)) = some (n : Int) := by
  obtain ⟨b1, b2, b3⟩ := bitlength_spec 64 n h0
    (lt_of_lt_of_le h1 (Nat.pow_le_pow_right (by norm_num) (by norm_num)))
  have hk : bitlength 64 n - 1 ≤ 52 := by
    by_contra hc
    have : 2 ^ 53 ≤ 2 ^ (bitlength 64 n - 1) :=
      Nat.pow_le_pow_right (by norm_num) (by omega)
    omega
  generalize hkdef : bitlength 64 n - 1 = k at b2 hk
  have hb : bitlength 64 n = k + 1 := by omega
  rw [hb] at b3
  -- the significand
  have hq1 : 2 ^ 52 ≤ n * 2 ^ (52 - k) := by
    calc 2 ^ 52 = 2 ^ k * 2 ^ (52 - k) := by rw [← Nat.pow_add]; congr 1; omega
      _ ≤ n * 2 ^ (52 - k) := Nat.mul_le_mul_right _ b2
  have hq2 : n * 2 ^ (52 - k) < 2 ^ 53 := by
    calc n * 2 ^ (52 - k) < 2 ^ (k + 1) * 2 ^ (52 - k) :=
          Nat.mul_lt_mul_of_pos_right b3 (Nat.two_pow_pos _)
      _ = 2 ^ 53 := by rw [← Nat.pow_add]; congr 1; omega
  have hbits : double_of_int (n : Int)
      = (1023 + k) * 2 ^ 52 + (n * 2 ^ (52 - k) - 2 ^ 52) := by
    have hna : (n : Int).natAbs = n := Int.natAbs_ofNat n
    have hneg : ¬ ((n : Int) < 0) := by omega
    simp only [double_of_int, hna, Nat.ne_of_gt h0, if_false, hkdef, hk, if_true, hneg,
      Nat.zero_add]
  generalize hq : n * 2 ^ (52 - k) = q at hq1 hq2 hbits
  have he : ((1023 + k) * 2 ^ 52 + (q - 2 ^ 52)) / 2 ^ 52 = 1023 + k := by
    rw [Nat.mul_comm, Nat.mul_add_div (by norm_num)]
    have : (q - 2 ^ 52) / 2 ^ 52 = 0 := Nat.div_eq_of_lt (by omega)
    omega
  have hm : ((1023 + k) * 2 ^ 52 + (q - 2 ^ 52)) % 2 ^ 52 = q - 2 ^ 52 := by
    rw [Nat.mul_comm, Nat.mul_add_mod]
    exact Nat.mod_eq_of_lt (by omega)
  have hs : ((1023 + k) * 2 ^ 52 + (q - 2 ^ 52)) / 2 ^ 63 = 0 := by
    apply Nat.div_eq_of_lt
    have : (1023 + k) * 2 ^ 52 ≤ 1075 * 2 ^ 52 := Nat.mul_le_mul_right _ (by omega)
    norm_num at this hq2 ⊢
    omega
  have hmag : (2 ^ 52 + (q - 2 ^ 52)) = q := by omega
  rw [hbits]
  simp only [double_trunc, he, hm, hs, hmag]
  have e1 : (1023 + k) % 2048 = 1023 + k := Nat.mod_eq_of_lt (by omega)
  have e2 : ¬ (1023 + k = 2047) := by omega
  have e3 : ¬ (1023 + k = 0) := by omega
  simp only [e1, e2, e3, if_false, Nat.zero_mod, Nat.zero_ne_one]
  by_cases hk52 : k = 52
  · subst hk52
    have : 1075 ≤ 1023 + 52 := by norm_num
    simp only [this, if_true]
    rw [← hq]
    simp
  · have h3 : ¬ (1075 ≤ 1023 + k) := by omega
    simp only [h3, if_false]
    have e4 : 1075 - (1023 + k) = 52 - k := by omega
    rw [e4, ← hq, Nat.mul_div_cancel _ (Nat.two_pow_pos _)]

/-- Both sample hosts convert every integer of the `uint32` range to a double
and back to `uint32` without change: they agree where C defines the
conversion. -/
theorem sample_hosts_exact (n : Int) (h0 : 0 ≤ n) (h1 : n < 4294967296) :
    wrapHost.float2uint32 (wrapHost.int2float n) = n.toNat ∧
      satHost.float2uint32 (satHost.int2float n) = n.toNat := by
  obtain ⟨m, rfl⟩ : ∃ m : Nat, n = (m : Int) := ⟨n.toNat, by omega⟩
  by_cases hm : m = 0
  · subst hm
    exact ⟨rfl, rfl⟩
  · have ht := double_trunc_of_int m (by omega)
      (lt_of_lt_of_le (by exact_mod_cast h1 : m < 4294967296) (by norm_num))
    have hw : wrapHost.float2uint32 (wrapHost.int2float (m : Int))
        = (match double_trunc (double_of_int (m : Int)) with
          | some i =>
            if -9223372036854775808 ≤ i ∧ i < 9223372036854775808 then to_uint32 i else 0
          | none => 0) := rfl
    have hsat : satHost.float2uint32 (satHost.int2float (m : Int))
        = (match double_trunc (double_of_int (m : Int)) with
          | some i => if i < 0 then 0 else if 4294967295 < i then 4294967295 else i.toNat
          | none => if double_of_int (m : Int) / 2 ^ 63 % 2 = 1
              ∨ double_of_int (m : Int) % 2 ^ 52 ≠ 0 then 0 else 4294967295) := rfl
    rw [hw, hsat, ht]
    have r1 : -9223372036854775808 ≤ (m : Int) ∧ (m : Int) < 9223372036854775808 := by omega
    have r2 : ¬ ((m : Int) < 0) := by omega
    have r3 : ¬ (4294967295 < (m : Int)) := by omega
    simp only [r1, and_self, if_true, r2, r3, if_false, Int.toNat_ofNat, and_true]
    unfold to_uint32
    have r4 : (m : Int) % 4294967296 = (m : Int) := Int.emod_eq_of_lt (by omega) (by omega)
    rw [r4, Int.toNat_ofNat]

/-- On both sample hosts an interval whose `day` and `month` are integers from
0 to 2^31 - 1 is encoded with the layout of the claim. -/
theorem interval_layout_sample_hosts (L : lua_State) (t d m : Int) (b : Bytes)
    (hd0 : 0 ≤ d) (hd1 : d < 2147483648) (hm0 : 0 ≤ m) (hm1 : m < 2147483648) :
    lpq_tovalue wrapHost L (sampleInterval t d m) INTERVALOID b
        = .ok (16, lpq_senduint32 (lpq_senduint32 (lpq_sendfloat8 b (double_of_int t))
            (to_uint32 d)) (to_uint32 m)) ∧
      lpq_tovalue satHost L (sampleInterval t d m) INTERVALOID b
        = .ok (16, lpq_senduint32 (lpq_senduint32 (lpq_sendfloat8 b (double_of_int t))
            (to_uint32 d)) (to_uint32 m)) :=
  ⟨interval_layout_nonnegative wrapHost L t d m b (fun n h0 h1 => (sample_hosts_exact n h0 h1).1)
      hd0 hd1 hm0 hm1,
    interval_layout_nonnegative satHost L t d m b (fun n h0 h1 => (sample_hosts_exact n h0 h1).2)
      hd0 hd1 hm0 hm1⟩

/-! ## The two ways to read a row -/

/-- Raw equality with a string key holds for that string key only. -/
theorem keyeq_string {k : LuaValue} {s : Bytes} (h : keyeq k (.string s) = true) :
    k = .string s := by
  cases k <;> simp [keyeq] at h
  rw [h]

/-- After `rawset` at the string key `s`, `rawget` at `s` finds the value. -/
theorem rawget_rawset_string (t : List (LuaValue × LuaValue)) (s : Bytes) (v : LuaValue) :
    rawget (rawset t (.string s) v) (.string s) = v := by
  unfold rawset
  split
  · rename_i hany
    rw [rawget_map]
    obtain ⟨x, hx, hkx⟩ := List.any_eq_true.1 hany
    cases hf : t.find? (fun e => keyeq e.1 (.string s)) with
    | none =>
      rw [List.find?_eq_none] at hf
      exact absurd hkx (hf x hx)
    | some e =>
      have hp := List.find?_some hf
      simp only at hp
      simp only [hp, if_true]
  · rename_i hany
    have hnone : t.find? (fun e => keyeq e.1 (.string s)) = none := by
      rw [List.find?_eq_none]
      intro x hx hkx
      exact hany (List.any_eq_true.2 ⟨x, hx, hkx⟩)
    unfold rawget
    rw [List.find?_append, hnone]
    simp [List.find?, keyeq]

/-- After `rawset` at the string key `s`, `rawget` at another string key finds
what it found before. -/
theorem rawget_rawset_string_ne (t : List (LuaValue × LuaValue)) (s u : Bytes) (v : LuaValue)
    (hne : u ≠ s) : rawget (rawset t (.string s) v) (.string u) = rawget t (.string u) := by
  unfold rawset
  split
  · rw [rawget_map]
    unfold rawget
    cases hf : t.find? (fun e => keyeq e.1 (.string u)) with
    | none => rfl
    | some e =>
      have hp := List.find?_some hf
      simp only at hp
      have hk : keyeq e.1 (.string s) = false := by
        rw [keyeq_string hp]
        simp [keyeq, hne]
      simp only [hk]
      rfl
  · have hk : keyeq (.string s) (.string u) = false := by simp [keyeq, Ne.symm hne]
    unfold rawget
    rw [List.find?_append]
    cases t.find? (fun e => keyeq e.1 (.string u)) with
    | none => simp [List.find?, hk]
    | some e => rfl

/-- Fields of other names leave the entry of a name in the field name table
as it is. -/
theorem fieldtable_other (fs : List PGfield) (i : Nat) (t : List (LuaValue × LuaValue))
    (name : Bytes) (h : ∀ x ∈ fs, x.name ≠ name) :
    rawget (fieldtable fs i t) (.string name) = rawget t (.string name) := by
  induction fs generalizing i t with
  | nil => rfl
  | cons x fs ih =>
    rw [fieldtable, ih (i + 1) _ (fun y hy => h y (List.mem_cons_of_mem _ hy))]
    exact rawget_rawset_string_ne t x.name name _ (Ne.symm (h x (List.mem_cons_self _ _)))

/-- The field name table maps the name of field `f` to `f`, when no later
field has the same name (a later field of the same name takes the entry). -/
theorem fieldtable_get (fs : List PGfield) (i : Nat) (t : List (LuaValue × LuaValue))
    (f : Nat) (x : PGfield) (hx : fs[f]? = some x)
    (hlast : ∀ (g : Nat) (y : PGfield), f < g → fs[g]? = some y → y.name ≠ x.name) :
    rawget (fieldtable fs i t) (.string x.name) = .integer ((i + f : Nat) : Int) := by
  induction fs generalizing i t f with
  | nil => simp at hx
  | cons y fs ih =>
    cases f with
    | zero =>
      simp only [List.getElem?_cons_zero, Option.some.injEq] at hx
      subst hx
      rw [fieldtable, fieldtable_other]
      · rw [rawget_rawset_string]
        rfl
      · intro z hz
        obtain ⟨g, hg⟩ := List.getElem?_of_mem hz
        exact hlast (g + 1) z (Nat.succ_pos g) (by simpa using hg)
    | succ f =>
      simp only [List.getElem?_cons_succ] at hx
      rw [fieldtable, ih (i + 1) _ f hx]
      · congr 2
        omega
      · intro g z hg hz
        exact hlast (g + 1) z (by omega) (by simpa using hz)

/-- A later field of the same name takes the entry of the name in the field
name table: the name of field `f` then maps to the last field of that
name. -/
theorem fieldtable_last_wins (fs : List PGfield) (x : PGfield) (name : Bytes) (hx : x.name = name) :
    rawget (fieldtable (fs ++ [x]) 0 []) (.string name) = .integer (fs.length : Int) := by
  have h := fieldtable_get (fs ++ [x]) 0 [] fs.length x (by simp)
    (fun g y hg hy => by
      have : (fs ++ [x])[g]? = none := by
        rw [List.getElem?_eq_none]
        simp only [List.length_append, List.length_singleton]
        omega
      rw [this] at hy
      cases hy)
  rw [hx] at h
  simpa using h

/-- The decoder reads the state at the type metatable table only. -/
theorem pushvalue_typemt (H : Host) (L L2 : lua_State) (h : L2.typemt = L.typemt) (type : Nat)
    (mod : Int) (value : Bytes) (length : Int) (result : PGresult) (f row : Int) (fresh : Addr) :
    lpq_pushvalue H L2 type mod value length result f row fresh
      = lpq_pushvalue H L type mod value length result f row fresh := by
  have hd : pushvalue_default H L2 type mod value length
      = pushvalue_default H L type mod value length :=
    pushvalue_default_congr H L L2 type mod value length (by simp only [lpq_gettypemt, h])
  simp only [lpq_pushvalue, hd]

/-- Outside the cases that read the value again with `PQgetf`, the decoder
uses neither its row argument nor the identity for a new table: the value is
decoded from the bytes at `value`. -/
theorem pushvalue_row_free (H : Host) (L : lua_State) (type : Nat) (mod : Int) (value : Bytes)
    (length : Int) (result : PGresult) (f row row2 : Int) (fresh fresh2 : Addr)
    (h : type ∉ pushvalue_rereads) :
    lpq_pushvalue H L type mod value length result f row fresh
      = lpq_pushvalue H L type mod value length result f row2 fresh2 := by
  simp only [pushvalue_rereads, List.mem_cons, List.mem_singleton, List.not_mem_nil, or_false,
    not_or] at h
  obtain ⟨h1, h2, h3, h4, h5, h6, h7, h8, h9⟩ := h
  have c1 : ¬ (type = TIMESTAMPOID ∨ type = TIMESTAMPTZOID) := by tauto
  have c2 : ¬ (type = INTEGERARRAYOID ∨ type = BIGINTEGERARRAYOID) := by tauto
  have c3 : ¬ (type = TIMESTAMPARRAYOID ∨ type = TIMESTAMPTZARRAYOID) := by tauto
  have c4 : ¬ (type = FLOAT8ARRAYOID ∨ type = FLOAT4ARRAYOID) := by tauto
  simp only [lpq_pushvalue, if_neg c1, if_neg c2, if_neg h5, if_neg c3, if_neg c4]

/-- The fields loop of the fetch iterator returns exactly when every field of
the row decodes, and then holds the decoded values in the order of the fields,
each decoded with the flag `b` of the iterator as row argument. -/
theorem fetch_fields_iff (H : Host) (L : lua_State) (res : PGresult) (i b : Int) (fresh : Addr)
    (k : Nat) (f0 : Int) (vs : List LuaValue) :
    fetch_fields H L res i b fresh k f0 = .ok vs ↔
      vs.length = k ∧ ∀ (j : Nat) (v : LuaValue), vs[j]? = some v →
        push_field H L res i (f0 + j) b (fresh + (f0 + j).toNat) = .ok v := by
  induction k generalizing f0 vs with
  | zero =>
    simp only [fetch_fields, Except.ok.injEq]
    constructor
    · intro h
      subst h
      simp
    · intro h
      exact (List.length_eq_zero.1 h.1).symm
  | succ k ih =>
    have hpf : (if PQgetisnull res i f0 then Except.ok LuaValue.nil
        else lpq_pushvalue H L (PQftype res f0) (PQfmod res f0) (PQgetvalue res i f0)
          (PQgetlength res i f0) res f0 b (fresh + f0.toNat))
        = push_field H L res i f0 b (fresh + f0.toNat) := rfl
    simp only [fetch_fields, hpf]
    cases hx : push_field H L res i f0 b (fresh + f0.toNat) with
    | error e =>
      simp only
      constructor
      · intro h
        cases h
      · intro h
        cases vs with
        | nil => simp at h
        | cons v vs =>
          have := h.2 0 v (by simp)
          simp only [Nat.cast_zero, add_zero, hx] at this
          cases this
    | ok x =>
      simp only
      cases hr : fetch_fields H L res i b fresh k (f0 + 1) with
      | error e =>
        simp only
        constructor
        · intro h
          cases h
        · intro h
          cases vs with
          | nil => simp at h
          | cons v vs =>
            have h2 : fetch_fields H L res i b fresh k (f0 + 1) = .ok vs := by
              rw [ih]
              refine ⟨by simpa using h.1, ?_⟩
              intro j w hw
              have := h.2 (j + 1) w (by simpa using hw)
              have he : f0 + 1 + (j : Int) = f0 + ((j + 1 : Nat) : Int) := by
                push_cast
                ring
              rw [he]
              exact this
            rw [hr] at h2
            cases h2
      | ok xs =>
        simp only [Except.ok.injEq]
        have hxs := (ih (f0 + 1) xs).1 hr
        constructor
        · intro h
          subst h
          refine ⟨by simp [hxs.1], ?_⟩
          intro j w hw
          cases j with
          | zero =>
            simp only [List.getElem?_cons_zero, Option.some.injEq] at hw
            subst hw
            simpa using hx
          | succ j =>
            simp only [List.getElem?_cons_succ] at hw
            have := hxs.2 j w hw
            have he : f0 + ((j + 1 : Nat) : Int) = f0 + 1 + (j : Int) := by
              push_cast
              ring
            rw [he]
            exact this
        · intro h
          cases vs with
          | nil => simp at h
          | cons v vs =>
            have h0 := h.2 0 v (by simp)
            simp only [Nat.cast_zero, add_zero, hx, Except.ok.injEq] at h0
            have h2 : fetch_fields H L res i b fresh k (f0 + 1) = .ok vs := by
              rw [ih]
              refine ⟨by simpa using h.1, ?_⟩
              intro j w hw
              have := h.2 (j + 1) w (by simpa using hw)
              have he : f0 + 1 + (j : Int) = f0 + ((j + 1 : Nat) : Int) := by
                push_cast
                ring
              rw [he]
              exact this
            rw [hr, Except.ok.injEq] at h2
            rw [h0, h2]

/-- One call of the fetch iterator whose current row `c` is a row of the
result: the values are the row number, when the flag is on, and the fields of
row `c`, each decoded with the flag as row argument; the current row of the
next call is `c + 1`.  The call raises what the decoding of a field raises,
and then leaves the current row as it is. -/
theorem fetchaux_call (H : Host) (L : lua_State) (r : Addr) (R : lpq_Rset) (res : PGresult)
    (x : LuaValue) (c : Int) (fresh : Addr)
    (hR : L.rsets[r]? = some R) (hres : L.results[R.result]? = some res)
    (h0 : 0 ≤ c) (h1 : c < PQntuples res) (h2 : c < 2147483648) :
    lpq_rset_fetchaux H L [.handle .rset r, x, .integer c] fresh =
      match fetch_fields H L res c (if lua_toboolean x then 1 else 0) fresh res.fields.length 0 with
      | .error e => .error e
      | .ok vs =>
        .ok ((if lua_toboolean x then [.integer (c + 1)] else []) ++ vs,
          [.handle .rset r, x, .integer (c + 1)]) := by
  have hc : to_int32 c = c := to_int32_of_int c (by omega) h2
  have e1 : arg [LuaValue.handle .rset r, x, .integer c] 1 = .handle .rset r := rfl
  have e2 : arg [LuaValue.handle .rset r, x, .integer c] 2 = x := rfl
  have e3 : arg [LuaValue.handle .rset r, x, .integer c] 3 = .integer c := rfl
  simp only [lpq_rset_fetchaux, e1, e2, e3, hR, hres, lua_tointeger_integer, hc, if_pos h1]
  cases lua_toboolean x <;> rfl

/-- Call `k + 1` of the fetch iterator, counted from a call with current row
`c`, returns exactly when the fields of each of the rows `c .. c + k` decode
with the flag of the iterator as row argument; its values are then the row
number `c + k + 1`, when the flag is on, and the decoded fields of row
`c + k`. -/
theorem fetch_nth_iff (H : Host) (L : lua_State) (r : Addr) (R : lpq_Rset) (res : PGresult)
    (x : LuaValue) (fresh : Addr)
    (hR : L.rsets[r]? = some R) (hres : L.results[R.result]? = some res)
    (hN : PQntuples res ≤ 2147483648) (k : Nat) (c : Int) (h0 : 0 ≤ c)
    (hk : c + k < PQntuples res) (vs : List LuaValue) :
    fetch_nth H L fresh k [.handle .rset r, x, .integer c] = .ok vs ↔
      (∀ j : Nat, j < k → ∃ fs, fetch_fields H L res (c + j) (if lua_toboolean x then 1 else 0)
        fresh res.fields.length 0 = .ok fs) ∧
      ∃ fs, fetch_fields H L res (c + k) (if lua_toboolean x then 1 else 0) fresh
          res.fields.length 0 = .ok fs ∧
        vs = (if lua_toboolean x then [.integer (c + k + 1)] else []) ++ fs := by
  induction k generalizing c with
  | zero =>
    simp only [Nat.cast_zero, add_zero] at hk ⊢
    rw [fetch_nth, fetchaux_call H L r R res x c fresh hR hres h0 hk (by omega)]
    cases hf : fetch_fields H L res c (if lua_toboolean x then 1 else 0) fresh
        res.fields.length 0 with
    | error e =>
      simp only [Except.map]
      constructor
      · intro h
        cases h
      · rintro ⟨_, fs, h, _⟩
        cases h
    | ok fs =>
      simp only [Except.map, Except.ok.injEq]
      constructor
      · intro h
        exact ⟨fun j hj => absurd hj (Nat.not_lt_zero j), fs, rfl, h.symm⟩
      · rintro ⟨_, fs2, h, hv⟩
        cases h
        exact hv.symm
  | succ k ih =>
    have hc1 : c < PQntuples res := by
      push_cast at hk
      omega
    rw [fetch_nth, fetchaux_call H L r R res x c fresh hR hres h0 hc1 (by omega)]
    have hcast : c + 1 + (k : Int) = c + ((k + 1 : Nat) : Int) := by
      push_cast
      ring
    cases hf : fetch_fields H L res c (if lua_toboolean x then 1 else 0) fresh
        res.fields.length 0 with
    | error e =>
      simp only
      constructor
      · intro h
        cases h
      · rintro ⟨hall, _⟩
        obtain ⟨fs, hfs⟩ := hall 0 (Nat.succ_pos k)
        simp only [Nat.cast_zero, add_zero, hf] at hfs
        cases hfs
    | ok fs0 =>
      simp only
      rw [ih (c + 1) (by omega) (by rw [hcast]; exact hk), hcast]
      constructor
      · rintro ⟨hall, hlast⟩
        refine ⟨?_, hlast⟩
        intro j hj
        cases j with
        | zero =>
          refine ⟨fs0, ?_⟩
          simpa using hf
        | succ j =>
          obtain ⟨fs, hfs⟩ := hall j (by omega)
          refine ⟨fs, ?_⟩
          have he : c + ((j + 1 : Nat) : Int) = c + 1 + (j : Int) := by
            push_cast
            ring
          rw [he]
          exact hfs
      · rintro ⟨hall, hlast⟩
        refine ⟨?_, hlast⟩
        intro j hj
        obtain ⟨fs, hfs⟩ := hall (j + 1) (by omega)
        refine ⟨fs, ?_⟩
        have he : c + 1 + (j : Int) = c + ((j + 1 : Nat) : Int) := by
          push_cast
          ring
        rw [he]
        exact hfs

/-- Indexing a valid tuple by a key its field name table maps to the field
number `f`: the tuple decodes field `f` of its row with its row as row
argument. -/
theorem tuple_index_field (H : Host) (L : lua_State) (t : Addr) (T : lpq_Tuple) (R : lpq_Rset)
    (res : PGresult) (id : Addr) (mt : Option Addr) (fields : List (LuaValue × LuaValue))
    (key : LuaValue) (f : Int) (fresh : Addr)
    (hT : L.tuples[t]? = some T) (hv : T.valid = true) (henv : T.env = .table id mt fields)
    (hR : L.rsets[T.rset]? = some R) (hres : L.results[R.result]? = some res)
    (hkey : rawget fields key = .integer f) (h0 : 0 ≤ f) (h1 : f < 2147483648) :
    (lpq_tuple__index H L [.handle .tuple t, key] fresh).1
      = (push_field H L res T.row f T.row fresh).map (fun v => [v]) := by
  have hf : to_int32 f = f := to_int32_of_int f (by omega) h1
  have e1 : arg [LuaValue.handle .tuple t, key] 1 = .handle .tuple t := rfl
  have e2 : arg [LuaValue.handle .tuple t, key] 2 = key := rfl
  simp only [lpq_tuple__index, e1, e2, hT, hv, henv, hR, hres, hkey, Bool.not_true,
    Bool.false_eq_true, if_false, lua_isnumber, lua_cvt2num, Option.isSome_some,
    if_true, lua_tointeger_integer, hf, push_field]
  by_cases hn : PQgetisnull res T.row f = true
  · rw [if_pos hn, if_pos hn]
    rfl
  · rw [if_neg hn, if_neg hn]
    cases lpq_pushvalue H L (PQftype res f) (PQfmod res f) (PQgetvalue res T.row f)
      (PQgetlength res T.row f) res f T.row fresh <;> rfl

/-- Indexing a result set leaves the type metatable table alone. -/
theorem rset_index_typemt (H : Host) (L : lua_State) (args : List LuaValue) :
    (lpq_rset__index H L args).2.typemt = L.typemt := by
  unfold lpq_rset__index
  dsimp only
  repeat' split
  all_goals rfl

/-- The row handle path on the first access of row `i`: `rset[i + 1][key]`, for
a key the field name table of the result set maps to the field number `f`,
decodes field `f` of row `i` with `i` as row argument. -/
theorem rset_row_field_first (H : Host) (L : lua_State) (r : Addr) (R : lpq_Rset)
    (res : PGresult) (env : List (LuaValue × LuaValue)) (id : Addr) (mt : Option Addr)
    (fields : List (LuaValue × LuaValue)) (i : Nat) (key : LuaValue) (f : Int) (fresh : Addr)
    (hR : L.rsets[r]? = some R) (hres : L.results[R.result]? = some res)
    (hst : res.status = .PGRES_TUPLES_OK) (henv : R.env = some env)
    (hfields : rawget env (.string LPQ_RSET_FIELDS) = .table id mt fields)
    (hi : i < res.rows.length) (hN : res.rows.length < 2147483648)
    (hfirst : rawget env (.integer ((i : Int) + 1)) = .nil)
    (hkey : rawget fields key = .integer f) (h0 : 0 ≤ f) (h1 : f < 2147483648) :
    (rset_row_field H L (.handle .rset r) ((i : Int) + 1) key fresh).1
      = (push_field H L res i f i fresh).map (fun v => [v]) := by
  obtain ⟨e1, e2, e3, e4, _⟩ := rset_index_miss H L r R res env ((i : Int) + 1) hR hres hst henv
    (by omega) (by simp only [PQntuples]; omega) (by omega) hfirst
  have e5 := rset_index_typemt H L [.handle .rset r, .integer ((i : Int) + 1)]
  have hp : lpq_rset__index H L [.handle .rset r, .integer ((i : Int) + 1)]
      = (.ok [.handle .tuple L.tuples.length],
          (lpq_rset__index H L [.handle .rset r, .integer ((i : Int) + 1)]).2) :=
    Prod.ext e1 rfl
  have hlt : r < L.rsets.length := (List.getElem?_eq_some.1 hR).1
  unfold rset_row_field
  rw [hp]
  simp only
  rw [tuple_index_field H _ L.tuples.length
    { rset := r, row := (i : Int) + 1 - 1, valid := true,
      env := rawget env (.string LPQ_RSET_FIELDS) }
    { R with env := some (rawset env (.integer ((i : Int) + 1)) (.handle .tuple L.tuples.length)) }
    res id mt fields key f fresh (by rw [e2]; simp) rfl hfields
    (by rw [e3]; simp only [List.getElem?_set, hlt, if_true])
    (by rw [e4]; exact hres) hkey h0 h1]
  simp only [add_sub_cancel_right, push_field]
  rw [pushvalue_typemt H L _ e5]

/-- The closure `rset:fetch(x)` returns: the iterator with the result set, the
flag `x` and the current row 0 as upvalues. -/
theorem rset_fetch_closure (L : lua_State) (r : Addr) (R : lpq_Rset) (x : LuaValue)
    (hR : L.rsets[r]? = some R) :
    lpq_rset_fetch L [.handle .rset r, x]
      = (.ok [.closure FETCHAUX [.handle .rset r, x, .integer 0]], L) := by
  have e1 : arg [LuaValue.handle .rset r, x] 1 = .handle .rset r := rfl
  have e2 : arg [LuaValue.handle .rset r, x] 2 = x := rfl
  simp only [lpq_rset_fetch, lpq_checkrset, e1, e2, hR]

/-- The value the fetch iterator yields for field `f` on call `i + 1`: field
`f` of row `i`, decoded with the flag of the iterator (0 or 1) as the row
argument of `lpq_pushvalue`. -/
theorem fetch_nth_field (H : Host) (L : lua_State) (r : Addr) (R : lpq_Rset) (res : PGresult)
    (x : LuaValue) (fresh : Addr) (i f : Nat) (vs : List LuaValue)
    (hR : L.rsets[r]? = some R) (hres : L.results[R.result]? = some res)
    (hi : i < res.rows.length) (hN : res.rows.length < 2147483648)
    (hf : f < res.fields.length)
    (hfetch : fetch_nth H L fresh i [.handle .rset r, x, .integer 0] = .ok vs) :
    ∃ v, vs[(if lua_toboolean x then 1 else 0) + f]? = some v ∧
      push_field H L res i f (if lua_toboolean x then 1 else 0) (fresh + f) = .ok v := by
  obtain ⟨_, fs, hfs, hvs⟩ := (fetch_nth_iff H L r R res x fresh hR hres
    (by simp only [PQntuples]; omega) i 0 (le_refl 0) (by simp only [PQntuples]; omega) vs).1 hfetch
  rw [zero_add] at hfs
  obtain ⟨hlen, hget⟩ := (fetch_fields_iff H L res i _ fresh _ 0 fs).1 hfs
  have hv : fs[f]? = some (fs[f]) := List.getElem?_eq_getElem (by omega)
  refine ⟨fs[f], ?_, ?_⟩
  · rw [hvs]
    cases lua_toboolean x
    · simp
    · simp [Nat.add_comm 1 f]
  · have := hget f _ hv
    simpa using this

/-- Where the two ways to read a row agree.  In a state where the result set
`r` holds a result with row data, with its field name table as
`lpq_pushresult` made it, for a row `i` whose handle `rset[i + 1]` is not in
the cache yet and a field `f` whose name no later field has: when call
`i + 1` of the iterator `rset:fetch(x)` returns the values `vs`, and the type
of the field is none of those `lpq_pushvalue` reads again from the result, or
the flag of the iterator (0 or 1) happens to be the row number `i`, then the
value of field `f` among `vs` is the value `rset[i + 1][name of f]` returns
(a table made for the field with the same identity). -/
theorem fetch_agrees_with_row (H : Host) (L : lua_State) (r : Addr) (R : lpq_Rset)
    (res : PGresult) (env : List (LuaValue × LuaValue)) (id : Addr) (x : LuaValue)
    (i f : Nat) (fld : PGfield) (fresh : Addr) (vs : List LuaValue)
    (hR : L.rsets[r]? = some R) (hres : L.results[R.result]? = some res)
    (hst : res.status = .PGRES_TUPLES_OK) (henv : R.env = some env)
    (hfields : rawget env (.string LPQ_RSET_FIELDS)
      = .table id none (fieldtable res.fields 0 []))
    (hi : i < res.rows.length) (hN : res.rows.length < 2147483648)
    (hf : res.fields[f]? = some fld) (hF : res.fields.length ≤ 2147483648)
    (hname : ∀ (g : Nat) (y : PGfield), f < g → res.fields[g]? = some y → y.name ≠ fld.name)
    (hfirst : rawget env (.integer ((i : Int) + 1)) = .nil)
    (hrow : fld.ftype ∉ pushvalue_rereads ∨ (if lua_toboolean x then 1 else 0) = (i : Int))
    (hfetch : fetch_nth H L fresh i [.handle .rset r, x, .integer 0] = .ok vs) :
    ∃ v, vs[(if lua_toboolean x then 1 else 0) + f]? = some v ∧
      (rset_row_field H L (.handle .rset r) ((i : Int) + 1) (.string fld.name) (fresh + f)).1
        = .ok [v] := by
  have hflt : f < res.fields.length := (List.getElem?_eq_some.1 hf).1
  obtain ⟨v, hv, hpf⟩ := fetch_nth_field H L r R res x fresh i f vs hR hres hi hN hflt hfetch
  refine ⟨v, hv, ?_⟩
  have hkey : rawget (fieldtable res.fields 0 []) (.string fld.name) = .integer (f : Int) := by
    have := fieldtable_get res.fields 0 [] f fld hf hname
    simpa using this
  rw [rset_row_field_first H L r R res env id none _ i (.string fld.name) f (fresh + f) hR hres
    hst henv hfields hi hN hfirst hkey (by omega) (by omega)]
  have hty : PQftype res f = fld.ftype := by
    simp [PQftype, hf]
  have heq : push_field H L res i f i (fresh + f)
      = push_field H L res i f (if lua_toboolean x then 1 else 0) (fresh + f) := by
    rcases hrow with h | h
    · simp only [push_field]
      rw [pushvalue_row_free H L _ _ _ _ res f i (if lua_toboolean x then 1 else 0) (fresh + f)
        (fresh + f) (by rw [hty]; exact h)]
    · rw [h]
  rw [heq, hpf]
  rfl

theorem fetch_agrees_with_row_witness :
    (∃ v, [LuaValue.integer 8][(if lua_toboolean .nil then 1 else 0) + 0]? = some v ∧
      (rset_row_field plainHost openWithTwoRows (.handle .rset 0) ((1 : Nat) + 1)
        (.string (cstr "a")) (60 + 0)).1 = .ok [v]) ∧
    (∃ v, [LuaValue.integer 2, .float (wrapHost.int2float 200),
        .table 61 none [(.integer 1, .string [121])]][
          (if lua_toboolean (.boolean true) then 1 else 0) + 0]? = some v ∧
      (rset_row_field wrapHost openWithStamps (.handle .rset 0) ((1 : Nat) + 1)
        (.string (cstr "t")) (60 + 0)).1 = .ok [v]) :=
  ⟨fetch_agrees_with_row plainHost openWithTwoRows 0
      { result := 0,
        env := some [(.string LPQ_RSET_FIELDS,
          .table 50 none [(.string (cstr "a"), .integer 0)])] }
      twoRows _ 50 .nil 1 0 { name := cstr "a", ftype := INT4OID, fmod := -1 } 60
      [.integer 8] rfl rfl rfl rfl rfl (by decide) (by decide) rfl (by decide)
      (fun g y hg hy => by
        cases g with
        | zero => omega
        | succ g => cases hy)
      rfl (Or.inl (by decide)) rfl,
    fetch_agrees_with_row wrapHost openWithStamps 0
      { result := 0,
        env := some [(.string LPQ_RSET_FIELDS,
          .table 50 none
            [(.string (cstr "t"), .integer 0), (.string (cstr "a"), .integer 1)])] }
      twoStamps _ 50 (.boolean true) 1 0 { name := cstr "t", ftype := TIMESTAMPOID, fmod := -1 } 60
      [.integer 2, .float (wrapHost.int2float 200), .table 61 none [(.integer 1, .string [121])]]
      rfl rfl rfl rfl rfl (by decide) (by decide) rfl (by decide)
      (fun g y hg hy => by
        cases g with
        | zero => omega
        | succ g =>
          cases g with
          | zero =>
            cases hy
            decide
          | succ g => cases hy)
      rfl (Or.inr rfl) rfl⟩

/-- C21 (the defect): `lpq_rset_fetchaux` hands its flag `rowindex` (0 or 1,
whether the row number is returned too) to `lpq_pushvalue` as the row to read
with `PQgetf`, where `lpq_tuple__index` hands the row of the tuple.  On a
result with two rows of a `timestamp` field `t` (epochs 100 and 200) and a
`varchar[]` field `a` (the arrays `x` and `y`): the second call of the
iterator `rset:fetch()` yields for row 1 the timestamp and the array of row 0,
where `rset[2].t` and `rset[2].a` are those of row 1; and the first call of
the iterator `rset:fetch(true)` yields for row 0 the timestamp and the array
of row 1, where `rset[1].t` is that of row 0.  On a result with one row of an
`int4[]` field `a`, the first call of `rset:fetch(true)` reads the array of
row 1, which the result does not have, and uses what `PQgetf` did not set,
where `rset[1].a` is the array of the row. -/
theorem fetch_rereads_flag_row :
    PQntuples_at openWithStamps 0 = 2 ∧
      lpq_rset_fetch openWithStamps [.handle .rset 0]
        = (.ok [.closure FETCHAUX [.handle .rset 0, .nil, .integer 0]], openWithStamps) ∧
      fetch_nth wrapHost openWithStamps 60 1 [.handle .rset 0, .nil, .integer 0]
        = .ok [.float (wrapHost.int2float 100), .table 61 none [(.integer 1, .string [120])]] ∧
      (rset_row_field wrapHost openWithStamps (.handle .rset 0) 2 (.string (cstr "t")) 60).1
        = .ok [.float (wrapHost.int2float 200)] ∧
      (rset_row_field wrapHost openWithStamps (.handle .rset 0) 2 (.string (cstr "a")) 61).1
        = .ok [.table 61 none [(.integer 1, .string [121])]] ∧
      wrapHost.int2float 100 ≠ wrapHost.int2float 200 ∧
      fetch_nth wrapHost openWithStamps 60 0 [.handle .rset 0, .boolean true, .integer 0]
        = .ok [.integer 1, .float (wrapHost.int2float 200),
            .table 61 none [(.integer 1, .string [121])]] ∧
      (rset_row_field wrapHost openWithStamps (.handle .rset 0) 1 (.string (cstr "t")) 60).1
        = .ok [.float (wrapHost.int2float 100)] ∧
      PQntuples_at openWithArray 0 = 1 ∧
      fetch_nth wrapHost openWithArray 60 0 [.handle .rset 0, .boolean true, .integer 0]
        = .error .undefined ∧
      (rset_row_field wrapHost openWithArray (.handle .rset 0) 1 (.string (cstr "a")) 60).1
        = .ok [.table 60 none [(.integer 1, .float (wrapHost.int2float 1)),
            (.integer 2, .float (wrapHost.int2float 2)),
            (.integer 3, .float (wrapHost.int2float 3))]] := by
  refine ⟨rfl, rfl, rfl, rfl, rfl, by decide, rfl, rfl, rfl, rfl, rfl⟩

/-! ## The stores of parameter binding -/

/-- For a plan with at least one parameter whose value and length tables have
`n` slots, every store of the list `setparams_stores` goes to a slot of its
table. -/
theorem setparams_stores_inside (P : lpq_Plan) (hn : 1 ≤ P.n)
    (hv : P.value.length = P.n.toNat) (hl : P.length.length = P.n.toNat) :
    ∀ s ∈ setparams_stores P.n, Store.inside P s = true := by
  intro s hs
  simp only [setparams_stores, List.mem_append, List.mem_map, List.mem_range, List.mem_singleton]
    at hs
  rcases hs with (⟨j, hj, rfl⟩ | rfl) | ⟨j, hj, rfl⟩
  · simp only [Store.inside, hl, decide_eq_true_eq]
    exact hj
  · simp only [Store.inside, hv, decide_eq_true_eq]
    omega
  · simp only [Store.inside, hv, decide_eq_true_eq]
    omega

/-- The plan `lpq_getplan` makes for a description with `n` parameter types:
`P->n` is `n`, and each of the four tables has `n` slots. -/
theorem getplan_slots (L : lua_State) (p : Addr) (C : lpq_Conn) (name : Bytes)
    (res : PGresult) (junk : Int) (hst : res.status = .PGRES_COMMAND_OK) :
    (lpq_getplan L p C name (some res) junk).1 = some L.plans.length ∧
      ∃ P, (lpq_getplan L p C name (some res) junk).2.plans[L.plans.length]? = some P ∧
        P.n = res.params.length ∧ P.type.length = res.params.length ∧
        P.value.length = res.params.length ∧ P.length.length = res.params.length ∧
        P.format.length = res.params.length := by
  simp [lpq_getplan, hst, clearnow]

/-- C22 (the defect): the store `P->value[0] = lua_tostring(L, -1)` of
`lpq_setparams` is made whatever `P->n` is.  For a plan without parameters,
whose four tables have no slot (the userdata `lpq_getplan` allocates ends
where the value table starts), every call of `lpq_setparams` returns, with an
empty buffer, and makes exactly one store, `value[0]`, which is no slot of
the value table.  `prepare` on a statement without parameters gives such a
plan, and `plan:exec()` on it goes through `lpq_setparams` to
`PQexecPrepared`. -/
theorem setparams_stores_past_end :
    (∀ (H : Host) (L : lua_State) (args : List LuaValue) (c : Addr) (name : Bytes) (v : Bool),
      (lpq_setparams H L (planWithoutParams c name v) args).1 = .ok [] ∧
        setparams_trace H L (planWithoutParams c name v) args = [.value 0] ∧
        Store.inside (planWithoutParams c name v) (.value 0) = false) ∧
      openWithPlan0.plans.map (fun P => (P.n, P.type, P.value, P.length, P.format, P.valid))
        = [(0, [], [], [], [], true)] ∧
      (lpq_plan_exec plainHost openWithPlan0 [.handle .plan 0] (some oneRow) 50).1
        = .ok [.handle .rset 0] ∧
      ((lpq_plan_exec plainHost openWithPlan0 [.handle .plan 0] (some oneRow) 50).2.pq).getLast?
        = some (.PQexecPrepared 77 (cstr "q") 0 [] [] [] []) ∧
      setparams_stores 0 = [.value 0] := by
  refine ⟨fun H L args c name v => ⟨rfl, rfl, rfl⟩, rfl, rfl, rfl, rfl⟩

/-! ## Parameter binding and the Lua stack -/

/-- A value pushed lies above a box that is on the stack. -/
theorem push_onstack (B : luaL_Buffer) (a k : Nat) (h : B.box = .onstack a) :
    (B.push k).box = .onstack (a + k) := by
  simp only [luaL_Buffer.push, h]

/-- A buffer in its array on which `l` more bytes fit stays in its array:
`luaL_addlstring` makes no box. -/
theorem addlstring_initb (n size l : Nat) (h : n + l ≤ size) :
    luaL_addlstring { n := n, size := size, box := .initb } l
      = .ok { n := n + l, size := size, box := .initb } := by
  unfold luaL_addlstring
  by_cases hl : l = 0
  · subst hl
    simp
  · have hg : ¬ (size - n < l) := by omega
    simp [hl, luaL_prepbuffsize, hg, Except.map]

/-- With values above the box of the buffer, `luaL_addlstring` faults when it
has to resize the box, and leaves the box where it is otherwise. -/
theorem addlstring_above (B : luaL_Buffer) (l a : Nat) (h : B.box = .onstack (a + 1)) :
    luaL_addlstring B l = .error .undefined ∨
      ∃ B2, luaL_addlstring B l = .ok B2 ∧ B2.box = .onstack (a + 1) := by
  unfold luaL_addlstring
  by_cases hl : l = 0
  · right
    exact ⟨B, by simp [hl], h⟩
  · have hp : ¬ (B.box = .popped) := by
      rw [h]
      simp
    simp only [hl, hp, if_false, luaL_prepbuffsize]
    by_cases hg : B.size - B.n < l
    · left
      simp only [hg, if_true, h]
      rfl
    · right
      simp only [hg, if_false]
      exact ⟨{ B with n := B.n + l }, rfl, h⟩

/-- The stores a round of the first loop of `lpq_setparams` hands on are those
of the host: with a host whose functions do not call back into the library
there are none. -/
theorem tovalue_stack_quiet (H : Host) (L : lua_State) (v : LuaValue) (t : Nat)
    (B B1 : luaL_Buffer) (st : List (Nat × Int)) (hq : ∀ f a, H.reenter f a = [])
    (h : tovalue_stack H L v t B = .ok (B1, st)) : st = [] := by
  have hmap : ∀ (x : Except Fault luaL_Buffer),
      x.map (fun B1 => (B1, ([] : List (Nat × Int)))) = .ok (B1, st) → st = [] := by
    intro x hx
    cases x with
    | error e => cases hx
    | ok y =>
      simp only [Except.map, Except.ok.injEq, Prod.mk.injEq] at hx
      exact hx.2.symm
  have hraw : ∀ (x : Option Bytes),
      (match x with
        | some s => (luaL_addlstring B s.length).map (fun B1 => (B1, ([] : List (Nat × Int))))
        | none => .ok (B, [])) = .ok (B1, st) → st = [] := by
    intro x hx
    cases x with
    | none =>
      simp only [Except.ok.injEq, Prod.mk.injEq] at hx
      exact hx.2.symm
    | some s => exact hmap _ hx
  unfold tovalue_stack at h
  split at h
  · -- interval
    split at h
    · cases h
    · split at h
      · cases h
      · split at h
        · cases h
        · split at h
          · cases h
          · split at h
            · cases h
            · exact hmap _ h
  · split at h
    · exact hmap _ h
    · split at h
      · split at h
        · exact hmap _ h
        · cases h
      · split at h
        · exact hmap _ h
        · split at h
          · exact hmap _ h
          · split at h
            · exact hmap _ h
            · split at h
              · exact hraw _ h
              · unfold tovalue_default_stack at h
                simp only at h
                split at h
                · split at h
                  · cases h
                  · split at h
                    · split at h
                      · split at h
                        · cases h
                        · split at h
                          · cases hx : luaL_addlstring (B.push 2) _ with
                            | error e =>
                              rw [hx] at h
                              cases h
                            | ok y =>
                              rw [hx] at h
                              simp only [Except.map, Except.ok.injEq, Prod.mk.injEq] at h
                              rw [← h.2]
                              exact hq _ _
                          · simp only [Except.ok.injEq, Prod.mk.injEq] at h
                            rw [← h.2]
                            exact hq _ _
                      · exact hraw _ h
                    · exact hraw _ h
                · exact hraw _ h

/-- A round of the first loop on a buffer that is in its array and has room
for what the encoder appends: the buffer stays in its array, whatever the
encoder pushes on the stack, and nothing faults. -/
theorem tovalue_stack_initb (H : Host) (L : lua_State) (v : LuaValue) (t : Nat) (b e : Bytes)
    (l : Int) (n size : Nat) (h : lpq_tovalue H L v t b = .ok (l, b ++ e))
    (hs : n + e.length ≤ size) :
    ∃ st, tovalue_stack H L v t { n := n, size := size, box := .initb }
      = .ok ({ n := n + e.length, size := size, box := .initb }, st) := by
  have hadd : ∀ (m k : Nat), m + k ≤ size →
      luaL_addlstring { n := m, size := size, box := .initb } k
        = .ok { n := m + k, size := size, box := .initb } :=
    fun m k hk => addlstring_initb m size k hk
  have hlen : ∀ (x : Bytes), b ++ x = b ++ e → e.length = x.length := by
    intro x hx
    rw [List.append_cancel_left hx]
  by_cases h1 : t = INTERVALOID
  · simp only [lpq_tovalue, if_pos h1] at h
    simp only [tovalue_stack, if_pos h1]
    cases hg1 : lua_getfield H v (cstr "time") with
    | error x =>
      rw [hg1] at h
      cases h
    | ok time =>
      cases hg2 : lua_getfield H v (cstr "day") with
      | error x =>
        rw [hg1, hg2] at h
        cases h
      | ok day =>
        cases hg3 : lua_getfield H v (cstr "month") with
        | error x =>
          rw [hg1, hg2, hg3] at h
          cases h
        | ok month =>
          rw [hg1, hg2, hg3] at h
          simp only [Except.ok.injEq, Prod.mk.injEq] at h
          have he : e.length = 16 := by
            have := congrArg List.length h.2
            simp only [senduint32_length, sendfloat8_length, List.length_append] at this
            omega
          have a1 := hadd n 4 (by omega)
          have a2 := hadd (n + 4) 4 (by omega)
          have a3 := hadd (n + 4 + 4) 4 (by omega)
          have a4 := hadd (n + 4 + 4 + 4) 4 (by omega)
          simp only [luaL_Buffer.push, a1, a2, a3, a4, Except.bind, Except.map]
          refine ⟨[], ?_⟩
          rw [he]
  by_cases h2 : t = BOOLOID
  · simp only [lpq_tovalue, if_neg h1, if_pos h2, Except.ok.injEq, Prod.mk.injEq] at h
    have he := hlen _ h.2
    simp only [List.length_singleton] at he
    simp only [tovalue_stack, if_neg h1, if_pos h2, luaL_addchar, hadd n 1 (by omega), Except.map]
    exact ⟨[], by rw [he]⟩
  by_cases h3 : t = CHAROID
  · simp only [lpq_tovalue, if_neg h1, if_neg h2, if_pos h3] at h
    simp only [tovalue_stack, if_neg h1, if_neg h2, if_pos h3]
    cases hl : lua_tolstring H v with
    | none =>
      rw [hl] at h
      cases h
    | some s =>
      rw [hl] at h
      simp only [Except.ok.injEq, Prod.mk.injEq] at h
      have he := hlen _ h.2
      simp only [List.length_singleton] at he
      simp only [luaL_addchar, hadd n 1 (by omega), Except.map]
      exact ⟨[], by rw [he]⟩
  by_cases h4 : t = INT4OID ∨ t = OIDOID
  · simp only [lpq_tovalue, if_neg h1, if_neg h2, if_neg h3, if_pos h4, Except.ok.injEq,
      Prod.mk.injEq] at h
    have he : e.length = 4 := by
      have := congrArg List.length h.2
      simp only [senduint32_length, List.length_append] at this
      omega
    simp only [tovalue_stack, if_neg h1, if_neg h2, if_neg h3, if_pos h4, hadd n 4 (by omega),
      Except.map]
    exact ⟨[], by rw [he]⟩
  by_cases h5 : t = FLOAT4OID
  · simp only [lpq_tovalue, if_neg h1, if_neg h2, if_neg h3, if_neg h4, if_pos h5, Except.ok.injEq,
      Prod.mk.injEq] at h
    have he : e.length = 4 := by
      have := congrArg List.length h.2
      simp only [lpq_sendfloat4, senduint32_length, List.length_append] at this
      omega
    simp only [tovalue_stack, if_neg h1, if_neg h2, if_neg h3, if_neg h4, if_pos h5,
      hadd n 4 (by omega), Except.map]
    exact ⟨[], by rw [he]⟩
  by_cases h6 : t = FLOAT8OID
  · simp only [lpq_tovalue, if_neg h1, if_neg h2, if_neg h3, if_neg h4, if_neg h5, if_pos h6,
      Except.ok.injEq, Prod.mk.injEq] at h
    have he : e.length = 8 := by
      have := congrArg List.length h.2
      simp only [sendfloat8_length, List.length_append] at this
      omega
    simp only [tovalue_stack, if_neg h1, if_neg h2, if_neg h3, if_neg h4, if_neg h5, if_pos h6,
      hadd n 4 (by omega), hadd (n + 4) 4 (by omega), Except.bind, Except.map]
    exact ⟨[], by rw [he]⟩
  by_cases h7 : t = BYTEAOID ∨ t = TEXTOID ∨ t = BPCHAROID ∨ t = NAMEOID ∨ t = VARCHAROID
  · simp only [lpq_tovalue, if_neg h1, if_neg h2, if_neg h3, if_neg h4, if_neg h5, if_neg h6,
      if_pos h7] at h
    simp only [tovalue_stack, if_neg h1, if_neg h2, if_neg h3, if_neg h4, if_neg h5, if_neg h6,
      if_pos h7]
    cases hl : lua_tolstring H v with
    | none =>
      rw [hl] at h
      simp only [Except.ok.injEq, Prod.mk.injEq] at h
      have he := hlen [] (by rw [List.append_nil]; exact h.2)
      simp only [List.length_nil] at he
      exact ⟨[], by rw [he]; rfl⟩
    | some s =>
      rw [hl] at h
      simp only [Except.ok.injEq, Prod.mk.injEq] at h
      have he := hlen _ h.2
      simp only [hadd n s.length (by omega), Except.map]
      exact ⟨[], by rw [he]⟩
  simp only [lpq_tovalue, if_neg h1, if_neg h2, if_neg h3, if_neg h4, if_neg h5, if_neg h6,
    if_neg h7] at h
  simp only [tovalue_stack, if_neg h1, if_neg h2, if_neg h3, if_neg h4, if_neg h5, if_neg h6,
    if_neg h7]
  have raw : (Except.ok (tovalue_raw H v b) : Except Fault (Int × Bytes)) = .ok (l, b ++ e) →
      ∃ st, (match lua_touserdata H v with
        | some s =>
          (luaL_addlstring { n := n, size := size, box := .initb } s.length).map
            (fun B1 => (B1, ([] : List (Nat × Int))))
        | none => .ok ({ n := n, size := size, box := .initb }, []))
        = .ok ({ n := n + e.length, size := size, box := .initb }, st) := by
    intro hr
    unfold tovalue_raw at hr
    cases hu : lua_touserdata H v with
    | none =>
      rw [hu] at hr
      simp only [Except.ok.injEq, Prod.mk.injEq] at hr
      have he := hlen [] (by rw [List.append_nil]; exact hr.2)
      simp only [List.length_nil] at he
      exact ⟨[], by rw [he]; rfl⟩
    | some s =>
      rw [hu] at hr
      simp only [Except.ok.injEq, Prod.mk.injEq] at hr
      have he := hlen _ hr.2
      simp only [hadd n s.length (by omega), Except.map]
      exact ⟨[], by rw [he]⟩
  cases hg : lpq_gettypemt L t with
  | none =>
    simp only [tovalue_default, hg] at h
    simp only [tovalue_default_stack, hg]
    exact raw h
  | some entry =>
    cases hsd : lua_getfield H entry LPQ_REGMT_SEND with
    | error x =>
      simp only [tovalue_default, hg, hsd] at h
      cases h
    | ok send =>
      cases hf : funcid send with
      | none =>
        simp only [tovalue_default, hg, hsd, hf] at h
        simp only [tovalue_default_stack, hg, hsd, hf]
        exact raw h
      | some f =>
        by_cases hm : mtIs (lua_getmetatable H v) entry = true
        · cases hc : H.call f [v] with
          | none =>
            simp only [tovalue_default, hg, hsd, hf, hm, if_true, hc] at h
            cases h
          | some r =>
            cases hl : lua_tolstring H r with
            | none =>
              simp only [tovalue_default, hg, hsd, hf, hm, if_true, hc, hl, Except.ok.injEq,
                Prod.mk.injEq] at h
              have he := hlen [] (by rw [List.append_nil]; exact h.2)
              simp only [List.length_nil] at he
              simp only [tovalue_default_stack, hg, hsd, hf, hm, if_true, hc, hl]
              exact ⟨_, by rw [he]; rfl⟩
            | some s =>
              simp only [tovalue_default, hg, hsd, hf, hm, if_true, hc, hl, Except.ok.injEq,
                Prod.mk.injEq] at h
              have he := hlen _ h.2
              simp only [tovalue_default_stack, hg, hsd, hf, hm, if_true, hc, hl,
                luaL_Buffer.push, hadd n s.length (by omega), Except.map, luaL_Buffer.pop]
              exact ⟨_, by rw [he]⟩
        · simp only [tovalue_default, hg, hsd, hf, hm] at h
          simp only [tovalue_default_stack, hg, hsd, hf, hm]
          exact raw h

/-- The first loop of `lpq_setparams`, when every encoding returns and no
called function calls back into the library: the loop either ends on the side
of the Lua stack (a fault of a buffer function), or returns; then the buffer
has grown by the encodings in order, and slot `i + j` of the length table has
the length returned in round `j`, converted to `int`. -/
theorem setparams_lengths_ok (H : Host) (L : lua_State) (args : List LuaValue) (type : List Nat)
    (hq : ∀ f a, H.reenter f a = []) :
    ∀ (k i : Nat) (length : List Int) (buf : Bytes) (B : luaL_Buffer) (encs : List Bytes),
      encs.length = k →
      (∀ j, j < k → lpq_tovalue H L (arg args (i + j + 2)) (type.getD (i + j) 0) []
        = .ok (((encs.getD j []).length : Int), encs.getD j [])) →
      (∃ e length2, setparams_lengths H L args type k i length buf B = (.error e, length2)) ∨
      ∃ B2 length2, setparams_lengths H L args type k i length buf B
          = (.ok (buf ++ encs.flatten, B2), length2) ∧
        length2.length = length.length ∧
        ∀ j, length2[j]? =
          if i ≤ j ∧ j < i + k ∧ j < length.length then
            some (to_int32 ((encs.getD (j - i) []).length : Int))
          else length[j]? := by
  intro k
  induction k with
  | zero =>
    intro i length buf B encs he _
    have : encs = [] := List.length_eq_zero.1 he
    subst this
    right
    refine ⟨B, length, by simp [setparams_lengths], rfl, ?_⟩
    intro j
    have : ¬ (i ≤ j ∧ j < i + 0 ∧ j < length.length) := by omega
    simp only [this, if_false]
  | succ k ih =>
    intro i length buf B encs he henc
    obtain ⟨e, encs1, rfl⟩ : ∃ e encs1, encs = e :: encs1 := by
      cases encs with
      | nil => simp at he
      | cons e encs1 => exact ⟨e, encs1, rfl⟩
    have he1 : encs1.length = k := by simpa using he
    have h0 := henc 0 (by omega)
    simp only [Nat.add_zero, List.getD_cons_zero] at h0
    have hb : lpq_tovalue H L (arg args (i + 2)) (type.getD i 0) buf
        = .ok ((e.length : Int), buf ++ e) := by
      rcases tovalue_append H L (arg args (i + 2)) (type.getD i 0) buf with
        ⟨e0, h1, h2⟩ | ⟨x, h1, _⟩
      · rw [h0] at h1
        simp only [Except.ok.injEq, Prod.mk.injEq] at h1
        rw [← h1.2] at h2
        exact h2
      · rw [h0] at h1
        simp at h1
    have hrest : ∀ j, j < k →
        lpq_tovalue H L (arg args (i + 1 + j + 2)) (type.getD (i + 1 + j) 0) []
          = .ok (((encs1.getD j []).length : Int), encs1.getD j []) := by
      intro j hj
      have := henc (j + 1) (by omega)
      simp only [List.getD_cons_succ] at this
      have e1 : i + (j + 1) = i + 1 + j := by omega
      rw [e1] at this
      exact this
    cases hs : tovalue_stack H L (arg args (i + 2)) (type.getD i 0) B with
    | error x =>
      left
      exact ⟨x, length, by simp only [setparams_lengths, hs]⟩
    | ok q =>
      obtain ⟨B1, st⟩ := q
      have hst : st = [] := tovalue_stack_quiet H L _ _ B B1 st hq hs
      subst hst
      have hstep : setparams_lengths H L args type (k + 1) i length buf B
          = setparams_lengths H L args type k (i + 1) (length.set i (to_int32 (e.length : Int)))
              (buf ++ e) B1 := by
        simp only [setparams_lengths, hs, hb, List.foldl_nil]
      rw [hstep]
      rcases ih (i + 1) (length.set i (to_int32 (e.length : Int))) (buf ++ e) B1 encs1 he1 hrest
        with ⟨x, length2, hr⟩ | ⟨B2, length2, hr, hl, hg⟩
      · left
        exact ⟨x, length2, hr⟩
      · right
        refine ⟨B2, length2, ?_, ?_, ?_⟩
        · simp only [hr, List.flatten_cons, List.append_assoc]
        · rw [hl, List.length_set]
        · intro j
          rw [hg j, List.length_set, List.getElem?_set]
          by_cases hji : j = i
          · subst hji
            have c1 : ¬ (j + 1 ≤ j ∧ j < j + 1 + k ∧ j < length.length) := by omega
            rw [if_neg c1, if_pos rfl]
            by_cases hlt : j < length.length
            · have c2 : j ≤ j ∧ j < j + (k + 1) ∧ j < length.length := by omega
              rw [if_pos hlt, if_pos c2, Nat.sub_self, List.getD_cons_zero]
            · have c2 : ¬ (j ≤ j ∧ j < j + (k + 1) ∧ j < length.length) := by omega
              rw [if_neg hlt, if_neg c2]
              have hle : length.length ≤ j := by omega
              exact (List.getElem?_eq_none hle).symm
          · by_cases hc : i + 1 ≤ j ∧ j < i + 1 + k ∧ j < length.length
            · have c2 : i ≤ j ∧ j < i + (k + 1) ∧ j < length.length := by omega
              have e2 : j - i = (j - (i + 1)) + 1 := by omega
              rw [if_pos hc, if_pos c2, e2, List.getD_cons_succ]
            · have c2 : ¬ (i ≤ j ∧ j < i + (k + 1) ∧ j < length.length) := by omega
              have c3 : ¬ (i = j) := fun h => hji h.symm
              rw [if_neg hc, if_neg c2, if_neg c3]

/-- The first loop of `lpq_setparams` on a buffer that is in its array and has
room for all the encodings: every round returns, whatever the encoders push
on the stack, and the buffer is still in its array at the end. -/
theorem setparams_lengths_small (H : Host) (L : lua_State) (args : List LuaValue)
    (type : List Nat) :
    ∀ (k i : Nat) (length : List Int) (buf : Bytes) (n size : Nat) (encs : List Bytes),
      encs.length = k →
      (∀ j, j < k → lpq_tovalue H L (arg args (i + j + 2)) (type.getD (i + j) 0) []
        = .ok (((encs.getD j []).length : Int), encs.getD j [])) →
      n + encs.flatten.length ≤ size →
      ∃ length2, setparams_lengths H L args type k i length buf
          { n := n, size := size, box := .initb }
        = (.ok (buf ++ encs.flatten,
            { n := n + encs.flatten.length, size := size, box := .initb }), length2) := by
  intro k
  induction k with
  | zero =>
    intro i length buf n size encs he _ _
    have : encs = [] := List.length_eq_zero.1 he
    subst this
    exact ⟨length, by simp [setparams_lengths]⟩
  | succ k ih =>
    intro i length buf n size encs he henc hsz
    obtain ⟨e, encs1, rfl⟩ : ∃ e encs1, encs = e :: encs1 := by
      cases encs with
      | nil => simp at he
      | cons e encs1 => exact ⟨e, encs1, rfl⟩
    have he1 : encs1.length = k := by simpa using he
    simp only [List.flatten_cons, List.length_append] at hsz
    have h0 := henc 0 (by omega)
    simp only [Nat.add_zero, List.getD_cons_zero] at h0
    have hb : lpq_tovalue H L (arg args (i + 2)) (type.getD i 0) buf
        = .ok ((e.length : Int), buf ++ e) := by
      rcases tovalue_append H L (arg args (i + 2)) (type.getD i 0) buf with
        ⟨e0, h1, h2⟩ | ⟨x, h1, _⟩
      · rw [h0] at h1
        simp only [Except.ok.injEq, Prod.mk.injEq] at h1
        rw [← h1.2] at h2
        exact h2
      · rw [h0] at h1
        simp at h1
    have hrest : ∀ j, j < k →
        lpq_tovalue H L (arg args (i + 1 + j + 2)) (type.getD (i + 1 + j) 0) []
          = .ok (((encs1.getD j []).length : Int), encs1.getD j []) := by
      intro j hj
      have := henc (j + 1) (by omega)
      simp only [List.getD_cons_succ] at this
      have e1 : i + (j + 1) = i + 1 + j := by omega
      rw [e1] at this
      exact this
    obtain ⟨st, hs⟩ := tovalue_stack_initb H L (arg args (i + 2)) (type.getD i 0) buf e _ n size
      hb (by omega)
    obtain ⟨length2, hr⟩ := ih (i + 1)
      ((st.foldl (fun t p => t.set p.1 p.2) length).set i (to_int32 (e.length : Int))) (buf ++ e)
      (n + e.length) size encs1 he1 hrest (by omega)
    refine ⟨length2, ?_⟩
    simp only [setparams_lengths, hs, hb, hr, List.flatten_cons, List.append_assoc,
      List.length_append, Nat.add_assoc]

/-- Parameter binding returns when all the encodings return and fit together
into the array of the buffer (`LUAL_BUFFERSIZE` bytes): no box is made, so
what the encoders leave on the Lua stack is in nobody's way. -/
theorem setparams_returns_small (H : Host) (L : lua_State) (P : lpq_Plan)
    (args : List LuaValue) (encs : List Bytes) (he : encs.length = P.n.toNat)
    (henc : ∀ i, i < encs.length →
      ∃ l, lpq_tovalue H L (arg args (i + 2)) (P.type.getD i 0) [] = .ok (l, encs.getD i []))
    (hsz : encs.flatten.length ≤ H.buffersize) :
    (lpq_setparams H L P args).1 = .ok encs.flatten := by
  have henc2 : ∀ j, j < P.n.toNat →
      lpq_tovalue H L (arg args (0 + j + 2)) (P.type.getD (0 + j) 0) []
        = .ok (((encs.getD j []).length : Int), encs.getD j []) := by
    intro j hj
    obtain ⟨l, h⟩ := henc j (by omega)
    rcases tovalue_append H L (arg args (j + 2)) (P.type.getD j 0) [] with ⟨e, h1, _⟩ | ⟨x, h1, _⟩
    · rw [h] at h1
      simp only [Except.ok.injEq, Prod.mk.injEq] at h1
      rw [Nat.zero_add, h, h1.1, h1.2]
    · rw [h] at h1
      simp at h1
  obtain ⟨length2, hr⟩ := setparams_lengths_small H L args P.type P.n.toNat 0 P.length [] 0
    H.buffersize encs he henc2 (by omega)
  simp only [lpq_setparams, luaL_buffinit, hr, luaL_pushresult, List.nil_append]

theorem setparams_returns_small_witness :
    (lpq_setparams plainHost luaopen_psql samplePlan
        [.handle .plan 0, .integer 5, .string [97, 98]]).1
      = .ok ([[0, 0, 0, 5], [97, 98]] : List Bytes).flatten :=
  setparams_returns_small plainHost luaopen_psql samplePlan
    [.handle .plan 0, .integer 5, .string [97, 98]] [[0, 0, 0, 5], [97, 98]] rfl
    (fun i hi =>
      match i, hi with
      | 0, _ => ⟨4, rfl⟩
      | 1, _ => ⟨2, rfl⟩
      | n + 2, h => absurd h (by simp))
    (by decide)

/-- C17 within its limits: parameter binding.  For a plan with `n ≥ 1`
parameters whose tables have `n` slots, and arguments whose encodings under
the recorded types all return (`encs[i]` is what the encoder appends for
parameter `i`), each of fewer than `2^31` bytes, with a host whose functions
do not call back into the library: when `lpq_setparams` returns, it returns
the single buffer that is the concatenation of the encodings in parameter
order; `length[i]` is the number of bytes of `encs[i]`; `value[i]` is the
offset that is the sum of the lengths before `i`, and the slice of the buffer
at that offset of that length is `encs[i]`; the other fields of the plan are
unchanged.  In every case of `lpq_tovalue` the length returned is the number
of bytes appended. -/
theorem setparams_binds_in_order (H : Host) (L : lua_State) (P : lpq_Plan)
    (args : List LuaValue) (encs : List Bytes)
    (hn : 1 ≤ P.n) (he : encs.length = P.n.toNat)
    (hv : P.value.length = P.n.toNat) (hl : P.length.length = P.n.toNat)
    (henc : ∀ i, i < encs.length →
      ∃ l, lpq_tovalue H L (arg args (i + 2)) (P.type.getD i 0) [] = .ok (l, encs.getD i []))
    (hint : ∀ i, i < encs.length → (encs.getD i []).length < 2147483648)
    (hq : ∀ f a, H.reenter f a = [])
    (hret : ∃ b, (lpq_setparams H L P args).1 = .ok b) :
    (∀ (v : LuaValue) (t : Nat) (b buf : Bytes) (l : Int),
      lpq_tovalue H L v t b = .ok (l, buf) → ∃ e, buf = b ++ e ∧ l = (e.length : Int)) ∧
    ∃ P1, lpq_setparams H L P args = (.ok encs.flatten, P1) ∧
      P1.length = encs.map (fun e => (e.length : Int)) ∧
      P1.value.length = encs.length ∧
      (∀ (i : Nat) (h : i < encs.length),
        P1.value.getD i 0 = ((encs.take i).flatten.length : Int) ∧
        (encs.flatten.drop (encs.take i).flatten.length).take encs[i].length = encs[i]) ∧
      P1.conn = P.conn ∧ P1.name = P.name ∧ P1.n = P.n ∧ P1.type = P.type ∧
      P1.format = P.format ∧ P1.valid = P.valid := by
  constructor
  · intro v t b buf l h
    rcases tovalue_append H L v t b with ⟨e, _, h2⟩ | ⟨x, _, h2⟩
    · rw [h] at h2
      simp only [Except.ok.injEq, Prod.mk.injEq] at h2
      exact ⟨e, h2.2, h2.1⟩
    · rw [h] at h2
      simp at h2
  have henc2 : ∀ j, j < P.n.toNat →
      lpq_tovalue H L (arg args (0 + j + 2)) (P.type.getD (0 + j) 0) []
        = .ok (((encs.getD j []).length : Int), encs.getD j []) := by
    intro j hj
    obtain ⟨l, h⟩ := henc j (by omega)
    rcases tovalue_append H L (arg args (j + 2)) (P.type.getD j 0) [] with ⟨e, h1, _⟩ | ⟨x, h1, _⟩
    · rw [h] at h1
      simp only [Except.ok.injEq, Prod.mk.injEq] at h1
      rw [Nat.zero_add, h, h1.1, h1.2]
    · rw [h] at h1
      simp at h1
  obtain ⟨b, hb⟩ := hret
  rcases setparams_lengths_ok H L args P.type hq P.n.toNat 0 P.length [] (luaL_buffinit H) encs he
    henc2 with ⟨x, length2, hr⟩ | ⟨B2, length2, hr, hlen2, hg⟩
  · simp only [lpq_setparams, hr] at hb
    cases hb
  have hpush : luaL_pushresult B2 = .ok () := by
    cases hp : luaL_pushresult B2 with
    | error x =>
      simp only [lpq_setparams, hr, hp] at hb
      cases hb
    | ok u => rfl
  have hlength : length2 = encs.map (fun e => (e.length : Int)) := by
    apply List.ext_getElem?
    intro j
    rw [hg j, List.getElem?_map]
    by_cases hj : j < P.n.toNat
    · have c : 0 ≤ j ∧ j < 0 + P.n.toNat ∧ j < P.length.length := by omega
      have hj2 : j < encs.length := by omega
      have hi := hint j hj2
      rw [if_pos c, Nat.sub_zero, to_int32_of_int _ (by omega) (by omega)]
      rw [List.getD_eq_getElem?_getD, List.getElem?_eq_getElem hj2]
      rfl
    · have c : ¬ (0 ≤ j ∧ j < 0 + P.n.toNat ∧ j < P.length.length) := by omega
      rw [if_neg c, List.getElem?_eq_none (by omega), List.getElem?_eq_none (by omega)]
      rfl
  have hv0 : ∀ j, j ≤ 0 → (P.value.set 0 0).getD j 0 = (length2.take j).sum := by
    intro j hj
    have : j = 0 := by omega
    subst this
    rw [List.getD_eq_getElem?_getD, List.getElem?_set]
    have : 0 < P.value.length := by omega
    simp [this]
  obtain ⟨hvl, hvs⟩ := setparams_values_ok length2 (P.n - 1).toNat 0 (P.value.set 0 0)
    (by rw [List.length_set]; omega) hv0
  refine ⟨{ P with length := length2,
                   value := setparams_values length2 (P.n - 1).toNat 0 (P.value.set 0 0) },
    ?_, hlength, ?_, ?_, rfl, rfl, rfl, rfl, rfl, rfl⟩
  · simp only [lpq_setparams, hr, hpush, List.nil_append]
  · show (setparams_values length2 (P.n - 1).toNat 0 (P.value.set 0 0)).length = encs.length
    rw [hvl, List.length_set]
    omega
  · intro i hi
    refine ⟨?_, flatten_slice encs i hi⟩
    show (setparams_values length2 (P.n - 1).toNat 0 (P.value.set 0 0)).getD i 0 = _
    rw [hvs i (by omega), hlength, ← List.map_take, sum_lengths]

theorem setparams_binds_in_order_witness :
    ∃ P1, lpq_setparams plainHost luaopen_psql samplePlan
        [.handle .plan 0, .integer 5, .string [97, 98]]
        = (.ok ([[0, 0, 0, 5], [97, 98]] : List Bytes).flatten, P1) ∧
      P1.length = ([[0, 0, 0, 5], [97, 98]] : List Bytes).map (fun e => (e.length : Int)) ∧
      P1.value.getD 1 0 = 4 := by
  obtain ⟨P1, h1, h2, _, h4, _⟩ :=
    (setparams_binds_in_order plainHost luaopen_psql samplePlan
      [.handle .plan 0, .integer 5, .string [97, 98]] [[0, 0, 0, 5], [97, 98]]
      (by decide) rfl rfl rfl
      (fun i hi =>
        match i, hi with
        | 0, _ => ⟨4, rfl⟩
        | 1, _ => ⟨2, rfl⟩
        | n + 2, h => absurd h (by simp))
      (fun i hi =>
        match i, hi with
        | 0, _ => by decide
        | 1, _ => by decide
        | n + 2, h => absurd h (by simp))
      (fun _ _ => rfl) ⟨_, rfl⟩).2
  exact ⟨P1, h1, h2, (h4 1 (by decide)).1⟩


/-- The interval case of the encoder on a buffer whose box is on the stack,
for a value whose three fields can be read: the three fields are pushed above
the box and stay there; a buffer function that has to resize the box in
between faults. -/
theorem interval_stack_above (H : Host) (L : lua_State) (v x y z : LuaValue) (B : luaL_Buffer)
    (a : Nat) (h1 : lua_getfield H v (cstr "time") = .ok x)
    (h2 : lua_getfield H v (cstr "day") = .ok y) (h3 : lua_getfield H v (cstr "month") = .ok z)
    (hb : B.box = .onstack a) :
    tovalue_stack H L v INTERVALOID B = .error .undefined ∨
      ∃ B2, tovalue_stack H L v INTERVALOID B = .ok (B2, []) ∧ B2.box = .onstack (a + 3) := by
  simp only [tovalue_stack, if_true, h1, h2, h3]
  rcases addlstring_above (B.push 1) 4 a (push_onstack B a 1 hb) with e1 | ⟨B1, e1, b1⟩
  · left
    simp only [e1, Except.bind]
  rcases addlstring_above B1 4 a b1 with e2 | ⟨B2, e2, b2⟩
  · left
    simp only [e1, e2, Except.bind]
  rcases addlstring_above (B2.push 1) 4 (a + 1) (push_onstack B2 (a + 1) 1 b2) with
    e3 | ⟨B3, e3, b3⟩
  · left
    simp only [e1, e2, e3, Except.bind]
  rcases addlstring_above (B3.push 1) 4 (a + 2) (push_onstack B3 (a + 2) 1 b3) with
    e4 | ⟨B4, e4, b4⟩
  · left
    simp only [e1, e2, e3, e4, Except.bind, Except.map]
  · right
    exact ⟨B4, by simp only [e1, e2, e3, e4, Except.bind, Except.map], b4⟩

/-- A text of more bytes than the array of the buffer holds puts the buffer
into a box at the top of the stack. -/
theorem text_stack_box (H : Host) (L : lua_State) (s : Bytes) (hs : H.buffersize < s.length) :
    tovalue_stack H L (.string s) TEXTOID (luaL_buffinit H)
      = .ok ({ n := s.length,
               size := if H.buffersize * 2 < s.length then s.length else H.buffersize * 2,
               box := .onstack 0 }, []) := by
  have hl0 : ¬ (s.length = 0) := by omega
  simp [tovalue_stack, TEXTOID, INTERVALOID, BOOLOID, CHAROID, INT4OID, OIDOID, FLOAT4OID,
    FLOAT8OID, BYTEAOID, lua_tolstring, luaL_addlstring, luaL_buffinit, luaL_prepbuffsize, hl0,
    hs, Except.map]

/-- A text of more bytes than the array of the buffer holds, bound in front of
an interval: the text puts the buffer into a box on the stack, the interval
case pushes its three fields above the box, and `lpq_setparams` faults, at the
latest in `luaL_pushresult`, which takes the value below the string it
pushed (the field `month`) for the box. -/
theorem setparams_box_below (H : Host) (L : lua_State) (s : Bytes) (time day month : Int)
    (hs : H.buffersize < s.length) :
    (lpq_setparams H L textInterval
        [.handle .plan 0, .string s, sampleInterval time day month]).1 = .error .undefined := by
  have hn : textInterval.n.toNat = 2 := rfl
  have a0 : arg [LuaValue.handle .plan 0, .string s, sampleInterval time day month] (0 + 2)
      = .string s := rfl
  have a1 : arg [LuaValue.handle .plan 0, .string s, sampleInterval time day month] (0 + 1 + 2)
      = sampleInterval time day month := rfl
  have t0 : textInterval.type.getD 0 0 = TEXTOID := rfl
  have t1 : textInterval.type.getD (0 + 1) 0 = INTERVALOID := rfl
  have r0 := text_stack_box H L s hs
  have r0b : lpq_tovalue H L (.string s) TEXTOID [] = .ok ((s.length : Int), [] ++ s) := by
    simp [lpq_tovalue, TEXTOID, INTERVALOID, BOOLOID, CHAROID, INT4OID, OIDOID, FLOAT4OID,
      FLOAT8OID, BYTEAOID, lua_tolstring]
  have hb : ∃ l buf1, lpq_tovalue H L (sampleInterval time day month) INTERVALOID ([] ++ s)
      = .ok (l, buf1) := by
    rcases tovalue_append H L (sampleInterval time day month) INTERVALOID ([] ++ s) with
      ⟨e, _, h2⟩ | ⟨x, h1, _⟩
    · exact ⟨_, _, h2⟩
    · simp [lpq_tovalue, sampleInterval, lua_getfield] at h1
  obtain ⟨l, buf1, hb1⟩ := hb
  simp only [lpq_setparams, hn, setparams_lengths, a0, a1, t0, t1, r0, r0b]
  rcases interval_stack_above H L (sampleInterval time day month) _ _ _
      { n := s.length,
        size := if H.buffersize * 2 < s.length then s.length else H.buffersize * 2,
        box := .onstack 0 } 0 rfl rfl rfl rfl with h | ⟨B2, h, hbox⟩
  · simp only [h]
  · simp only [h, hb1, luaL_pushresult, hbox]

theorem setparams_box_below_witness :
    (lpq_setparams wrapHost luaopen_psql textInterval
        [.handle .plan 0, .string (List.replicate 10000 120), sampleInterval 0 1 2]).1
      = .error .undefined :=
  setparams_box_below wrapHost luaopen_psql (List.replicate 10000 120) 0 1 2
    (by rw [List.length_replicate]; decide)

/-- A `__send` function that calls back into the library and executes the
plan whose parameters are being bound: the lengths of the parameters bound
before it are overwritten.  With the text `ab` and a value of the registered
type 21 whose `__send` function returns `xyz`, the buffer is `abxyz`, but slot
0 of the length table holds the 99 the inner call stored, and slot 1 of the
value table is offset 99, outside the buffer.  With the same function not
calling back, the lengths are 2 and 3. -/
theorem setparams_reentered :
    (lpq_setparams reenterHost sampleRegistry textCodec
        [.handle .plan 0, .string [97, 98], .userdata (some 500) [1]]).1
      = .ok [97, 98, 120, 121, 122] ∧
    (lpq_setparams reenterHost sampleRegistry textCodec
        [.handle .plan 0, .string [97, 98], .userdata (some 500) [1]]).2.length = [99, 3] ∧
    (lpq_setparams reenterHost sampleRegistry textCodec
        [.handle .plan 0, .string [97, 98], .userdata (some 500) [1]]).2.value = [0, 99] ∧
    (lpq_setparams { reenterHost with reenter := fun _ _ => [] } sampleRegistry textCodec
        [.handle .plan 0, .string [97, 98], .userdata (some 500) [1]]).2.length = [2, 3] := by
  refine ⟨rfl, rfl, rfl, rfl⟩

/-- C17 (the defect): the interval case of `lpq_tovalue` pushes the fields
`time`, `day` and `month` with `lua_getfield` and pops none of them, and
`lpq_setparams` calls `luaL_pushresult` with them on the stack.  Once the
buffer has outgrown its array (`LUAL_BUFFERSIZE` bytes) it lives in a box on
the stack, which `luaL_pushresult` looks for right below the string it
pushes.  For every host and state, a text of more than `LUAL_BUFFERSIZE`
bytes bound in front of an interval makes `lpq_setparams` fault; so with a
text of 10000 bytes and the buffer size 8192: the interval case leaves the
box three values down, and `luaL_pushresult` takes the field `month` for the
box.  With the text `ab` the same call returns the 18 bytes of the two
encodings. -/
theorem setparams_unbalanced_stack :
    (∀ (H : Host) (L : lua_State) (k c : Nat) (time day month : Int),
      (lpq_setparams H L textInterval
          [.handle .plan 0, .string (List.replicate (H.buffersize + 1 + k) c),
            sampleInterval time day month]).1 = .error .undefined) ∧
    wrapHost.buffersize = 8192 ∧
    (lpq_setparams wrapHost luaopen_psql textInterval
        [.handle .plan 0, .string (List.replicate 10000 120), sampleInterval 0 1 2]).1
      = .error .undefined ∧
    tovalue_stack wrapHost luaopen_psql (.string (List.replicate 10000 120)) TEXTOID
        (luaL_buffinit wrapHost)
      = .ok ({ n := 10000, size := 16384, box := .onstack 0 }, []) ∧
    tovalue_stack wrapHost luaopen_psql (sampleInterval 0 1 2) INTERVALOID
        { n := 10000, size := 16384, box := .onstack 0 }
      = .ok ({ n := 10016, size := 16384, box := .onstack 3 }, []) ∧
    luaL_pushresult { n := 10016, size := 16384, box := .onstack 3 } = .error .undefined ∧
    (lpq_setparams wrapHost luaopen_psql textInterval
        [.handle .plan 0, .string [97, 98], sampleInterval 0 1 2]).1
      = .ok [97, 98, 0, 0, 0, 0, 0, 0, 0, 0, 0, 0, 0, 1, 0, 0, 0, 2] := by
  refine ⟨?_, rfl, ?_, ?_, rfl, rfl, rfl⟩
  · intro H L k c time day month
    exact setparams_box_below H L _ time day month (by rw [List.length_replicate]; omega)
  · exact setparams_box_below wrapHost luaopen_psql _ 0 1 2
      (by rw [List.length_replicate]; decide)
  · rw [text_stack_box wrapHost luaopen_psql _ (by rw [List.length_replicate]; decide),
      List.length_replicate]
    rfl

/-! ## The stores of parameter binding and the model of the call -/

/-- The stores of the first loop: the loop comes to its end, with the buffer
`B2`, exactly when `setparams_lengths` returns with that buffer; the stores
are `length[i]`, `length[i + 1]`, ... in order, up to the round that raises
or faults, and all `k` of them when the loop comes to its end. -/
theorem lengths_stores_spec (H : Host) (L : lua_State) (args : List LuaValue) (type : List Nat)
    (k i : Nat) (buf : Bytes) (B : luaL_Buffer) (length : List Int) :
    (∀ B2, (setparams_lengths_stores H L args type k i buf B).1 = some B2 ↔
        ∃ b, (setparams_lengths H L args type k i length buf B).1 = .ok (b, B2)) ∧
      (setparams_lengths_stores H L args type k i buf B).2 <+: (List.range' i k).map .length ∧
      ((setparams_lengths_stores H L args type k i buf B).1.isSome = true →
        (setparams_lengths_stores H L args type k i buf B).2
          = (List.range' i k).map .length) := by
  induction k generalizing i buf B length with
  | zero =>
    simp [setparams_lengths_stores, setparams_lengths, eq_comm]
  | succ k ih =>
    simp only [setparams_lengths_stores, setparams_lengths]
    cases hs : tovalue_stack H L (arg args (i + 2)) (type.getD i 0) B with
    | error e =>
      simp
    | ok q =>
      obtain ⟨B1, stores⟩ := q
      simp only
      cases hx : lpq_tovalue H L (arg args (i + 2)) (type.getD i 0) buf with
      | error e =>
        simp
      | ok p =>
        obtain ⟨l, buf1⟩ := p
        obtain ⟨h1, h2, h3⟩ := ih (i + 1) buf1 B1
          ((stores.foldl (fun t p => t.set p.1 p.2) length).set i (to_int32 l))
        simp only [List.range'_succ, List.map_cons]
        refine ⟨h1, ?_, ?_⟩
        · exact (List.prefix_cons_inj _).2 h2
        · intro h
          rw [h3 h]

/-- The stores one call of `lpq_setparams` makes are the first of the list
`setparams_stores`, and all of that list when the call returns. -/
theorem setparams_trace_spec (H : Host) (L : lua_State) (P : lpq_Plan) (args : List LuaValue) :
    setparams_trace H L P args <+: setparams_stores P.n ∧
      ((∃ b, (lpq_setparams H L P args).1 = .ok b) →
        setparams_trace H L P args = setparams_stores P.n) := by
  obtain ⟨h1, h2, h3⟩ :=
    lengths_stores_spec H L args P.type P.n.toNat 0 [] (luaL_buffinit H) P.length
  rw [← List.range_eq_range'] at h2 h3
  have hp : ∀ (B : luaL_Buffer) (t : List Store),
      setparams_lengths_stores H L args P.type P.n.toNat 0 [] (luaL_buffinit H) = (some B, t) →
      t = (List.range P.n.toNat).map .length := by
    intro B t ht
    rw [ht] at h3
    exact h3 rfl
  constructor
  · unfold setparams_trace setparams_stores
    split
    · rename_i tr htr
      rw [htr] at h2
      rw [List.append_assoc]
      exact List.IsPrefix.trans h2 (List.prefix_append _ _)
    · rename_i B tr htr
      split
      · rw [hp B tr htr, List.append_assoc]
        exact List.prefix_append _ _
      · rw [hp B tr htr]
  · rintro ⟨b, hb⟩
    unfold lpq_setparams at hb
    split at hb
    · cases hb
    · rename_i buf B length heq
      split at hb
      · cases hb
      · rename_i u hpush
        have ht := (h1 B).2 ⟨buf, by rw [heq]⟩
        unfold setparams_trace setparams_stores
        split
        · rename_i tr htr
          rw [htr] at ht
          cases ht
        · rename_i B2 tr htr
          rw [htr] at ht
          simp only [Option.some.injEq] at ht
          subst ht
          rw [hpush, hp B2 tr htr]

/-- Parameter binding for a plan with at least one parameter.  For a plan
with `n ≥ 1` parameters whose value and length tables have `n` slots, as
`lpq_getplan` allocates them, every store a call of `lpq_setparams` makes,
whether the call returns or an encoder raises, goes to a slot `j < n` of its
table; and a call that returns makes the stores `length[0 .. n)`, `value[0]`,
`value[1 .. n)`. -/
theorem setparams_within_tables (H : Host) (L : lua_State) (P : lpq_Plan) (args : List LuaValue)
    (hn : 1 ≤ P.n) (hv : P.value.length = P.n.toNat) (hl : P.length.length = P.n.toNat) :
    (∀ s ∈ setparams_trace H L P args, Store.inside P s = true) ∧
      ((∃ b, (lpq_setparams H L P args).1 = .ok b) →
        setparams_trace H L P args = setparams_stores P.n) := by
  obtain ⟨h1, h2⟩ := setparams_trace_spec H L P args
  refine ⟨?_, h2⟩
  intro s hs
  exact setparams_stores_inside P hn hv hl s (h1.subset hs)

theorem setparams_within_tables_witness :
    (∀ s ∈ setparams_trace plainHost luaopen_psql samplePlan
        [.handle .plan 0, .integer 1, .string [65]], Store.inside samplePlan s = true) ∧
      ((∃ b, (lpq_setparams plainHost luaopen_psql samplePlan
          [.handle .plan 0, .integer 1, .string [65]]).1 = .ok b) →
        setparams_trace plainHost luaopen_psql samplePlan
            [.handle .plan 0, .integer 1, .string [65]]
          = setparams_stores samplePlan.n) :=
  setparams_within_tables plainHost luaopen_psql samplePlan
    [.handle .plan 0, .integer 1, .string [65]] (by decide) rfl rfl

end Luapsql
